import Mathlib

/-!
# cpusets-controller: CPU pool allocation and cpuset computation

A shallow embedding of the allocation engine of `kubeservice-stack/cpusets-controller`
(`pkg/types/pool.go`, `pkg/topology/topology.go`, `pkg/checkpoint/checkpoint.go`,
`pkg/controller/controller.go`, `cmd/cpusets-device-plugin/device-plugin.go`).

Conventions of the embedding.

* A `cpuset.CPUSet` is a finite set of Go `int`s: `Finset Int`.
* A Go map that the code only looks keys up in is a function to `Option`.
* A Go map that the code ranges over is the list of its entries in the order in which
  that `range` statement visits them.  Go leaves that order unspecified and lets it
  differ from one `range` to the next, so every `range` receives its own list.
* Functions of libraries outside the repository (`strconv.Atoi`, `cpuset.Parse`,
  `CPUSet.String`) are parameters of the functions that call them; `none` stands for a
  returned error.
* A function returning `(value, error)` returns `Except Failure value`.
-/

namespace CpusetsController

/-! ## Go strings -/

/-- Go `strings.HasPrefix(s, pfx)`. -/
def HasPrefix (s pfx : String) : Bool :=
  pfx.data.isPrefixOf s.data

/-- Go `strings.Contains(s, substr)`. -/
def Contains (s substr : String) : Bool :=
  s.data.tails.any (fun t => substr.data.isPrefixOf t)

/-- Pieces of a character list between the occurrences of `sep`; `cur` holds the
characters of the current piece, last one first. -/
def splitChars (sep : Char) : List Char → List Char → List String
  | [], cur => [String.mk cur.reverse]
  | c :: cs, cur =>
    if c = sep then String.mk cur.reverse :: splitChars sep cs []
    else splitChars sep cs (c :: cur)

/-- Go `strings.Split(s, sep)` for a separator of one character (`"/"` in this code). -/
def Split (s : String) (sep : Char) : List String :=
  splitChars sep s.data []

/-! ## `pkg/types/pool.go` -/

/-- A `cpuset.CPUSet`. -/
abbrev CPUSet := Finset Int

/-- Constant `SharedPoolID`. -/
def SharedPoolID : String := "shared"

/-- Constant `ExclusivePoolID`. -/
def ExclusivePoolID : String := "exclusive"

/-- Constant `DefaultPoolID`. -/
def DefaultPoolID : String := "default"

/-- Constant `SingleThreadHTPolicy`. -/
def SingleThreadHTPolicy : String := "singleThreaded"

/-- Constant `MultiThreadHTPolicy`. -/
def MultiThreadHTPolicy : String := "multiThreaded"

/-- The struct `Pool`. -/
structure Pool where
  CPUset : CPUSet
  CPUStr : String
  HTPolicy : String
  deriving DecidableEq

/-- The zero value `Pool{}`. -/
def Pool.zero : Pool := ⟨∅, "", ""⟩

/-- `PoolConfig.SelectPoolConfig`: `pools` lists the entries of `p.Pools` in the order
in which this call's `range` visits them. -/
def SelectPoolConfig : List (String × Pool) → String → Pool
  | [], _ => Pool.zero
  | (poolName, pool) :: rest, pfx =>
    if HasPrefix poolName pfx then pool else SelectPoolConfig rest pfx

/-- `DeterminePoolType`. -/
def DeterminePoolType (poolName : String) : String :=
  if HasPrefix poolName SharedPoolID then SharedPoolID
  else if HasPrefix poolName ExclusivePoolID then ExclusivePoolID
  else DefaultPoolID

/-! ## `pkg/topology/topology.go` -/

/-- `CPUSet.ToSlice`: the elements in ascending order. -/
def ToSlice (s : CPUSet) : List Int :=
  s.sort (· ≤ ·)

/-- The loop of `AddHTSiblingsToCPUSet` over the remaining core IDs of the slice, with
the current value of `tempSet`. -/
def addSiblingsLoop (parse : String → Option CPUSet) (coreMap : Int → Option String)
    (exclusiveCPUSet : CPUSet) : List Int → CPUSet → CPUSet
  | [], tempSet => tempSet
  | coreID :: rest, tempSet =>
    match coreMap coreID with
    | some siblings =>
      match parse siblings with
      | none => exclusiveCPUSet
      | some siblingSet =>
        addSiblingsLoop parse coreMap exclusiveCPUSet rest (tempSet ∪ siblingSet)
    | none => addSiblingsLoop parse coreMap exclusiveCPUSet rest tempSet

/-- `AddHTSiblingsToCPUSet`; `parse` is `cpuset.Parse`. -/
def AddHTSiblingsToCPUSet (parse : String → Option CPUSet) (exclusiveCPUSet : CPUSet)
    (coreMap : Int → Option String) : CPUSet :=
  addSiblingsLoop parse coreMap exclusiveCPUSet (ToSlice exclusiveCPUSet) exclusiveCPUSet

/-- The body of the loop of `GetHTTopology` for one entry of `coreMap`. -/
def htStep (itoa : Int → String) (htMap : Int → Option String)
    (entry : Int × Int) : Int → Option String :=
  let logicalCoreID := entry.1
  let physicalCoreID := entry.2
  if physicalCoreID ≠ logicalCoreID then
    let old := (htMap physicalCoreID).getD ""
    let withComma := if old ≠ "" then old ++ "," else old
    Function.update htMap physicalCoreID (some (withComma ++ itoa logicalCoreID))
  else htMap

/-- `GetHTTopology` on the map `listAndParseCores("core")` returned, given as its
entries (logical core, physical core) in the order the `range` visits them; `itoa` is
`strconv.Itoa`. -/
def GetHTTopology (itoa : Int → String) (coreMap : List (Int × Int)) : Int → Option String :=
  coreMap.foldl (htStep itoa) (fun _ => none)

/-- The parsed sibling list the map records for a core: what one pass of
`AddHTSiblingsToCPUSet` adds for that core. -/
def siblingsOf (parse : String → Option CPUSet) (coreMap : Int → Option String)
    (coreID : Int) : CPUSet :=
  match coreMap coreID with
  | some siblings => (parse siblings).getD ∅
  | none => ∅

/-- Whether the sibling list recorded for a core, if any, parses. -/
def siblingsParsable (parse : String → Option CPUSet) (coreMap : Int → Option String)
    (coreID : Int) : Bool :=
  match coreMap coreID with
  | some siblings => (parse siblings).isSome
  | none => true

/-! ## `pkg/checkpoint/checkpoint.go` -/

/-- The struct `PodDevicesEntry` (kubelet checkpoint until Kubernetes 1.20). -/
structure PodDevicesEntry where
  PodUID : String
  ContainerName : String
  ResourceName : String
  DeviceIDs : List String
  deriving DecidableEq

/-- The struct `NewPodDevicesEntry` (Kubernetes 1.21 onward).  `DeviceIDs` is a
`map[int64][]string`: its entries (NUMA node, device IDs) in the order in which the
`range` of `TranslateNewCheckpointToOld` visits them. -/
structure NewPodDevicesEntry where
  PodUID : String
  ContainerName : String
  ResourceName : String
  DeviceIDs : List (Int × List String)
  deriving DecidableEq

/-- The struct `File`, reduced to `Data.PodDeviceEntries`. -/
structure File where
  PodDeviceEntries : List PodDevicesEntry
  deriving DecidableEq

/-- The struct `NewFile`, reduced to `Data.PodDeviceEntries`. -/
structure NewFile where
  PodDeviceEntries : List NewPodDevicesEntry
  deriving DecidableEq

/-- The inner loop of `TranslateNewCheckpointToOld`: every per-NUMA slice is appended
to the flat slice, which starts out nil. -/
def flattenDeviceIDs (deviceIDs : List (Int × List String)) : List String :=
  deviceIDs.foldl (fun flat devicesPerNUMA => flat ++ devicesPerNUMA.2) []

/-- `TranslateNewCheckpointToOld`. -/
def TranslateNewCheckpointToOld (newFile : NewFile) : File :=
  ⟨newFile.PodDeviceEntries.map fun podDeviceEntry =>
    { PodUID := podDeviceEntry.PodUID
      ContainerName := podDeviceEntry.ContainerName
      ResourceName := podDeviceEntry.ResourceName
      DeviceIDs := flattenDeviceIDs podDeviceEntry.DeviceIDs }⟩

/-! ## `pkg/controller/controller.go` -/

/-- What a call can end with instead of a value. -/
inductive Failure where
  /-- The error `strconv.Atoi` returned for a device ID. -/
  | atoi (deviceID : String)
  /-- The kubelet checkpoint file could not be read or decoded. -/
  | checkpoint
  /-- The run-time panic "index out of range". -/
  | indexOutOfRange
  deriving DecidableEq

/-- The condition under which an entry of the checkpoint is collected. -/
def entryMatches (entry : PodDevicesEntry) (podIDStr containerName exclusivePoolName : String) :
    Bool :=
  entry.PodUID == podIDStr && entry.ContainerName == containerName &&
    entry.ResourceName == exclusivePoolName

/-- The loop of `getListOfAllocatedExclusiveCpus` that collects `deviceIDs`. -/
def collectDeviceIDs (entries : List PodDevicesEntry)
    (podIDStr containerName exclusivePoolName : String) : List String :=
  entries.foldl (fun deviceIDs entry =>
    if entryMatches entry podIDStr containerName exclusivePoolName
    then deviceIDs ++ entry.DeviceIDs else deviceIDs) []

/-- The loop of `calculateFinalExclusiveSet` over the remaining device IDs, with the
elements the set builder holds so far. -/
def buildExclusiveSet (atoi : String → Option Int) : List String → CPUSet → Except Failure CPUSet
  | [], built => .ok built
  | deviceID :: rest, built =>
    match atoi deviceID with
    | none => .error (.atoi deviceID)
    | some deviceIDasInt => buildExclusiveSet atoi rest (insert deviceIDasInt built)

/-- `calculateFinalExclusiveSet`; `atoi` is `strconv.Atoi`. -/
def calculateFinalExclusiveSet (atoi : String → Option Int) (exclusiveCpus : List String) :
    Except Failure CPUSet :=
  buildExclusiveSet atoi exclusiveCpus ∅

/-- `getListOfAllocatedExclusiveCpus`.  `checkpointFile` is what reading and decoding
the kubelet checkpoint gave (under the old schema, or under the new one followed by
`TranslateNewCheckpointToOld`); of the pod and the container the function uses the UID
and the name. -/
def getListOfAllocatedExclusiveCpus (atoi : String → Option Int)
    (checkpointFile : Except Failure File)
    (exclusivePoolName podUID containerName : String) : Except Failure CPUSet :=
  match checkpointFile with
  | .error e => .error e
  | .ok cp =>
    let deviceIDs := collectDeviceIDs cp.PodDeviceEntries podUID containerName exclusivePoolName
    if deviceIDs.length = 0 then .ok ∅
    else calculateFinalExclusiveSet atoi deviceIDs

/-- What `determineCorrectCpuset` reads besides the pod and the container. -/
structure Env where
  /-- `strconv.Atoi`. -/
  atoi : String → Option Int
  /-- `cpuset.Parse`. -/
  parse : String → Option CPUSet
  /-- The constant `resourceBaseName` of the controller package. -/
  resourceBaseName : String
  /-- The entries of `cc.poolConfig.Pools` in the order in which `SelectPoolConfig`
  visits them during the loop iteration of the given request key. -/
  poolsAt : String → List (String × Pool)
  /-- The entries of `cc.poolConfig.Pools` in the order in which the final
  `SelectPoolConfig(types.DefaultPoolID)` visits them. -/
  poolsAtDefault : List (String × Pool)
  /-- The outcome of reading and decoding the kubelet checkpoint file. -/
  checkpointFile : Except Failure File
  /-- The map `topology.GetHTTopology()` returns. -/
  htMap : Int → Option String

/-- The first branch condition of the loop of `determineCorrectCpuset`. -/
def isSharedRequest (base resNameAsString : String) : Bool :=
  Contains resNameAsString base && Contains resNameAsString SharedPoolID

/-- The second branch condition of the loop of `determineCorrectCpuset`. -/
def isExclusiveRequest (base resNameAsString : String) : Bool :=
  Contains resNameAsString base && Contains resNameAsString ExclusivePoolID

/-- The loop of `determineCorrectCpuset` over the remaining request keys, with the
current `sharedCPUSet` and `exclusiveCPUSet`. -/
def scanRequests (env : Env) (podUID containerName : String) :
    List String → CPUSet × CPUSet → Except Failure (CPUSet × CPUSet)
  | [], sets => .ok sets
  | resNameAsString :: rest, (sharedCPUSet, exclusiveCPUSet) =>
    if isSharedRequest env.resourceBaseName resNameAsString then
      scanRequests env podUID containerName rest
        ((SelectPoolConfig (env.poolsAt resNameAsString) SharedPoolID).CPUset, exclusiveCPUSet)
    else if isExclusiveRequest env.resourceBaseName resNameAsString then
      match getListOfAllocatedExclusiveCpus env.atoi env.checkpointFile resNameAsString
          podUID containerName with
      | .error e => .error e
      | .ok allocated =>
        match (Split resNameAsString '/').get? 1 with
        | none => .error .indexOutOfRange
        | some exclusivePoolName =>
          if (SelectPoolConfig (env.poolsAt resNameAsString) exclusivePoolName).HTPolicy
              = MultiThreadHTPolicy then
            scanRequests env podUID containerName rest
              (sharedCPUSet, AddHTSiblingsToCPUSet env.parse allocated env.htMap)
          else scanRequests env podUID containerName rest (sharedCPUSet, allocated)
    else scanRequests env podUID containerName rest (sharedCPUSet, exclusiveCPUSet)

/-- `determineCorrectCpuset`.  `requests` lists the keys of
`container.Resources.Requests` in the order in which the `range` visits them. -/
def determineCorrectCpuset (env : Env) (podUID containerName : String)
    (requests : List String) : Except Failure CPUSet :=
  match scanRequests env podUID containerName requests (∅, ∅) with
  | .error e => .error e
  | .ok (sharedCPUSet, exclusiveCPUSet) =>
    if sharedCPUSet ≠ ∅ ∨ exclusiveCPUSet ≠ ∅ then .ok (sharedCPUSet ∪ exclusiveCPUSet)
    else .ok (SelectPoolConfig env.poolsAtDefault DefaultPoolID).CPUset

/-- The value the loop of `determineCorrectCpuset` assigns to `exclusiveCPUSet` for an
exclusive request key whose second segment is `poolName` and whose allocation read
from the checkpoint is `allocated`. -/
def exclusiveContribution (env : Env) (resNameAsString poolName : String)
    (allocated : CPUSet) : CPUSet :=
  if (SelectPoolConfig (env.poolsAt resNameAsString) poolName).HTPolicy = MultiThreadHTPolicy
  then AddHTSiblingsToCPUSet env.parse allocated env.htMap else allocated

/-- The device IDs of the entries of a checkpoint whose `PodUID`, `ContainerName` and
`ResourceName` equal the given pod UID, container name and resource name, in file
order (the wording of the specification). -/
def matchingDeviceIDs (cp : File) (podUID containerName resourceName : String) :
    List String :=
  (cp.PodDeviceEntries.filter fun entry =>
    decide (entry.PodUID = podUID ∧ entry.ContainerName = containerName ∧
      entry.ResourceName = resourceName)).flatMap fun entry => entry.DeviceIDs

/-! ## `cmd/cpusets-device-plugin/device-plugin.go` -/

/-- The loop of `validatePools` over the remaining pools, with the current value of
`sharedCPUs`; the second component is the returned error, if any. -/
def validateLoop (cpusetString : CPUSet → String) :
    List (String × Pool) → String → String × Option String
  | [], sharedCPUs => (sharedCPUs, none)
  | (poolName, pool) :: rest, sharedCPUs =>
    if DeterminePoolType poolName = SharedPoolID then
      if sharedCPUs ≠ "" then (sharedCPUs, some "Only one shared pool allowed")
      else validateLoop cpusetString rest (cpusetString pool.CPUset)
    else validateLoop cpusetString rest sharedCPUs

/-- `validatePools`: `pools` lists the entries of `poolConf.Pools` in the order in which
the `range` visits them; `cpusetString` is `CPUSet.String`. -/
def validatePools (cpusetString : CPUSet → String) (pools : List (String × Pool)) :
    String × Option String :=
  validateLoop cpusetString pools ""

/-! ## Pods (`k8s.io/api/core/v1`, the fields the controller reads) -/

/-- The struct `v1.ContainerStatus`. -/
structure v1.ContainerStatus where
  Name : String
  ContainerID : String
  deriving DecidableEq

/-- The struct `v1.Container`: `Requests` lists the keys of `Resources.Requests` in the
order in which the `range` of `determineCorrectCpuset` visits them. -/
structure v1.Container where
  Name : String
  Requests : List String
  deriving DecidableEq

/-- The struct `metav1.ObjectMeta`. -/
structure v1.ObjectMeta where
  Name : String
  Namespace : String
  UID : String
  deriving DecidableEq

/-- The struct `v1.PodSpec`. -/
structure v1.PodSpec where
  NodeName : String
  Containers : List v1.Container
  deriving DecidableEq

/-- The struct `v1.PodStatus`. -/
structure v1.PodStatus where
  Phase : String
  ContainerStatuses : List v1.ContainerStatus
  deriving DecidableEq

/-- The struct `v1.Pod`. -/
structure v1.Pod where
  ObjectMeta : v1.ObjectMeta
  Spec : v1.PodSpec
  Status : v1.PodStatus
  deriving DecidableEq

/-- Constant `v1.PodSucceeded`. -/
def v1.PodSucceeded : String := "Succeeded"

/-- Constant `v1.PodFailed`. -/
def v1.PodFailed : String := "Failed"

/-! ## `pkg/controller/controller.go`: pod events -/

/-- `isPodReadyForProcessing`. -/
def isPodReadyForProcessing (pod : v1.Pod) : Bool :=
  if pod.Spec.NodeName = "" ∨
      pod.Status.ContainerStatuses.length ≠ pod.Spec.Containers.length then false
  else pod.Status.ContainerStatuses.all fun cStatus => cStatus.ContainerID ≠ ""

/-- The end of `shouldPodBeHandled`, after its loop. -/
def handledOnThisNode (nodeName : String) (pod : v1.Pod) : Bool × v1.Pod :=
  if nodeName ≠ pod.Spec.NodeName then (false, pod) else (true, pod)

/-- The loop of `shouldPodBeHandled` with `remaining` iterations left, of which the
next has the counter `i`; `refresh i` is what `client.RefreshPod` returns in the
iteration with counter `i`. -/
def refreshLoop (nodeName : String) (refresh : Nat → Except String v1.Pod) (pod : v1.Pod) :
    Nat → Nat → Bool × v1.Pod
  | 0, _ => handledOnThisNode nodeName pod
  | remaining + 1, i =>
    match refresh i with
    | .error _ => (false, pod)
    | .ok newPod =>
      if isPodReadyForProcessing newPod then handledOnThisNode nodeName newPod
      else refreshLoop nodeName refresh pod remaining (i + 1)

/-- `shouldPodBeHandled`; `maxRetryCount` is the constant `MaxRetryCount` and `nodeName`
is `config.NodeName`. -/
def shouldPodBeHandled (maxRetryCount : Nat) (nodeName : String)
    (refresh : Nat → Except String v1.Pod) (pod : v1.Pod) : Bool × v1.Pod :=
  if pod.Status.Phase = v1.PodSucceeded ∨ pod.Status.Phase = v1.PodFailed then (false, pod)
  else refreshLoop nodeName refresh pod maxRetryCount 0

/-- The loop of `gatherAllContainers`, with the names put into `workingContainers` so
far. -/
def gatherLoop : List v1.ContainerStatus → List String → List String
  | [], workingContainers => workingContainers
  | containerStatus :: rest, workingContainers =>
    if containerStatus.ContainerID = "" then []
    else gatherLoop rest (workingContainers ++ [containerStatus.Name])

/-- `gatherAllContainers`: the keys of the returned map. -/
def gatherAllContainers (pod : v1.Pod) : List String :=
  gatherLoop pod.Status.ContainerStatuses []

/-- Go `strings.TrimPrefix(s, pfx)`. -/
def TrimPrefix (s pfx : String) : String :=
  if HasPrefix s pfx then String.mk (s.data.drop pfx.data.length) else s

/-- `trimContainerPrefix`; `containerPrefixList` is the package variable of that name. -/
def trimContainerPrefix (containerPrefixList : List String) (contName : String) : String :=
  match containerPrefixList.find? fun pfx => HasPrefix contName pfx with
  | some pfx => TrimPrefix contName pfx
  | none => contName

/-- `determineCid`. -/
def determineCid (containerPrefixList : List String) (podStatus : v1.PodStatus)
    (containerName : String) : String :=
  match podStatus.ContainerStatuses.find? fun containerStatus =>
      containerStatus.Name = containerName with
  | some containerStatus => trimContainerPrefix containerPrefixList containerStatus.ContainerID
  | none => ""

/-! ## `pkg/types/pool.go`: the configuration of a node -/

/-- The errors of the package `types` (`const.go`), and an error of another origin. -/
inductive TypesError where
  | ErrNoContainerName
  | ErrNoProcesses
  | ErrNoProcessName
  | ErrNoCpus
  | ErrNotReadPoolConfig
  | ErrNotParsePoolConfig
  | ErrNotMatchPoolConfig
  | ErrCallAPIServerNodeInfo
  | other (message : String)
  deriving DecidableEq

/-- The struct `PoolConfig`: `Pools` holds the entries of the map, `NodeSelector` is
only looked keys up in. -/
structure PoolConfig where
  Pools : List (String × Pool)
  NodeSelector : String → Option String

/-- The inner loop of `parsePoolConfigs`: whether some label of the node is a key of the
node selector with the same value. -/
def selectorMatches (labelMap : List (String × String)) (poolConf : PoolConfig) : Bool :=
  labelMap.any fun entry => poolConf.NodeSelector entry.1 = some entry.2

/-- The outer loop of `parsePoolConfigs`; `labelMap` is `none` for the nil map. -/
def parsePoolConfigsLoop (labelMap : Option (List (String × String))) :
    List PoolConfig → Except TypesError PoolConfig
  | [] => .error .ErrNotMatchPoolConfig
  | poolConf :: rest =>
    match labelMap with
    | none => .ok poolConf
    | some labels =>
      if selectorMatches labels poolConf then .ok poolConf
      else parsePoolConfigsLoop labelMap rest

/-- `parsePoolConfigs`; `poolConfs` is what `readAllPoolConfigs(fileMatch)` returns. -/
def parsePoolConfigs (labelMap : Option (List (String × String)))
    (poolConfs : Except TypesError (List PoolConfig)) : Except TypesError PoolConfig :=
  match poolConfs with
  | .error err => .error err
  | .ok confs => parsePoolConfigsLoop labelMap confs

/-! ## `pkg/types/annotation.go` -/

/-- The struct `Process`. -/
structure Process where
  ProcName : String
  Args : List String
  CPUs : Int
  PoolName : String
  deriving DecidableEq

/-- The struct `Container` of the annotation. -/
structure Container where
  Name : String
  Processes : List Process
  deriving DecidableEq

/-- The map type `CPUAnnotation`: its entries, every key once. -/
abbrev CPUAnnotation := List (String × Container)

/-- The assignment `cpuAnnotation[name] = container`. -/
def CPUAnnotation.set : CPUAnnotation → String → Container → CPUAnnotation
  | [], name, container => [(name, container)]
  | (key, old) :: rest, name, container =>
    if key = name then (key, container) :: rest
    else (key, old) :: CPUAnnotation.set rest name container

/-- The loop of `Decode` over the processes of a container. -/
def checkProcesses : List Process → Option TypesError
  | [] => none
  | p :: rest =>
    if p.ProcName.length = 0 then some .ErrNoProcessName
    else if p.CPUs = 0 then some .ErrNoCpus
    else checkProcesses rest

/-- The loop of `Decode` over the map, given as its entries in the order in which the
`range` visits them. -/
def checkContainers : List (String × Container) → Option TypesError
  | [] => none
  | (_, c) :: rest =>
    if c.Name.length = 0 then some .ErrNoContainerName
    else if c.Processes.length = 0 then some .ErrNoProcesses
    else match checkProcesses c.Processes with
      | some err => some err
      | none => checkContainers rest

/-- `CPUAnnotation.Decode`.  `unmarshalled` is what `json.Unmarshal` made of the
annotation: the containers it decoded (a field absent from the JSON text has its zero
value) and its error, if any.  `visit` gives the order in which the `range` over the map
visits the entries.  The result is the map after the call and the returned error. -/
def CPUAnnotation.Decode (visit : CPUAnnotation → List (String × Container))
    ( cpuAnnotation : CPUAnnotation) (unmarshalled : List Container × Option String) :
    CPUAnnotation × Option TypesError :=
  let filled := unmarshalled.1.foldl
    (fun decoded container => CPUAnnotation.set decoded container.Name container)
    cpuAnnotation
  match unmarshalled.2 with
  | some message => (filled, some (.other message))
  | none => (filled, checkContainers (visit filled))

/-! ## The cgroup filesystem -/

/-- One file or directory as `filepath.Walk` meets it: its path, whether it is a
directory, and whether `Lstat` on it or reading it as a directory fails (the walk
function then gets a non-nil `err`). -/
structure WalkEntry where
  path : String
  isDir : Bool
  failed : Bool
  deriving DecidableEq

/-- The state of the filesystem.  `tree` lists every file and directory in the order in
which `filepath.Walk` visits them (a directory before its entries, entries in lexical
order); `content` is the content of the files that can be read; `readOnly` tells the
paths on which `os.WriteFile` fails.  The control files written exist in every cgroup
directory, so writing does not change `tree`. -/
structure FileSystem where
  tree : List WalkEntry
  content : String → Option String
  readOnly : String → Bool

/-- `os.WriteFile(path, data, perm)`: `none` is a returned error. -/
def WriteFile (fs : FileSystem) (path data : String) : Option FileSystem :=
  if fs.readOnly path then none
  else some { fs with content := Function.update fs.content path (some data) }

/-- A path without its trailing slashes, as `filepath.Join` leaves the root of a walk
when it appends a name; the root directory `/` stays. -/
def trimTrailingSlashes (path : String) : String :=
  match (path.data.reverse.dropWhile fun c => c = '/').reverse with
  | [] => if path = "" then "" else "/"
  | c :: cs => String.mk (c :: cs)

/-- The entries `filepath.Walk(root, fn)` can visit: `root`, handed to the walk function
as it is written (also with trailing slashes), and all below it, under the paths
`filepath.Join` makes for them. -/
def walkEntries (fs : FileSystem) (root : String) : List WalkEntry :=
  fs.tree.filterMap fun e =>
    if e.path = trimTrailingSlashes root then some { e with path := root }
    else if HasPrefix e.path
        (if trimTrailingSlashes root = "/" then "/" else trimTrailingSlashes root ++ "/")
    then some e
    else none

/-- A path up to and including its last `/`: the common beginning of the paths in the
same directory. -/
def parentPrefix (path : String) : String :=
  String.mk (path.data.reverse.dropWhile fun c => c ≠ '/').reverse

/-- The first walk of `applyCpusetToContainer` over the remaining entries.  `skip` is
the beginning of the paths that `filepath.SkipDir` made the walk leave out (all below a
matching directory, or the rest of the directory of a matching file), `found` is the
current `pathToContainerCpusetFile`; `none` is an error handed to the walk function. -/
def findContainerPath (containerID : String) :
    List WalkEntry → Option String → String → Option String
  | [], _, found => some found
  | e :: rest, skip, found =>
    if (match skip with
        | some skipped => HasPrefix e.path skipped
        | none => false) then findContainerPath containerID rest skip found
    else if e.failed then none
    else if Contains e.path containerID then
      findContainerPath containerID rest
        (some (if e.isDir then e.path ++ "/" else parentPrefix e.path)) e.path
    else findContainerPath containerID rest none found

/-- The second walk of `applyCpusetToContainer`: the directory visited last. -/
def lastDirectory : List WalkEntry → String → Option String
  | [], path => some path
  | e :: rest, path =>
    if e.failed then none
    else if e.isDir then lastDirectory rest e.path
    else lastDirectory rest path

/-- The struct `CpuSetController` with what its methods read from the node and from
libraries: `cpusetString` is `CPUSet.String`, `itoa` is `strconv.Itoa`, `trimSpace` is
`strings.TrimSpace`, `numOfCpus` is `runtime.NumCPU()`. -/
structure CpuSetController where
  env : Env
  cpusetRoot : String
  cpusetString : CPUSet → String
  itoa : Int → String
  trimSpace : String → String
  numOfCpus : Int
  containerPrefixList : List String

/-- `applyCpusetToContainer`: the filesystem after the call and the returned path or
error. -/
def applyCpusetToContainer (cc : CpuSetController) (fs : FileSystem)
    (_podMeta : v1.ObjectMeta) (containerID : String) (cpuset : CPUSet) :
    FileSystem × Except String String :=
  if cpuset = ∅ then (fs, .ok "")
  else
    match walkEntries fs cc.cpusetRoot with
    | [] => (fs, .error (containerID ++ " cpuset path error"))
    | entries =>
      match findContainerPath containerID entries none "" with
      | none => (fs, .error (containerID ++ " cpuset path error"))
      | some pathToContainerCpusetFile =>
        if pathToContainerCpusetFile = "" then
          (fs, .error ("cpuset file does not exist for container: " ++ containerID))
        else
          match lastDirectory (walkEntries fs pathToContainerCpusetFile)
              pathToContainerCpusetFile with
          | none => (fs, .error (containerID ++ " child cpuset path error"))
          | some leaf =>
            match WriteFile fs (leaf ++ "/cpuset.cpus") (cc.cpusetString cpuset) with
            | none => (fs, .error ("can't modify cpuset file: " ++ leaf))
            | some written => (written, .ok pathToContainerCpusetFile)

/-- The value of `badCpuset` in `reconcileContainer`: the parse of `"0-<N-1>"`, the
empty set if that fails. -/
def badCpuset (cc : CpuSetController) : CPUSet :=
  (cc.env.parse ("0-" ++ cc.itoa (cc.numOfCpus - 1))).getD ∅

/-- The value of `currentCpuset` in `reconcileContainer` for a leaf: the parse of the
trimmed content of its `cpuset.cpus`, the errors of reading and parsing being ignored. -/
def currentCpuset (cc : CpuSetController) (fs : FileSystem) (leaf : String) : CPUSet :=
  (cc.env.parse (cc.trimSpace ((fs.content (leaf ++ "/cpuset.cpus")).getD ""))).getD ∅

/-- The loop of `reconcileContainer` over the remaining leaves.  A call of
`determineCorrectCpuset` that fails ends the loop without a write; its returned error
and its index panic are not told apart in the result here. -/
def reconcileLoop (cc : CpuSetController) (fs : FileSystem) (pod : v1.Pod)
    (container : v1.Container) (containerID : String) :
    List String → FileSystem × Option String
  | [] => (fs, none)
  | leaf :: rest =>
    if Contains leaf containerID then
      if badCpuset cc = currentCpuset cc fs leaf then
        match determineCorrectCpuset cc.env pod.ObjectMeta.UID container.Name
            container.Requests with
        | .error _ => (fs, some "could not determine correct cpuset")
        | .ok correctSet =>
          match WriteFile fs (leaf ++ "/cpuset.cpus") (cc.cpusetString correctSet) with
          | none => (fs, some ("could not overwrite cpuset file:" ++ leaf ++ "/cpuset.cpus"))
          | some written => (written, none)
      else (fs, none)
    else reconcileLoop cc fs pod container containerID rest

/-- `reconcileContainer`: the filesystem after the call and the returned error. -/
def reconcileContainer (cc : CpuSetController) (fs : FileSystem) (leafCpusets : List String)
    (pod : v1.Pod) (container : v1.Container) : FileSystem × Option String :=
  if determineCid cc.containerPrefixList pod.Status container.Name = "" then (fs, none)
  else reconcileLoop cc fs pod container
    (determineCid cc.containerPrefixList pod.Status container.Name) leafCpusets

/-- The full core range of a node with `n` CPUs: the cores 0 to `n - 1`. -/
def fullCoreRange (n : Int) : CPUSet :=
  ((List.range n.toNat).map fun (i : Nat) => (i : Int)).toFinset

/-! ## Go `int` arithmetic -/

/-- The value a Go `int` (64 bits, two's complement) holds after a computation whose
exact result is `x`. -/
def wrapInt (x : Int) : Int :=
  (x + 2 ^ 63) % 2 ^ 64 - 2 ^ 63

/-- Go `a + b` on `int`. -/
def intAdd (a b : Int) : Int :=
  wrapInt (a + b)

/-- Go `a * b` on `int`. -/
def intMul (a b : Int) : Int :=
  wrapInt (a * b)

/-! ## `pkg/types/annotation.go`: the accessors

An accessor that ranges over the map takes the entries of the map in the order in which
its `range` visits them. -/

/-- The lookup `cpuAnnotation[name]`. -/
def CPUAnnotation.lookup : CPUAnnotation → String → Option Container
  | [], _ => none
  | (key, container) :: rest, name =>
    if key = name then some container else CPUAnnotation.lookup rest name

/-- `CPUAnnotation.ContainerNames`. -/
def CPUAnnotation.ContainerNames (visited : List (String × Container)) : List String :=
  visited.foldl (fun names entry => names ++ [entry.2.Name]) []

/-- `CPUAnnotation.IsContainerExists`. -/
def CPUAnnotation.IsContainerExists ( cpuAnnotation : CPUAnnotation) (name : String) : Bool :=
  ( CPUAnnotation.lookup cpuAnnotation name).isSome

/-- The inner loop of `ContainerSharedCPUTime` and `ContainerExclusiveCPU`: the CPUs of
the processes whose pool name begins with `pfx` are added to `cpuTime`. -/
def addCPUTime (pfx : String) (processes : List Process) (cpuTime : Int) : Int :=
  processes.foldl (fun time process =>
    if HasPrefix process.PoolName pfx then intAdd time process.CPUs else time) cpuTime

/-- `CPUAnnotation.ContainerSharedCPUTime`. -/
def CPUAnnotation.ContainerSharedCPUTime (visited : List (String × Container))
    (cName : String) : Int :=
  visited.foldl (fun cpuTime entry =>
    if entry.2.Name = cName then addCPUTime "shared" entry.2.Processes cpuTime
    else cpuTime) 0

/-- `CPUAnnotation.ContainerExclusiveCPU`. -/
def CPUAnnotation.ContainerExclusiveCPU (visited : List (String × Container))
    (cName : String) : Int :=
  visited.foldl (fun cpuTime entry =>
    if entry.2.Name = cName then addCPUTime "exclusive" entry.2.Processes cpuTime
    else cpuTime) 0

/-- The inner loop of `ContainerPools`, with the current `pools` and `poolMap`. -/
def collectPools (processes : List Process) (state : List String × (String → Option Bool)) :
    List String × (String → Option Bool) :=
  processes.foldl (fun st process =>
    if (st.2 process.PoolName).isSome then st
    else (st.1 ++ [process.PoolName], Function.update st.2 process.PoolName (some true)))
    state

/-- `CPUAnnotation.ContainerPools`. -/
def CPUAnnotation.ContainerPools (visited : List (String × Container)) (cName : String) :
    List String :=
  (visited.foldl (fun st entry =>
    if entry.2.Name = cName then collectPools entry.2.Processes st else st)
    ([], fun _ => none)).1

/-- The inner loop of `ContainerTotalCPURequest`. -/
def addCPURequest (pool : String) (processes : List Process) (cpuRequest : Int) : Int :=
  processes.foldl (fun request process =>
    if process.PoolName = pool then intAdd request process.CPUs else request) cpuRequest

/-- `CPUAnnotation.ContainerTotalCPURequest`. -/
def CPUAnnotation.ContainerTotalCPURequest (visited : List (String × Container))
    (pool cName : String) : Int :=
  visited.foldl (fun cpuRequest entry =>
    if entry.2.Name = cName then addCPURequest pool entry.2.Processes cpuRequest
    else cpuRequest) 0

/-- The message of an error of the package `types` (`const.go`). -/
def TypesError.Error : TypesError → String
  | .ErrNoContainerName => "'container' is mandatory in annotation"
  | .ErrNoProcesses => "'processes' is mandatory in annotation"
  | .ErrNoProcessName => "'process' (name) is mandatory in annotation"
  | .ErrNoCpus => "'cpus' field is mandatory in annotation"
  | .ErrNotReadPoolConfig => "could not read poolconfig file"
  | .ErrNotParsePoolConfig => "could not parse poolconfig file"
  | .ErrNotMatchPoolConfig =>
    "no matching pool configuration file found for provided nodeSelector label"
  | .ErrCallAPIServerNodeInfo =>
    "following error happend when trying to read K8s API server Node object"
  | .other message => message

/-! ## `cmd/webhook/webhook.go` -/

/-- The struct `containerPoolRequests`; the map `pools` is only looked keys up in. -/
structure containerPoolRequests where
  sharedCPURequests : Int
  exclusiveCPURequests : Int
  pools : String → Option Int

/-- The map type `poolRequestMap`, only looked keys up in. -/
abbrev poolRequestMap := String → Option containerPoolRequests

/-- The body of the inner loop of `validateAnnotation` for container `cName` and one of
its pools: the error it returns, if any.  `visited` gives the entries of the annotation
as the accessors visit them. -/
def validatePool (poolRequests : poolRequestMap) (visited : List (String × Container))
    (cName pool : String) : Option String :=
  match poolRequests cName with
  | none => some ("Container " ++ cName ++ " has no pool requests in pod spec")
  | some cPoolRequests =>
    if CPUAnnotation.ContainerSharedCPUTime visited cName ≠ cPoolRequests.sharedCPURequests
    then some "Shared CPU requests do not match to annotation"
    else
      match cPoolRequests.pools pool with
      | none => some ("Container " ++ cName ++ "; Pool " ++ pool ++
          " in annotation not found from resources")
      | some value =>
        if CPUAnnotation.ContainerTotalCPURequest visited pool cName > intMul 2 value
        then some "Exclusive CPU requests do not match to annotation"
        else none

/-- The inner loop of `validateAnnotation` over the pools of a container. -/
def validatePoolsOf (poolRequests : poolRequestMap) (visited : List (String × Container))
    (cName : String) : List String → Option String
  | [] => none
  | pool :: rest =>
    match validatePool poolRequests visited cName pool with
    | some err => some err
    | none => validatePoolsOf poolRequests visited cName rest

/-- The outer loop of `validateAnnotation` over the container names. -/
def validateNames (poolRequests : poolRequestMap) (visited : List (String × Container)) :
    List String → Option String
  | [] => none
  | cName :: rest =>
    match validatePoolsOf poolRequests visited cName
        ( CPUAnnotation.ContainerPools visited cName) with
    | some err => some err
    | none => validateNames poolRequests visited rest

/-- `validateAnnotation`: the returned error, if any.  `visit` gives the order in which
a `range` over the annotation visits its entries. -/
def validateAnnotation (visit : CPUAnnotation → List (String × Container))
    (poolRequests : poolRequestMap) ( cpuAnnotation : CPUAnnotation) : Option String :=
  validateNames poolRequests (visit cpuAnnotation)
    ( CPUAnnotation.ContainerNames (visit cpuAnnotation))

/-- The struct `v1beta1.AdmissionResponse`, reduced to the decision and the message of
its result. -/
structure AdmissionResponse where
  Allowed : Bool
  Message : String
  deriving DecidableEq

/-- `toAdmissionResponse`. -/
def toAdmissionResponse (message : String) : AdmissionResponse :=
  { Allowed := false, Message := message }

/-- The part of `mutatePods` that decodes and validates the annotation of the pod:
`podAnnotation` is `none` when the pod has no CPU annotation and otherwise what
`json.Unmarshal` makes of it; the result is the response with which `mutatePods` returns
there, `none` when it goes on to the patches. -/
def mutatePodsAnnotationCheck (visit : CPUAnnotation → List (String × Container))
    (poolRequests : poolRequestMap) ( podAnnotation : Option (List Container × Option String)) :
    Option AdmissionResponse :=
  match podAnnotation with
  | none => none
  | some unmarshalled =>
    match ( CPUAnnotation.Decode visit [] unmarshalled).2 with
    | some err => some (toAdmissionResponse err.Error)
    | none =>
      match validateAnnotation visit poolRequests
          ( CPUAnnotation.Decode visit [] unmarshalled).1 with
      | some err => some (toAdmissionResponse err)
      | none => none

/-! ## `pkg/client/node.go` -/

/-- The struct `v1.NodeCondition`, reduced to its fields `Type` (here `CondType`) and
`Status`. -/
structure v1.NodeCondition where
  CondType : String
  Status : String
  deriving DecidableEq

/-- The struct `v1.Node`, reduced to `Status.Conditions`. -/
structure v1.Node where
  Conditions : List v1.NodeCondition
  deriving DecidableEq

/-- Constant `v1.NodeReady`. -/
def v1.NodeReady : String := "Ready"

/-- Constant `v1.ConditionTrue`. -/
def v1.ConditionTrue : String := "True"

/-- `IsReady`. -/
def IsReady (node : v1.Node) : Bool :=
  match node.Conditions.find? fun condition =>
      condition.CondType = v1.NodeReady ∧ condition.Status ≠ v1.ConditionTrue with
  | some _ => false
  | none => true

/-! ## `pkg/controller/controller.go`: the infra container and the pod -/

/-- The last element of a path (`os.FileInfo.Name()`). -/
def baseName (path : String) : String :=
  String.mk (path.data.reverse.takeWhile fun c => c ≠ '/').reverse

/-- `containerIDInPodStatus`. -/
def containerIDInPodStatus (containerPrefixList : List String) (podStatus : v1.PodStatus)
    (containerDirName : String) : Bool :=
  podStatus.ContainerStatuses.any fun containerStatus =>
    Contains containerDirName (trimContainerPrefix containerPrefixList containerStatus.ContainerID)

/-- `getInfraContainerPath`: of the entries of the directory of `searchPath` (the matches
of `filepath.Glob`, in lexical order) the last directory that `os.Stat` succeeds on and
whose name holds no container ID of the pod status. -/
def getInfraContainerPath (containerPrefixList : List String) (fs : FileSystem)
    (podStatus : v1.PodStatus) (searchPath : String) : String :=
  (fs.tree.filter fun e => parentPrefix e.path = parentPrefix searchPath).foldl
    (fun pathToInfraContainer e =>
      if !e.failed && e.isDir &&
          !containerIDInPodStatus containerPrefixList podStatus (baseName e.path)
      then e.path else pathToInfraContainer) ""

/-- `applyCpusetToInfraContainer`: the filesystem after the call and the returned error.
`poolsAtInfra` lists the entries of `cc.poolConfig.Pools` in the order in which the
`SelectPoolConfig` of this function visits them. -/
def applyCpusetToInfraContainer (cc : CpuSetController) (poolsAtInfra : List (String × Pool))
    (fs : FileSystem) (_podMeta : v1.ObjectMeta) (podStatus : v1.PodStatus)
    (pathToSearchContainer : String) : FileSystem × Option String :=
  if (SelectPoolConfig poolsAtInfra DefaultPoolID).CPUset = ∅ then (fs, none)
  else if pathToSearchContainer = "" then
    (fs, some ("container directory does not exists under the provided cgroupfs hierarchy: "
      ++ cc.cpusetRoot))
  else if getInfraContainerPath cc.containerPrefixList fs podStatus pathToSearchContainer = ""
  then (fs, some ("cpuset file does not exist for infra container under the provided " ++
    "cgroupfs hierarchy: " ++ cc.cpusetRoot))
  else
    match WriteFile fs
        (getInfraContainerPath cc.containerPrefixList fs podStatus pathToSearchContainer
          ++ "/cpuset.cpus")
        (cc.cpusetString (SelectPoolConfig poolsAtInfra DefaultPoolID).CPUset) with
    | none => (fs, some "can't modify cpuset file of the infra container")
    | some written => (written, none)

/-- How a call of `adjustContainerSets` ends: it returns an error or nil, or the
goroutine panics. -/
inductive Outcome where
  | returned (err : Option String)
  | panicked (what : String)
  deriving DecidableEq

/-- The loop of `adjustContainerSets` over the remaining containers of the pod spec,
with the current filesystem and `pathToContainerCpusetFile`; it ends early with how
the function ends, or runs through. -/
def adjustLoop (cc : CpuSetController) (pod : v1.Pod) (containersToBeSet : List String) :
    List v1.Container → FileSystem → String → FileSystem × Except Outcome String
  | [], fs, pathToContainerCpusetFile => (fs, .ok pathToContainerCpusetFile)
  | container :: rest, fs, pathToContainerCpusetFile =>
    if container.Name ∉ containersToBeSet then
      adjustLoop cc pod containersToBeSet rest fs pathToContainerCpusetFile
    else
      match determineCorrectCpuset cc.env pod.ObjectMeta.UID container.Name
          container.Requests with
      | .error .indexOutOfRange => (fs, .error (.panicked "index out of range"))
      | .error _ =>
        (fs, .error (.returned (some
          ("correct cpuset for the containers of Pod: " ++ pod.ObjectMeta.Name ++
            " could not be calculated"))))
      | .ok cpuset =>
        if determineCid cc.containerPrefixList pod.Status container.Name = "" then
          (fs, .error (.panicked "nil pointer dereference: err.Error() with err == nil"))
        else
          match applyCpusetToContainer cc fs pod.ObjectMeta
              (determineCid cc.containerPrefixList pod.Status container.Name) cpuset with
          | (fs', .error _) =>
            (fs', .error (.returned (some
              ("cpuset of container: " ++ container.Name ++ " could not be re-adjusted"))))
          | (fs', .ok path) => adjustLoop cc pod containersToBeSet rest fs' path

/-- `adjustContainerSets`: the filesystem after the call, whether the pod annotation
was set, and how the call ends.  `containersToBeSet` holds the keys of the map of that
name, `patchError` is the error `client.SetPodAnnotation` returns when it is called. -/
def adjustContainerSets (cc : CpuSetController) (poolsAtInfra : List (String × Pool))
    (patchError : Option String) (fs : FileSystem) (pod : v1.Pod)
    (containersToBeSet : List String) : FileSystem × Bool × Outcome :=
  match adjustLoop cc pod containersToBeSet pod.Spec.Containers fs "" with
  | (fs', .error outcome) => (fs', false, outcome)
  | (fs', .ok pathToContainerCpusetFile) =>
    match applyCpusetToInfraContainer cc poolsAtInfra fs' pod.ObjectMeta pod.Status
        pathToContainerCpusetFile with
    | (fs'', some _) =>
      (fs'', false, .returned (some
        ("cpuset of the infra container in Pod: " ++ pod.ObjectMeta.Name ++
          " could not be re-adjusted")))
    | (fs'', none) =>
      match patchError with
      | some _ =>
        (fs'', false, .returned (some
          ("could not update annotation in Pod:" ++ pod.ObjectMeta.Name)))
      | none => (fs'', true, .returned none)

/-- The pool names of a list of processes without repetition, in the order of first
occurrence (the wording of the specification). -/
def firstOccurrences : List String → List String
  | [] => []
  | poolName :: rest => poolName :: (firstOccurrences rest).filter fun other => other ≠ poolName

/-- The exact sum of the cpus values of the processes of the containers named `cName`
whose pool name satisfies `counts` (the wording of the specification). -/
def cpusOf (entries : List (String × Container)) (cName : String) (counts : String → Bool) :
    Int :=
  ((((entries.filter fun entry => entry.2.Name = cName).flatMap fun entry =>
    entry.2.Processes).filter fun process => counts process.PoolName).map
      fun process => process.CPUs).sum

/-- The annotation after a sequence of `Decode` calls on an initially empty
`CPUAnnotation`; `calls` lists what `json.Unmarshal` made of each annotation text. -/
def decodeAll (visit : CPUAnnotation → List (String × Container))
    (calls : List (List Container × Option String)) : CPUAnnotation :=
  calls.foldl (fun decoded unmarshalled => ( CPUAnnotation.Decode visit decoded unmarshalled).1)
    []

/-! ## Library functions at concrete inputs

Executable descriptions of the library functions the code calls, used where a statement
is evaluated at a concrete input. -/

/-- The value of a decimal digit. -/
def digitValue (c : Char) : Option Nat :=
  if '0' ≤ c ∧ c ≤ '9' then some (c.toNat - '0'.toNat) else none

/-- The number a list of decimal digits writes, continuing from `acc`. -/
def digitsValue : List Char → Nat → Option Nat
  | [], acc => some acc
  | c :: cs, acc =>
    match digitValue c with
    | none => none
    | some d => digitsValue cs (acc * 10 + d)

/-- Go `strconv.Atoi` with a 64-bit `int`: an optional sign, then one or more decimal
digits, the value within the range of `int`. -/
def goAtoi (s : String) : Option Int :=
  let unsigned (cs : List Char) : Option Nat := if cs = [] then none else digitsValue cs 0
  match s.data with
  | '-' :: cs => (unsigned cs).bind fun n => if n ≤ 2 ^ 63 then some (-(n : Int)) else none
  | '+' :: cs => (unsigned cs).bind fun n => if n < 2 ^ 63 then some (n : Int) else none
  | cs => (unsigned cs).bind fun n => if n < 2 ^ 63 then some (n : Int) else none

/-- Go `strconv.Itoa`. -/
def goItoa (n : Int) : String :=
  toString n

/-- Kubernetes `cpuset.Parse` on strings without a range: the empty string is the
empty set, otherwise every comma-separated entry is converted by `strconv.Atoi` and one
entry that does not convert makes the whole string unparsable.  Entries with a `-`
(ranges `a-b`) are not described: they count as unparsable here. -/
def parseCoreList (s : String) : Option CPUSet :=
  if s = "" then some ∅
  else (Split s ',').foldl (fun acc entry =>
    match acc, (if Contains entry "-" then none else goAtoi entry) with
    | some set, some core => some (insert core set)
    | _, _ => none) (some ∅)

/-- The entries of a formatted core list: maximal runs of consecutive numbers of an
ascending list, continuing the run from `first` to `last`. -/
def coreRanges (first last : Int) : List Int → List (Int × Int)
  | [] => [(first, last)]
  | x :: xs =>
    if x = last + 1 then coreRanges first x xs
    else (first, last) :: coreRanges x x xs

/-- Kubernetes `CPUSet.String`: the empty string for the empty set, otherwise the
ascending runs of the set, joined by commas, a run written `a` or `a-b`. -/
def cpusetString (s : CPUSet) : String :=
  match ToSlice s with
  | [] => ""
  | x :: xs => ",".intercalate ((coreRanges x x xs).map fun r =>
      if r.1 = r.2 then goItoa r.1 else goItoa r.1 ++ "-" ++ goItoa r.2)

/-- A node whose pool configuration holds the pools `exclusive1` and `exclusive2`
(both `singleThreaded`) and whose checkpoint records core 1 of `exclusive1` and core 2
of `exclusive2` for container `ctr` of pod `pod`. -/
def twoExclusivePools : Env where
  atoi := goAtoi
  parse := parseCoreList
  resourceBaseName := "cmss.cn"
  poolsAt := fun _ =>
    [("exclusive1", ⟨{1, 3}, "1,3", SingleThreadHTPolicy⟩),
     ("exclusive2", ⟨{2, 4}, "2,4", SingleThreadHTPolicy⟩)]
  poolsAtDefault :=
    [("exclusive1", ⟨{1, 3}, "1,3", SingleThreadHTPolicy⟩),
     ("exclusive2", ⟨{2, 4}, "2,4", SingleThreadHTPolicy⟩)]
  checkpointFile := .ok ⟨[⟨"pod", "ctr", "cmss.cn/exclusive1", ["1"]⟩,
    ⟨"pod", "ctr", "cmss.cn/exclusive2", ["2"]⟩]⟩
  htMap := fun _ => none

/-- A node whose pool configuration holds the pool `exclusive1` (`singleThreaded`) and
the pool `exclusive10` (`multiThreaded`), whose checkpoint records core 0 of
`exclusive1` for container `ctr` of pod `pod`, and on which core 8 is the sibling of
core 0.  `visited` is the order in which `SelectPoolConfig` visits the pools. -/
def prefixedExclusivePools (visited : List (String × Pool)) : Env where
  atoi := goAtoi
  parse := parseCoreList
  resourceBaseName := "cmss.cn"
  poolsAt := fun _ => visited
  poolsAtDefault := visited
  checkpointFile := .ok ⟨[⟨"pod", "ctr", "cmss.cn/exclusive1", ["0"]⟩]⟩
  htMap := GetHTTopology goItoa [(0, 0), (8, 0)]

/-- A node with a shared pool on cores 0 and 1 and an exclusive pool `exclusive1`
(`multiThreaded`) of which core 2 is allocated to container `ctr` of pod `pod`; core 6
is the sibling of core 2. -/
def sharedAndExclusivePools : Env where
  atoi := goAtoi
  parse := parseCoreList
  resourceBaseName := "cmss.cn"
  poolsAt := fun _ =>
    [("shared1", ⟨{0, 1}, "0,1", SingleThreadHTPolicy⟩),
     ("exclusive1", ⟨{2, 3}, "2,3", MultiThreadHTPolicy⟩),
     ("default", ⟨{4, 5}, "4,5", SingleThreadHTPolicy⟩)]
  poolsAtDefault :=
    [("default", ⟨{4, 5}, "4,5", SingleThreadHTPolicy⟩),
     ("shared1", ⟨{0, 1}, "0,1", SingleThreadHTPolicy⟩),
     ("exclusive1", ⟨{2, 3}, "2,3", MultiThreadHTPolicy⟩)]
  checkpointFile := .ok ⟨[⟨"pod", "ctr", "cmss.cn/exclusive1", ["2"]⟩]⟩
  htMap := GetHTTopology goItoa [(2, 2), (6, 2)]

/-- Go `unicode.IsSpace` on Latin-1 text: tab, line feed, vertical tab, form feed,
carriage return, space, next line and no-break space. -/
def isSpace (c : Char) : Bool :=
  c.toNat ∈ [0x09, 0x0a, 0x0b, 0x0c, 0x0d, 0x20, 0x85, 0xa0]

/-- Go `strings.TrimSpace` on Latin-1 text. -/
def goTrimSpace (s : String) : String :=
  String.mk ((s.data.dropWhile isSpace).reverse.dropWhile isSpace).reverse

/-- The cores of one entry of a core list: a number `a`, or an ascending range `a-b`.
Entries with more than one `-` and descending ranges are not described: they count as
unparsable here. -/
def parseCoreEntry (entry : String) : Option (List Int) :=
  match Split entry '-' with
  | [single] => (goAtoi single).map fun core => [core]
  | [first, last] =>
    match goAtoi first, goAtoi last with
    | some a, some b =>
      if a ≤ b then some ((List.range (b - a + 1).toNat).map fun (i : Nat) => a + (i : Int))
      else none
    | _, _ => none
  | _ => none

/-- Kubernetes `cpuset.Parse` on core lists with ranges such as `"0-7"` or
`"0,2,4-7"`. -/
def parseCpuset (s : String) : Option CPUSet :=
  if s = "" then some ∅
  else (Split s ',').foldl (fun acc entry =>
    match acc, parseCoreEntry entry with
    | some set, some cores => some (set ∪ cores.toFinset)
    | _, _ => none) (some ∅)

/-- The controller of a node with eight CPUs, with the given pools, checkpoint and
topology. -/
def eightCpuNode (env : Env) : CpuSetController where
  env := { env with parse := parseCpuset }
  cpusetRoot := "/cg"
  cpusetString := cpusetString
  itoa := goItoa
  trimSpace := goTrimSpace
  numOfCpus := 8
  containerPrefixList := ["docker://", "containerd://"]

/-- A running pod on `node1` with the container `ctr`, which requests no pool resource
and has the runtime ID `abc123`. -/
def runningPod : v1.Pod :=
  ⟨⟨"web", "default", "pod"⟩, ⟨"node1", [⟨"ctr", ["cpu", "memory"]⟩]⟩,
    ⟨"Running", [⟨"ctr", "docker://abc123"⟩]⟩⟩

/-- A cgroup filesystem with the leaves `/cg/pod1/fff000` and `/cg/pod1/abc123`, the
`cpuset.cpus` of the second holding `text`. -/
def cgroupWith (text : String) : FileSystem where
  tree := [⟨"/cg", true, false⟩, ⟨"/cg/pod1", true, false⟩,
    ⟨"/cg/pod1/abc123", true, false⟩, ⟨"/cg/pod1/fff000", true, false⟩]
  content := fun path =>
    if path = "/cg/pod1/abc123/cpuset.cpus" then some text
    else if path = "/cg/pod1/fff000/cpuset.cpus" then some "2-3\n"
    else none
  readOnly := fun _ => false

/-- A pod scheduled to `node1` whose only container has no runtime ID yet. -/
def creatingPod : v1.Pod :=
  ⟨⟨"web", "default", "pod"⟩, ⟨"node1", [⟨"a", []⟩]⟩, ⟨"Pending", [⟨"a", ""⟩]⟩⟩

/-- A pod scheduled to `node1` with two containers, whose status holds one container
status (with a runtime ID). -/
def halfReportedPod : v1.Pod :=
  ⟨⟨"web", "default", "pod"⟩, ⟨"node1", [⟨"a", []⟩, ⟨"b", []⟩]⟩,
    ⟨"Pending", [⟨"a", "docker://1f"⟩]⟩⟩

/-- The annotation of the test suite (`SetupTest`): the containers `Container1` and
`Container2` under their names. -/
def testAnnotation : CPUAnnotation :=
  [("Container1", ⟨"Container1",
      [⟨"proc1", ["-c", "1"], 120, "shared-pool1"⟩,
       ⟨"proc2", ["-c", "1"], 1, "exclusive-pool2"⟩,
       ⟨"proc3", ["-c", "1"], 130, "shared-pool1"⟩]⟩),
   ("Container2", ⟨"Container2",
      [⟨"proc4", ["-c", "1"], 120, "shared-pool1"⟩,
       ⟨"proc5", ["-c", "1"], 1, "exclusive-pool2"⟩,
       ⟨"proc6", ["-c", "1"], 130, "shared-pool1"⟩,
       ⟨"proc7", ["-c", "1"], 300, "shared-pool3"⟩]⟩)]

/-- A node whose pool configuration holds the pools `default-a` without cores and
`default-b` with the cores 0 and 1; `visited` is the order in which the
`SelectPoolConfig` of `determineCorrectCpuset` visits them. -/
def twoDefaultPools (visited : List (String × Pool)) : Env where
  atoi := goAtoi
  parse := parseCpuset
  resourceBaseName := "cmss.cn"
  poolsAt := fun _ => visited
  poolsAtDefault := visited
  checkpointFile := .ok ⟨[]⟩
  htMap := fun _ => none

/-- A pod on `node1` whose container `ctr` has a container ID that consists of the
runtime prefix only. -/
def prefixOnlyPod : v1.Pod :=
  ⟨⟨"web", "default", "pod"⟩, ⟨"node1", [⟨"ctr", ["cpu", "memory"]⟩]⟩,
    ⟨"Running", [⟨"ctr", "docker://"⟩]⟩⟩

/-! ## Hyperthread sibling expansion -/

theorem addSiblingsLoop_of_unparsable (parse : String → Option CPUSet)
    (coreMap : Int → Option String) (S : CPUSet) :
    ∀ (l : List Int) (tempSet : CPUSet),
      (∃ c ∈ l, siblingsParsable parse coreMap c = false) →
      addSiblingsLoop parse coreMap S l tempSet = S := by
  intro l
  induction l with
  | nil => intro _ h; simp at h
  | cons a rest ih =>
    intro tempSet h
    obtain ⟨c, hc, hbad⟩ := h
    unfold addSiblingsLoop
    cases hM : coreMap a with
    | none =>
      simp only
      rcases List.mem_cons.1 hc with rfl | hmem
      · simp [siblingsParsable, hM] at hbad
      · exact ih _ ⟨c, hmem, hbad⟩
    | some siblings =>
      simp only
      cases hp : parse siblings with
      | none => rfl
      | some siblingSet =>
        simp only
        rcases List.mem_cons.1 hc with rfl | hmem
        · simp [siblingsParsable, hM, hp] at hbad
        · exact ih _ ⟨c, hmem, hbad⟩

theorem addSiblingsLoop_of_parsable (parse : String → Option CPUSet)
    (coreMap : Int → Option String) (S : CPUSet) :
    ∀ (l : List Int) (tempSet : CPUSet),
      (∀ c ∈ l, siblingsParsable parse coreMap c = true) →
      addSiblingsLoop parse coreMap S l tempSet
        = tempSet ∪ l.toFinset.biUnion (siblingsOf parse coreMap) := by
  intro l
  induction l with
  | nil => intro tempSet _; simp [addSiblingsLoop]
  | cons a rest ih =>
    intro tempSet h
    have hrest : ∀ c ∈ rest, siblingsParsable parse coreMap c = true :=
      fun c hc => h c (List.mem_cons_of_mem _ hc)
    have ha := h a (List.mem_cons_self _ _)
    unfold addSiblingsLoop
    cases hM : coreMap a with
    | none =>
      simp only
      rw [ih _ hrest, List.toFinset_cons, Finset.biUnion_insert]
      simp [siblingsOf, hM]
    | some siblings =>
      simp only
      cases hp : parse siblings with
      | none => simp [siblingsParsable, hM, hp] at ha
      | some siblingSet =>
        simp only
        rw [ih _ hrest, List.toFinset_cons, Finset.biUnion_insert]
        simp [siblingsOf, hM, hp, Finset.union_assoc]

theorem toFinset_ToSlice (S : CPUSet) : (ToSlice S).toFinset = S := by
  simp [ToSlice]

theorem mem_ToSlice (S : CPUSet) (c : Int) : c ∈ ToSlice S ↔ c ∈ S := by
  simp [ToSlice]

theorem AddHTSiblingsToCPUSet_of_parsable (parse : String → Option CPUSet) (S : CPUSet)
    (coreMap : Int → Option String)
    (h : ∀ c ∈ S, siblingsParsable parse coreMap c = true) :
    AddHTSiblingsToCPUSet parse S coreMap = S ∪ S.biUnion (siblingsOf parse coreMap) := by
  unfold AddHTSiblingsToCPUSet
  rw [addSiblingsLoop_of_parsable parse coreMap S _ _
    (fun c hc => h c ((mem_ToSlice S c).1 hc)), toFinset_ToSlice]

theorem AddHTSiblingsToCPUSet_of_unparsable (parse : String → Option CPUSet) (S : CPUSet)
    (coreMap : Int → Option String)
    (h : ∃ c ∈ S, siblingsParsable parse coreMap c = false) :
    AddHTSiblingsToCPUSet parse S coreMap = S := by
  obtain ⟨c, hc, hbad⟩ := h
  exact addSiblingsLoop_of_unparsable parse coreMap S _ _ ⟨c, (mem_ToSlice S c).2 hc, hbad⟩

theorem AddHTSiblingsToCPUSet_cases (parse : String → Option CPUSet) (S : CPUSet)
    (coreMap : Int → Option String) :
    (∀ c ∈ S, siblingsParsable parse coreMap c = true) ∨
      ∃ c ∈ S, siblingsParsable parse coreMap c = false := by
  by_cases h : ∀ c ∈ S, siblingsParsable parse coreMap c = true
  · exact Or.inl h
  · right
    push_neg at h
    obtain ⟨c, hc, hne⟩ := h
    exact ⟨c, hc, by simpa using hne⟩

theorem siblingsOf_congr (parse : String → Option CPUSet) (M M' : Int → Option String)
    (c : Int) (h : M' c = M c) :
    siblingsOf parse M' c = siblingsOf parse M c ∧
      siblingsParsable parse M' c = siblingsParsable parse M c := by
  simp [siblingsOf, siblingsParsable, h]

/-- C6: when every core of `S` that is a key of the sibling map has a parsable sibling
list, `AddHTSiblingsToCPUSet` returns `S` united with the parsed sibling lists of the
cores of `S` that are keys of the map; `S` is always a subset of the result; and the
entries of the map for cores outside `S` do not matter (two maps that agree on `S`
give the same result). -/
theorem AddHTSiblingsToCPUSet_eq_union_siblings (parse : String → Option CPUSet)
    (S : CPUSet) (M : Int → Option String) :
    ((∀ c ∈ S, ∀ siblings, M c = some siblings → parse siblings ≠ none) →
      AddHTSiblingsToCPUSet parse S M
        = S ∪ (S.filter fun c => (M c).isSome).biUnion
            (fun c => ((M c).bind parse).getD ∅)) ∧
    S ⊆ AddHTSiblingsToCPUSet parse S M ∧
    ∀ M' : Int → Option String, (∀ c ∈ S, M' c = M c) →
      AddHTSiblingsToCPUSet parse S M' = AddHTSiblingsToCPUSet parse S M := by
  refine ⟨?_, ?_, ?_⟩
  · intro h
    have hp : ∀ c ∈ S, siblingsParsable parse M c = true := by
      intro c hc
      unfold siblingsParsable
      cases hM : M c with
      | none => rfl
      | some siblings =>
        have := h c hc siblings hM
        simpa [Option.isSome_iff_ne_none] using this
    rw [AddHTSiblingsToCPUSet_of_parsable parse S M hp]
    congr 1
    ext x
    simp only [Finset.mem_biUnion, Finset.mem_filter]
    constructor
    · rintro ⟨c, hc, hx⟩
      refine ⟨c, ⟨hc, ?_⟩, ?_⟩
      · cases hM : M c with
        | none => simp [siblingsOf, hM] at hx
        | some _ => rfl
      · cases hM : M c with
        | none => simp [siblingsOf, hM] at hx
        | some siblings => simpa [siblingsOf, hM] using hx
    · rintro ⟨c, ⟨hc, _⟩, hx⟩
      refine ⟨c, hc, ?_⟩
      cases hM : M c with
      | none => simp [hM] at hx
      | some siblings => simpa [siblingsOf, hM] using hx
  · rcases AddHTSiblingsToCPUSet_cases parse S M with h | h
    · rw [AddHTSiblingsToCPUSet_of_parsable parse S M h]
      exact Finset.subset_union_left
    · rw [AddHTSiblingsToCPUSet_of_unparsable parse S M h]
  · intro M' hM'
    rcases AddHTSiblingsToCPUSet_cases parse S M with h | h
    · have h' : ∀ c ∈ S, siblingsParsable parse M' c = true := fun c hc => by
        rw [(siblingsOf_congr parse M M' c (hM' c hc)).2]; exact h c hc
      rw [AddHTSiblingsToCPUSet_of_parsable parse S M h,
        AddHTSiblingsToCPUSet_of_parsable parse S M' h']
      congr 1
      exact Finset.biUnion_congr rfl
        (fun c hc => (siblingsOf_congr parse M M' c (hM' c hc)).1)
    · obtain ⟨c, hc, hbad⟩ := h
      have h' : ∃ c ∈ S, siblingsParsable parse M' c = false :=
        ⟨c, hc, by rw [(siblingsOf_congr parse M M' c (hM' c hc)).2]; exact hbad⟩
      rw [AddHTSiblingsToCPUSet_of_unparsable parse S M ⟨c, hc, hbad⟩,
        AddHTSiblingsToCPUSet_of_unparsable parse S M' h']

/-- C6 at a concrete input: cores 0 and 1 with the sibling map 0 ↦ "4", 1 ↦ "5",
7 ↦ "9" give the set 0, 1, 4, 5. -/
theorem AddHTSiblingsToCPUSet_eq_union_siblings_witness :
    AddHTSiblingsToCPUSet parseCoreList {0, 1}
        (GetHTTopology goItoa [(0, 0), (4, 0), (1, 1), (5, 1), (7, 7), (9, 7)])
      = {0, 1, 4, 5} :=
  ((AddHTSiblingsToCPUSet_eq_union_siblings parseCoreList {0, 1}
      (GetHTTopology goItoa [(0, 0), (4, 0), (1, 1), (5, 1), (7, 7), (9, 7)])).1
    (by decide)).trans (by decide)

/-- C7: when some core of `S` has a sibling list that does not parse,
`AddHTSiblingsToCPUSet` returns `S` itself, and so does its loop for every order in
which the cores of `S` are scanned. -/
theorem AddHTSiblingsToCPUSet_unparsable_returns_input (parse : String → Option CPUSet)
    (S : CPUSet) (M : Int → Option String) (c : Int) (siblings : String)
    (hc : c ∈ S) (hM : M c = some siblings) (hp : parse siblings = none) :
    AddHTSiblingsToCPUSet parse S M = S ∧
    ∀ scan : List Int, (∀ x, x ∈ scan ↔ x ∈ S) → addSiblingsLoop parse M S scan S = S := by
  have hbad : siblingsParsable parse M c = false := by
    simp [siblingsParsable, hM, hp]
  refine ⟨AddHTSiblingsToCPUSet_of_unparsable parse S M ⟨c, hc, hbad⟩, ?_⟩
  intro scan hscan
  exact addSiblingsLoop_of_unparsable parse M S scan S ⟨c, (hscan c).2 hc, hbad⟩

/-- C7 at a concrete input: core 1 has the sibling list "x", so the siblings of core 0
are not added either. -/
theorem AddHTSiblingsToCPUSet_unparsable_returns_input_witness :
    AddHTSiblingsToCPUSet parseCoreList {0, 1}
        (fun c => if c = 0 then some "4" else if c = 1 then some "x" else none)
      = {0, 1} :=
  (AddHTSiblingsToCPUSet_unparsable_returns_input parseCoreList {0, 1}
    (fun c => if c = 0 then some "4" else if c = 1 then some "x" else none)
    1 "x" (by decide) (by decide) (by decide)).1

/-- C5, counterexample: on the sibling map `GetHTTopology` builds from the logical to
physical core map 0 ↦ 0, 1 ↦ 0, 2 ↦ 1 (that is 0 ↦ "1", 1 ↦ "2"), expanding the set
of core 0 gives cores 0, 1 and expanding that again gives cores 0, 1, 2. -/
theorem AddHTSiblingsToCPUSet_not_idempotent :
    AddHTSiblingsToCPUSet parseCoreList {0} (GetHTTopology goItoa [(0, 0), (1, 0), (2, 1)])
      = {0, 1} ∧
    AddHTSiblingsToCPUSet parseCoreList
        (AddHTSiblingsToCPUSet parseCoreList {0}
          (GetHTTopology goItoa [(0, 0), (1, 0), (2, 1)]))
        (GetHTTopology goItoa [(0, 0), (1, 0), (2, 1)])
      = {0, 1, 2} ∧
    AddHTSiblingsToCPUSet parseCoreList
        (AddHTSiblingsToCPUSet parseCoreList {0}
          (GetHTTopology goItoa [(0, 0), (1, 0), (2, 1)]))
        (GetHTTopology goItoa [(0, 0), (1, 0), (2, 1)])
      ≠ AddHTSiblingsToCPUSet parseCoreList {0}
          (GetHTTopology goItoa [(0, 0), (1, 0), (2, 1)]) := by
  have h1 : AddHTSiblingsToCPUSet parseCoreList {0}
      (GetHTTopology goItoa [(0, 0), (1, 0), (2, 1)]) = {0, 1} :=
    (AddHTSiblingsToCPUSet_of_parsable _ _ _ (by decide)).trans (by decide)
  have h2 : AddHTSiblingsToCPUSet parseCoreList {0, 1}
      (GetHTTopology goItoa [(0, 0), (1, 0), (2, 1)]) = {0, 1, 2} :=
    (AddHTSiblingsToCPUSet_of_parsable _ _ _ (by decide)).trans (by decide)
  rw [h1, h2]
  exact ⟨rfl, rfl, by decide⟩

/-- C5, amended: expansion is idempotent when no core that the first expansion adds is
itself a key of the sibling map. -/
theorem AddHTSiblingsToCPUSet_idempotent (parse : String → Option CPUSet) (S : CPUSet)
    (M : Int → Option String)
    (h : ∀ c ∈ AddHTSiblingsToCPUSet parse S M, c ∉ S → M c = none) :
    AddHTSiblingsToCPUSet parse (AddHTSiblingsToCPUSet parse S M) M
      = AddHTSiblingsToCPUSet parse S M := by
  rcases AddHTSiblingsToCPUSet_cases parse S M with hp | hbad
  · have hadded : ∀ c ∈ AddHTSiblingsToCPUSet parse S M, c ∉ S →
        siblingsParsable parse M c = true ∧ siblingsOf parse M c = ∅ := by
      intro c hc hcS
      simp [siblingsParsable, siblingsOf, h c hc hcS]
    have hp2 : ∀ c ∈ AddHTSiblingsToCPUSet parse S M, siblingsParsable parse M c = true := by
      intro c hc
      by_cases hcS : c ∈ S
      · exact hp c hcS
      · exact (hadded c hc hcS).1
    rw [AddHTSiblingsToCPUSet_of_parsable parse _ M hp2]
    apply Finset.union_eq_left.2
    intro x hx
    obtain ⟨c, hc, hxc⟩ := Finset.mem_biUnion.1 hx
    by_cases hcS : c ∈ S
    · rw [AddHTSiblingsToCPUSet_of_parsable parse S M hp]
      exact Finset.mem_union_right _ (Finset.mem_biUnion.2 ⟨c, hcS, hxc⟩)
    · rw [(hadded c hc hcS).2] at hxc
      simp at hxc
  · rw [AddHTSiblingsToCPUSet_of_unparsable parse S M hbad]
    exact AddHTSiblingsToCPUSet_of_unparsable parse S M hbad

/-- C5, amended, at a concrete input: with the sibling map 0 ↦ "4", 1 ↦ "5" the
expansion of the set of core 0 is cores 0 and 4, and expanding it again changes
nothing. -/
theorem AddHTSiblingsToCPUSet_idempotent_witness :
    AddHTSiblingsToCPUSet parseCoreList
        (AddHTSiblingsToCPUSet parseCoreList {0}
          (GetHTTopology goItoa [(0, 0), (4, 0), (1, 1), (5, 1)]))
        (GetHTTopology goItoa [(0, 0), (4, 0), (1, 1), (5, 1)])
      = AddHTSiblingsToCPUSet parseCoreList {0}
          (GetHTTopology goItoa [(0, 0), (4, 0), (1, 1), (5, 1)]) :=
  AddHTSiblingsToCPUSet_idempotent parseCoreList {0}
    (GetHTTopology goItoa [(0, 0), (4, 0), (1, 1), (5, 1)])
    (by
      rw [(AddHTSiblingsToCPUSet_of_parsable _ _ _ (by decide)).trans
        (by decide : _ = ({0, 4} : CPUSet))]
      decide)

/-! ## Checkpoint translation and lookup -/

theorem foldl_append_snd (l : List (Int × List String)) (acc : List String) :
    l.foldl (fun flat devicesPerNUMA => flat ++ devicesPerNUMA.2) acc
      = acc ++ (l.map Prod.snd).flatten := by
  induction l generalizing acc with
  | nil => simp
  | cons a rest ih => simp [ih, List.append_assoc]

theorem flattenDeviceIDs_eq_join (l : List (Int × List String)) :
    flattenDeviceIDs l = (l.map Prod.snd).flatten := by
  simp [flattenDeviceIDs, foldl_append_snd]

theorem length_flattenDeviceIDs (l : List (Int × List String)) :
    (flattenDeviceIDs l).length = (l.map fun p => p.2.length).sum := by
  rw [flattenDeviceIDs_eq_join]
  induction l with
  | nil => simp
  | cons a rest ih => simp [ih]

theorem count_flattenDeviceIDs (l : List (Int × List String)) (d : String) :
    (flattenDeviceIDs l).count d = (l.map fun p => p.2.count d).sum := by
  rw [flattenDeviceIDs_eq_join]
  induction l with
  | nil => simp
  | cons a rest ih => simp [ih]

theorem infix_flattenDeviceIDs (l : List (Int × List String)) (p : Int × List String)
    (hp : p ∈ l) : p.2 <:+: flattenDeviceIDs l := by
  rw [flattenDeviceIDs_eq_join]
  exact List.infix_of_mem_flatten (List.mem_map_of_mem Prod.snd hp)

/-- C9: `TranslateNewCheckpointToOld` keeps the number and the order of the entries and
each entry's `PodUID`, `ContainerName` and `ResourceName`; the flat `DeviceIDs` of an
entry is the concatenation of its per-NUMA lists in the order the map is visited, so
its length is the sum of their lengths, every device ID occurs as often as in all of
them together, and every per-NUMA list is a contiguous run of it. -/
theorem TranslateNewCheckpointToOld_flattens (newFile : NewFile) :
    (TranslateNewCheckpointToOld newFile).PodDeviceEntries.length
      = newFile.PodDeviceEntries.length ∧
    ∀ (i : Nat) (new : NewPodDevicesEntry), newFile.PodDeviceEntries[i]? = some new →
      ∃ old : PodDevicesEntry,
        (TranslateNewCheckpointToOld newFile).PodDeviceEntries[i]? = some old ∧
        old.PodUID = new.PodUID ∧ old.ContainerName = new.ContainerName ∧
        old.ResourceName = new.ResourceName ∧
        old.DeviceIDs = (new.DeviceIDs.map Prod.snd).flatten ∧
        old.DeviceIDs.length = (new.DeviceIDs.map fun p => p.2.length).sum ∧
        (∀ d : String, old.DeviceIDs.count d = (new.DeviceIDs.map fun p => p.2.count d).sum) ∧
        ∀ p ∈ new.DeviceIDs, p.2 <:+: old.DeviceIDs := by
  refine ⟨by simp [TranslateNewCheckpointToOld], ?_⟩
  intro i new hi
  refine ⟨_, by simp [TranslateNewCheckpointToOld, hi]; rfl, rfl, rfl, rfl,
    flattenDeviceIDs_eq_join _, length_flattenDeviceIDs _, count_flattenDeviceIDs _,
    infix_flattenDeviceIDs _⟩

/-- C9 at the input of the specification: the per-NUMA lists 0 ↦ ["3", "4"] and
1 ↦ ["5"], visited in this order, give the flat list ["3", "4", "5"]. -/
theorem TranslateNewCheckpointToOld_flattens_witness :
    TranslateNewCheckpointToOld ⟨[⟨"pod", "ctr", "cmss.cn/exclusive1",
        [(0, ["3", "4"]), (1, ["5"])]⟩]⟩
      = ⟨[⟨"pod", "ctr", "cmss.cn/exclusive1", ["3", "4", "5"]⟩]⟩ ∧
    ∃ old : PodDevicesEntry,
      (TranslateNewCheckpointToOld ⟨[⟨"pod", "ctr", "cmss.cn/exclusive1",
        [(0, ["3", "4"]), (1, ["5"])]⟩]⟩).PodDeviceEntries[0]? = some old ∧
      old.DeviceIDs.length = 3 :=
  ⟨by decide,
    (((TranslateNewCheckpointToOld_flattens ⟨[⟨"pod", "ctr", "cmss.cn/exclusive1",
        [(0, ["3", "4"]), (1, ["5"])]⟩]⟩).2 0 _ rfl).imp
      fun _ h => ⟨h.1, h.2.2.2.2.2.1⟩)⟩

theorem foldl_collect (entries : List PodDevicesEntry) (pod ctr res : String)
    (acc : List String) :
    entries.foldl (fun deviceIDs entry =>
        if entryMatches entry pod ctr res then deviceIDs ++ entry.DeviceIDs else deviceIDs) acc
      = acc ++ (entries.filter fun entry => entryMatches entry pod ctr res).flatMap
          fun entry => entry.DeviceIDs := by
  induction entries generalizing acc with
  | nil => simp
  | cons e rest ih =>
    by_cases h : entryMatches e pod ctr res = true
    · simp [ih, h, List.append_assoc]
    · simp [ih, h]

theorem entryMatches_iff (entry : PodDevicesEntry) (pod ctr res : String) :
    entryMatches entry pod ctr res = true ↔
      entry.PodUID = pod ∧ entry.ContainerName = ctr ∧ entry.ResourceName = res := by
  simp [entryMatches, and_assoc]

theorem collectDeviceIDs_eq (cp : File) (pod ctr res : String) :
    collectDeviceIDs cp.PodDeviceEntries pod ctr res = matchingDeviceIDs cp pod ctr res := by
  unfold collectDeviceIDs matchingDeviceIDs
  rw [foldl_collect, List.nil_append]
  congr 2
  funext entry
  rw [Bool.eq_iff_iff, entryMatches_iff]
  simp

theorem buildExclusiveSet_ok (atoi : String → Option Int) :
    ∀ (l : List String) (built : CPUSet), (∀ d ∈ l, atoi d ≠ none) →
      buildExclusiveSet atoi l built = .ok (built ∪ (l.filterMap atoi).toFinset) := by
  intro l
  induction l with
  | nil => intro built _; simp [buildExclusiveSet]
  | cons a rest ih =>
    intro built h
    have ha := h a (List.mem_cons_self _ _)
    cases hv : atoi a with
    | none => exact absurd hv ha
    | some v =>
      simp only [buildExclusiveSet, hv]
      rw [ih _ (fun d hd => h d (List.mem_cons_of_mem _ hd))]
      congr 1
      ext x
      simp [List.filterMap_cons, hv]

theorem buildExclusiveSet_error (atoi : String → Option Int) :
    ∀ (l : List String) (built : CPUSet), (∃ d ∈ l, atoi d = none) →
      ∃ d ∈ l, atoi d = none ∧ buildExclusiveSet atoi l built = .error (.atoi d) := by
  intro l
  induction l with
  | nil => intro _ h; simp at h
  | cons a rest ih =>
    intro built h
    cases hv : atoi a with
    | none => exact ⟨a, List.mem_cons_self _ _, hv, by simp [buildExclusiveSet, hv]⟩
    | some v =>
      obtain ⟨d, hd, hnone⟩ := h
      rcases List.mem_cons.1 hd with rfl | hmem
      · rw [hv] at hnone; cases hnone
      · obtain ⟨d', hd', hnone', hres⟩ := ih (insert v built) ⟨d, hmem, hnone⟩
        exact ⟨d', List.mem_cons_of_mem _ hd', hnone', by simp [buildExclusiveSet, hv, hres]⟩

theorem getListOfAllocatedExclusiveCpus_eq (atoi : String → Option Int) (cp : File)
    (res pod ctr : String) :
    getListOfAllocatedExclusiveCpus atoi (.ok cp) res pod ctr
      = if (matchingDeviceIDs cp pod ctr res).length = 0 then .ok ∅
        else calculateFinalExclusiveSet atoi (matchingDeviceIDs cp pod ctr res) := by
  simp only [getListOfAllocatedExclusiveCpus, collectDeviceIDs_eq]

theorem getListOfAllocatedExclusiveCpus_ok (atoi : String → Option Int) (cp : File)
    (res pod ctr : String) (h : ∀ d ∈ matchingDeviceIDs cp pod ctr res, atoi d ≠ none) :
    getListOfAllocatedExclusiveCpus atoi (.ok cp) res pod ctr
      = .ok ((matchingDeviceIDs cp pod ctr res).filterMap atoi).toFinset := by
  simp only [getListOfAllocatedExclusiveCpus, collectDeviceIDs_eq]
  split
  · next hlen =>
    rw [List.length_eq_zero.1 hlen]
    rfl
  · simp [calculateFinalExclusiveSet, buildExclusiveSet_ok atoi _ _ h]

/-- C10: on a parsed checkpoint, when every device ID of the entries matching the pod
UID, the container name and the resource name is an integer for `strconv.Atoi`,
`getListOfAllocatedExclusiveCpus` returns exactly the set of their integer values;
when one of them is not, it returns the error of `strconv.Atoi` for such a device ID;
and an entry that differs in one of the three keys can be removed from the checkpoint
without changing the result. -/
theorem getListOfAllocatedExclusiveCpus_matching (atoi : String → Option Int) (cp : File)
    (res pod ctr : String) :
    ((∀ d ∈ matchingDeviceIDs cp pod ctr res, atoi d ≠ none) →
      getListOfAllocatedExclusiveCpus atoi (.ok cp) res pod ctr
        = .ok ((matchingDeviceIDs cp pod ctr res).filterMap atoi).toFinset ∧
      ∀ core : Int,
        core ∈ ((matchingDeviceIDs cp pod ctr res).filterMap atoi).toFinset ↔
          ∃ entry ∈ cp.PodDeviceEntries, entry.PodUID = pod ∧ entry.ContainerName = ctr ∧
            entry.ResourceName = res ∧ ∃ d ∈ entry.DeviceIDs, atoi d = some core) ∧
    ((∃ d ∈ matchingDeviceIDs cp pod ctr res, atoi d = none) →
      ∃ d ∈ matchingDeviceIDs cp pod ctr res, atoi d = none ∧
        getListOfAllocatedExclusiveCpus atoi (.ok cp) res pod ctr = .error (.atoi d)) ∧
    ∀ (before after : List PodDevicesEntry) (entry : PodDevicesEntry),
      cp.PodDeviceEntries = before ++ entry :: after →
      (entry.PodUID ≠ pod ∨ entry.ContainerName ≠ ctr ∨ entry.ResourceName ≠ res) →
      getListOfAllocatedExclusiveCpus atoi (.ok cp) res pod ctr
        = getListOfAllocatedExclusiveCpus atoi (.ok ⟨before ++ after⟩) res pod ctr := by
  refine ⟨?_, ?_, ?_⟩
  · intro h
    refine ⟨getListOfAllocatedExclusiveCpus_ok atoi cp res pod ctr h, ?_⟩
    intro core
    simp only [matchingDeviceIDs, List.mem_toFinset, List.mem_filterMap, List.mem_flatMap,
      List.mem_filter, decide_eq_true_eq]
    constructor
    · rintro ⟨d, ⟨entry, ⟨hmem, h1, h2, h3⟩, hd⟩, hv⟩
      exact ⟨entry, hmem, h1, h2, h3, d, hd, hv⟩
    · rintro ⟨entry, hmem, h1, h2, h3, d, hd, hv⟩
      exact ⟨d, ⟨entry, ⟨hmem, h1, h2, h3⟩, hd⟩, hv⟩
  · intro h
    obtain ⟨d, hd, hnone, hres⟩ := buildExclusiveSet_error atoi _ ∅ h
    refine ⟨d, hd, hnone, ?_⟩
    simp only [getListOfAllocatedExclusiveCpus, collectDeviceIDs_eq]
    split
    · next hlen =>
      rw [List.length_eq_zero.1 hlen] at hd
      simp at hd
    · exact hres
  · intro before after entry hcp hdiff
    have hids : matchingDeviceIDs cp pod ctr res
        = matchingDeviceIDs ⟨before ++ after⟩ pod ctr res := by
      have hno : ¬(entry.PodUID = pod ∧ entry.ContainerName = ctr ∧
          entry.ResourceName = res) := by
        tauto
      simp [matchingDeviceIDs, hcp, List.filter_cons, hno]
    rw [getListOfAllocatedExclusiveCpus_eq, getListOfAllocatedExclusiveCpus_eq, hids]

/-- C10 at a concrete input: of three entries only the one that matches pod UID,
container name and resource name contributes, and its device IDs "3" and "4" give the
cores 3 and 4. -/
theorem getListOfAllocatedExclusiveCpus_matching_witness :
    getListOfAllocatedExclusiveCpus goAtoi
        (.ok ⟨[⟨"pod", "ctr", "cmss.cn/exclusive1", ["3", "4"]⟩,
          ⟨"pod", "other", "cmss.cn/exclusive1", ["5"]⟩,
          ⟨"pod", "ctr", "cmss.cn/exclusive2", ["x"]⟩]⟩)
        "cmss.cn/exclusive1" "pod" "ctr"
      = .ok {3, 4} :=
  ((getListOfAllocatedExclusiveCpus_matching goAtoi
      ⟨[⟨"pod", "ctr", "cmss.cn/exclusive1", ["3", "4"]⟩,
        ⟨"pod", "other", "cmss.cn/exclusive1", ["5"]⟩,
        ⟨"pod", "ctr", "cmss.cn/exclusive2", ["x"]⟩]⟩
      "cmss.cn/exclusive1" "pod" "ctr").1 (by decide)).1.trans
    (congrArg Except.ok (by decide))

/-! ## The cpuset of a container -/

theorem subset_AddHTSiblingsToCPUSet (parse : String → Option CPUSet) (S : CPUSet)
    (M : Int → Option String) : S ⊆ AddHTSiblingsToCPUSet parse S M := by
  rcases AddHTSiblingsToCPUSet_cases parse S M with h | h
  · rw [AddHTSiblingsToCPUSet_of_parsable parse S M h]
    exact Finset.subset_union_left
  · rw [AddHTSiblingsToCPUSet_of_unparsable parse S M h]

theorem SelectPoolConfig_cases (pools : List (String × Pool)) (pfx : String) :
    ((∀ entry ∈ pools, HasPrefix entry.1 pfx = false) ∧
        SelectPoolConfig pools pfx = Pool.zero) ∨
      ∃ entry ∈ pools, HasPrefix entry.1 pfx = true ∧ SelectPoolConfig pools pfx = entry.2 := by
  induction pools with
  | nil => left; simp [SelectPoolConfig]
  | cons a rest ih =>
    obtain ⟨poolName, pool⟩ := a
    by_cases h : HasPrefix poolName pfx = true
    · right
      exact ⟨(poolName, pool), List.mem_cons_self _ _, h, by simp [SelectPoolConfig, h]⟩
    · have hsel : SelectPoolConfig ((poolName, pool) :: rest) pfx = SelectPoolConfig rest pfx := by
        simp [SelectPoolConfig, h]
      rcases ih with ⟨hall, hz⟩ | ⟨entry, hmem, hp, he⟩
      · left
        refine ⟨?_, hsel.trans hz⟩
        intro entry hentry
        rcases List.mem_cons.1 hentry with rfl | hmem
        · simpa using h
        · exact hall entry hmem
      · right
        exact ⟨entry, List.mem_cons_of_mem _ hmem, hp, hsel.trans he⟩

theorem HasPrefix_self (s : String) : HasPrefix s s = true := by
  simp [HasPrefix]

theorem SelectPoolConfig_of_unique (pools : List (String × Pool)) (poolName : String)
    (pool : Pool) (hmem : (poolName, pool) ∈ pools)
    (honly : ∀ entry ∈ pools, HasPrefix entry.1 poolName = true → entry = (poolName, pool)) :
    SelectPoolConfig pools poolName = pool := by
  rcases SelectPoolConfig_cases pools poolName with ⟨hall, _⟩ | ⟨entry, hentry, hp, hsel⟩
  · have := hall _ hmem
    rw [HasPrefix_self] at this
    cases this
  · rw [hsel, honly entry hentry hp]

theorem scanRequests_skip (env : Env) (pod ctr : String) (r : String) (rest : List String)
    (sets : CPUSet × CPUSet)
    (hs : isSharedRequest env.resourceBaseName r = false)
    (he : isExclusiveRequest env.resourceBaseName r = false) :
    scanRequests env pod ctr (r :: rest) sets = scanRequests env pod ctr rest sets := by
  obtain ⟨sh, ex⟩ := sets
  simp [scanRequests, hs, he]

theorem scanRequests_shared (env : Env) (pod ctr : String) (r : String) (rest : List String)
    (sets : CPUSet × CPUSet)
    (hs : isSharedRequest env.resourceBaseName r = true) :
    scanRequests env pod ctr (r :: rest) sets
      = scanRequests env pod ctr rest
          ((SelectPoolConfig (env.poolsAt r) SharedPoolID).CPUset, sets.2) := by
  obtain ⟨sh, ex⟩ := sets
  simp [scanRequests, hs]

theorem scanRequests_exclusive (env : Env) (pod ctr : String) (r : String)
    (rest : List String) (sets : CPUSet × CPUSet) (allocated : CPUSet) (poolName : String)
    (hs : isSharedRequest env.resourceBaseName r = false)
    (he : isExclusiveRequest env.resourceBaseName r = true)
    (halloc : getListOfAllocatedExclusiveCpus env.atoi env.checkpointFile r pod ctr
      = .ok allocated)
    (hseg : (Split r '/').get? 1 = some poolName) :
    scanRequests env pod ctr (r :: rest) sets
      = scanRequests env pod ctr rest
          (sets.1, exclusiveContribution env r poolName allocated) := by
  obtain ⟨sh, ex⟩ := sets
  simp only [scanRequests, hs, he, halloc, hseg, Bool.false_eq_true, if_false, if_true,
    exclusiveContribution]
  split <;> rfl

theorem scanRequests_of_neither (env : Env) (pod ctr : String) :
    ∀ (requests : List String) (sets : CPUSet × CPUSet),
      (∀ r ∈ requests, isSharedRequest env.resourceBaseName r = false ∧
        isExclusiveRequest env.resourceBaseName r = false) →
      scanRequests env pod ctr requests sets = .ok sets := by
  intro requests
  induction requests with
  | nil => intro sets _; simp [scanRequests]
  | cons r rest ih =>
    intro sets h
    have hr := h r (List.mem_cons_self _ _)
    rw [scanRequests_skip env pod ctr r rest sets hr.1 hr.2]
    exact ih sets (fun x hx => h x (List.mem_cons_of_mem _ hx))

/-- C2: for a container none of whose request keys is a shared-pool or an
exclusive-pool resource name, `determineCorrectCpuset` returns without error the core
set of the pool that `SelectPoolConfig` selects for the prefix "default"; that pool is
a configured pool whose name begins with "default" when there is one, and the result is
the empty set when there is none. -/
theorem determineCorrectCpuset_default_only (env : Env) (pod ctr : String)
    (requests : List String)
    (h : ∀ r ∈ requests, isSharedRequest env.resourceBaseName r = false ∧
      isExclusiveRequest env.resourceBaseName r = false) :
    determineCorrectCpuset env pod ctr requests
      = .ok (SelectPoolConfig env.poolsAtDefault DefaultPoolID).CPUset ∧
    ((∃ entry ∈ env.poolsAtDefault, HasPrefix entry.1 DefaultPoolID = true) →
      ∃ entry ∈ env.poolsAtDefault, HasPrefix entry.1 DefaultPoolID = true ∧
        determineCorrectCpuset env pod ctr requests = .ok entry.2.CPUset) ∧
    ((∀ entry ∈ env.poolsAtDefault, HasPrefix entry.1 DefaultPoolID = false) →
      determineCorrectCpuset env pod ctr requests = .ok ∅) := by
  have hres : determineCorrectCpuset env pod ctr requests
      = .ok (SelectPoolConfig env.poolsAtDefault DefaultPoolID).CPUset := by
    simp [determineCorrectCpuset, scanRequests_of_neither env pod ctr requests (∅, ∅) h]
  refine ⟨hres, ?_, ?_⟩
  · rintro ⟨entry, hmem, hp⟩
    rcases SelectPoolConfig_cases env.poolsAtDefault DefaultPoolID with
      ⟨hall, _⟩ | ⟨entry', hmem', hp', hsel⟩
    · rw [hall entry hmem] at hp; cases hp
    · exact ⟨entry', hmem', hp', by rw [hres, hsel]⟩
  · intro hnone
    rcases SelectPoolConfig_cases env.poolsAtDefault DefaultPoolID with
      ⟨_, hz⟩ | ⟨entry', hmem', hp', _⟩
    · rw [hres, hz]; rfl
    · rw [hnone entry' hmem'] at hp'; cases hp'

/-- C2 at a concrete input: a container requesting only `cpu` and `memory` gets the
cores 4 and 5 of the pool `default`. -/
theorem determineCorrectCpuset_default_only_witness :
    determineCorrectCpuset sharedAndExclusivePools "pod" "ctr" ["cpu", "memory"]
      = .ok {4, 5} :=
  (determineCorrectCpuset_default_only sharedAndExclusivePools "pod" "ctr"
    ["cpu", "memory"] (by decide)).1.trans (congrArg Except.ok (by decide))

theorem scanRequests_one_each (env : Env) (pod ctr s e poolName : String)
    (allocated : CPUSet)
    (hs : isSharedRequest env.resourceBaseName s = true)
    (hes : isSharedRequest env.resourceBaseName e = false)
    (he : isExclusiveRequest env.resourceBaseName e = true)
    (halloc : getListOfAllocatedExclusiveCpus env.atoi env.checkpointFile e pod ctr
      = .ok allocated)
    (hseg : (Split e '/').get? 1 = some poolName) :
    ∀ (requests : List String) (sets : CPUSet × CPUSet),
      (∀ r ∈ requests, r ≠ s → r ≠ e →
        isSharedRequest env.resourceBaseName r = false ∧
        isExclusiveRequest env.resourceBaseName r = false) →
      scanRequests env pod ctr requests sets
        = .ok (if s ∈ requests then (SelectPoolConfig (env.poolsAt s) SharedPoolID).CPUset
                else sets.1,
               if e ∈ requests then exclusiveContribution env e poolName allocated
                else sets.2) := by
  have hne : e ≠ s := fun h => by rw [h, hs] at hes; cases hes
  intro requests
  induction requests with
  | nil => intro sets _; simp [scanRequests]
  | cons r rest ih =>
    intro sets h
    have hrest : ∀ x ∈ rest, x ≠ s → x ≠ e →
        isSharedRequest env.resourceBaseName x = false ∧
        isExclusiveRequest env.resourceBaseName x = false :=
      fun x hx => h x (List.mem_cons_of_mem _ hx)
    by_cases hrs : r = s
    · subst hrs
      rw [scanRequests_shared env pod ctr r rest sets hs, ih _ hrest]
      simp [hne]
    · by_cases hre : r = e
      · subst hre
        rw [scanRequests_exclusive env pod ctr r rest sets allocated poolName hes he
          halloc hseg, ih _ hrest]
        simp [Ne.symm hne]
      · have hr := h r (List.mem_cons_self _ _) hrs hre
        rw [scanRequests_skip env pod ctr r rest sets hr.1 hr.2, ih _ hrest]
        simp [Ne.symm hrs, Ne.symm hre]

/-- What `determineCorrectCpuset` returns for one shared and one exclusive key: for a
container whose request keys hold one shared-pool resource name `s` and
one exclusive-pool resource name `e` (all other keys being neither), with the
allocation of `e` read from the checkpoint, `determineCorrectCpuset` returns the union
of the core set of the pool selected for the prefix "shared" and the exclusive
allocation, the latter expanded with hyperthread siblings when the pool selected for
the pool segment of `e` is `multiThreaded`, whenever that union is not empty; the
shared cores and the allocated cores are all in the result; and the pool selected for
the pool segment is the pool of that name when no other pool name begins with it. -/
theorem determineCorrectCpuset_shared_and_exclusive (env : Env) (pod ctr : String)
    (requests : List String) (s e poolName : String) (allocated : CPUSet)
    (hs : isSharedRequest env.resourceBaseName s = true)
    (hes : isSharedRequest env.resourceBaseName e = false)
    (he : isExclusiveRequest env.resourceBaseName e = true)
    (hsmem : s ∈ requests) (hemem : e ∈ requests)
    (hothers : ∀ r ∈ requests, r ≠ s → r ≠ e →
      isSharedRequest env.resourceBaseName r = false ∧
      isExclusiveRequest env.resourceBaseName r = false)
    (halloc : getListOfAllocatedExclusiveCpus env.atoi env.checkpointFile e pod ctr
      = .ok allocated)
    (hseg : (Split e '/').get? 1 = some poolName)
    (hne : (SelectPoolConfig (env.poolsAt s) SharedPoolID).CPUset ∪
      exclusiveContribution env e poolName allocated ≠ ∅) :
    determineCorrectCpuset env pod ctr requests
      = .ok ((SelectPoolConfig (env.poolsAt s) SharedPoolID).CPUset ∪
          exclusiveContribution env e poolName allocated) ∧
    exclusiveContribution env e poolName allocated
      = (if (SelectPoolConfig (env.poolsAt e) poolName).HTPolicy = MultiThreadHTPolicy
          then AddHTSiblingsToCPUSet env.parse allocated env.htMap else allocated) ∧
    (SelectPoolConfig (env.poolsAt s) SharedPoolID).CPUset ∪ allocated
      ⊆ (SelectPoolConfig (env.poolsAt s) SharedPoolID).CPUset ∪
          exclusiveContribution env e poolName allocated ∧
    ∀ pool : Pool, (poolName, pool) ∈ env.poolsAt e →
      (∀ entry ∈ env.poolsAt e, HasPrefix entry.1 poolName = true → entry = (poolName, pool)) →
      exclusiveContribution env e poolName allocated
        = (if pool.HTPolicy = MultiThreadHTPolicy
            then AddHTSiblingsToCPUSet env.parse allocated env.htMap else allocated) := by
  refine ⟨?_, rfl, ?_, ?_⟩
  rotate_right
  · intro pool hmem honly
    unfold exclusiveContribution
    rw [SelectPoolConfig_of_unique (env.poolsAt e) poolName pool hmem honly]
  · unfold determineCorrectCpuset
    rw [scanRequests_one_each env pod ctr s e poolName allocated hs hes he halloc hseg
      requests (∅, ∅) hothers]
    simp only [hsmem, hemem, if_true]
    rw [if_pos]
    by_contra hcon
    push_neg at hcon
    exact hne (by rw [hcon.1, hcon.2]; rfl)
  · apply Finset.union_subset_union_right
    unfold exclusiveContribution
    split
    · exact subset_AddHTSiblingsToCPUSet _ _ _
    · exact Finset.Subset.refl _

/-- One shared and one exclusive key at a concrete input: the shared pool holds cores 0
and 1, core 2 of the `multiThreaded` pool `exclusive1` is allocated and has the sibling
6; the cpuset is 0, 1, 2, 6. -/
theorem determineCorrectCpuset_shared_and_exclusive_witness :
    determineCorrectCpuset sharedAndExclusivePools "pod" "ctr"
        ["cpu", "cmss.cn/exclusive1", "cmss.cn/shared1"]
      = .ok {0, 1, 2, 6} := by
  have hc : exclusiveContribution sharedAndExclusivePools "cmss.cn/exclusive1"
      "exclusive1" {2} = {2, 6} := by
    unfold exclusiveContribution
    rw [if_pos (by decide)]
    exact (AddHTSiblingsToCPUSet_of_parsable _ _ _ (by decide)).trans (by decide)
  have h := (determineCorrectCpuset_shared_and_exclusive sharedAndExclusivePools "pod" "ctr"
    ["cpu", "cmss.cn/exclusive1", "cmss.cn/shared1"] "cmss.cn/shared1"
    "cmss.cn/exclusive1" "exclusive1" {2}
    (by decide) (by decide) (by decide) (by decide) (by decide) (by decide) rfl
    (by decide) (by rw [hc]; decide)).1
  rw [hc] at h
  exact h.trans (congrArg Except.ok (by decide))

/-- C1, the code at the failing input: the container requests `cmss.cn/shared1` and
`cmss.cn/exclusive1`; the shared pool holds the cores 6 and 7, core 0 of the
`singleThreaded` pool `exclusive1` is allocated, and the pool `exclusive10` is
`multiThreaded`.  The union of the shared cores and the allocation of the
`singleThreaded` pool is 0, 6, 7.  When `SelectPoolConfig` visits `exclusive10` first,
`determineCorrectCpuset` expands the allocation with the sibling 8 of core 0 and returns
0, 6, 7, 8; when it visits `exclusive1` first, it returns 0, 6, 7. -/
theorem determineCorrectCpuset_expands_single_threaded_pool :
    (SelectPoolConfig
        [("exclusive10", ⟨{4, 5}, "4,5", MultiThreadHTPolicy⟩),
         ("exclusive1", ⟨{0, 1}, "0,1", SingleThreadHTPolicy⟩),
         ("shared1", ⟨{6, 7}, "6,7", SingleThreadHTPolicy⟩)] SharedPoolID).CPUset = {6, 7} ∧
    getListOfAllocatedExclusiveCpus goAtoi
        (prefixedExclusivePools []).checkpointFile "cmss.cn/exclusive1" "pod" "ctr"
      = .ok {0} ∧
    (List.lookup "exclusive1"
        [("exclusive10", (⟨{4, 5}, "4,5", MultiThreadHTPolicy⟩ : Pool)),
         ("exclusive1", ⟨{0, 1}, "0,1", SingleThreadHTPolicy⟩),
         ("shared1", ⟨{6, 7}, "6,7", SingleThreadHTPolicy⟩)]).map Pool.HTPolicy
      = some SingleThreadHTPolicy ∧
    determineCorrectCpuset
        (prefixedExclusivePools
          [("exclusive10", ⟨{4, 5}, "4,5", MultiThreadHTPolicy⟩),
           ("exclusive1", ⟨{0, 1}, "0,1", SingleThreadHTPolicy⟩),
           ("shared1", ⟨{6, 7}, "6,7", SingleThreadHTPolicy⟩)])
        "pod" "ctr" ["cmss.cn/shared1", "cmss.cn/exclusive1"] = .ok {0, 6, 7, 8} ∧
    determineCorrectCpuset
        (prefixedExclusivePools
          [("exclusive1", ⟨{0, 1}, "0,1", SingleThreadHTPolicy⟩),
           ("exclusive10", ⟨{4, 5}, "4,5", MultiThreadHTPolicy⟩),
           ("shared1", ⟨{6, 7}, "6,7", SingleThreadHTPolicy⟩)])
        "pod" "ctr" ["cmss.cn/shared1", "cmss.cn/exclusive1"] = .ok {0, 6, 7} := by
  refine ⟨by decide, rfl, by decide, ?_, ?_⟩
  · have hc : exclusiveContribution
        (prefixedExclusivePools
          [("exclusive10", ⟨{4, 5}, "4,5", MultiThreadHTPolicy⟩),
           ("exclusive1", ⟨{0, 1}, "0,1", SingleThreadHTPolicy⟩),
           ("shared1", ⟨{6, 7}, "6,7", SingleThreadHTPolicy⟩)])
        "cmss.cn/exclusive1" "exclusive1" {0} = {0, 8} := by
      unfold exclusiveContribution
      rw [if_pos (by decide)]
      exact (AddHTSiblingsToCPUSet_of_parsable _ _ _ (by decide)).trans (by decide)
    have h := (determineCorrectCpuset_shared_and_exclusive
      (prefixedExclusivePools
        [("exclusive10", ⟨{4, 5}, "4,5", MultiThreadHTPolicy⟩),
         ("exclusive1", ⟨{0, 1}, "0,1", SingleThreadHTPolicy⟩),
         ("shared1", ⟨{6, 7}, "6,7", SingleThreadHTPolicy⟩)])
      "pod" "ctr" ["cmss.cn/shared1", "cmss.cn/exclusive1"] "cmss.cn/shared1"
      "cmss.cn/exclusive1" "exclusive1" {0} (by decide) (by decide) (by decide)
      (by decide) (by decide) (by decide) rfl (by decide) (by rw [hc]; decide)).1
    rw [hc] at h
    exact h.trans (congrArg Except.ok (by decide))
  · have hc : exclusiveContribution
        (prefixedExclusivePools
          [("exclusive1", ⟨{0, 1}, "0,1", SingleThreadHTPolicy⟩),
           ("exclusive10", ⟨{4, 5}, "4,5", MultiThreadHTPolicy⟩),
           ("shared1", ⟨{6, 7}, "6,7", SingleThreadHTPolicy⟩)])
        "cmss.cn/exclusive1" "exclusive1" {0} = {0} := by
      unfold exclusiveContribution
      rw [if_neg (by decide)]
    have h := (determineCorrectCpuset_shared_and_exclusive
      (prefixedExclusivePools
        [("exclusive1", ⟨{0, 1}, "0,1", SingleThreadHTPolicy⟩),
         ("exclusive10", ⟨{4, 5}, "4,5", MultiThreadHTPolicy⟩),
         ("shared1", ⟨{6, 7}, "6,7", SingleThreadHTPolicy⟩)])
      "pod" "ctr" ["cmss.cn/shared1", "cmss.cn/exclusive1"] "cmss.cn/shared1"
      "cmss.cn/exclusive1" "exclusive1" {0} (by decide) (by decide) (by decide)
      (by decide) (by decide) (by decide) rfl (by decide) (by rw [hc]; decide)).1
    rw [hc] at h
    exact h.trans (congrArg Except.ok (by decide))

theorem determineCorrectCpuset_single_exclusive (env : Env) (pod ctr e poolName : String)
    (allocated : CPUSet)
    (hes : isSharedRequest env.resourceBaseName e = false)
    (he : isExclusiveRequest env.resourceBaseName e = true)
    (halloc : getListOfAllocatedExclusiveCpus env.atoi env.checkpointFile e pod ctr
      = .ok allocated)
    (hseg : (Split e '/').get? 1 = some poolName)
    (hne : exclusiveContribution env e poolName allocated ≠ ∅) :
    determineCorrectCpuset env pod ctr [e]
      = .ok (exclusiveContribution env e poolName allocated) := by
  unfold determineCorrectCpuset
  rw [scanRequests_exclusive env pod ctr e [] (∅, ∅) allocated poolName hes he halloc hseg]
  simp [scanRequests, hne]

/-- C3, the code at the failing input: the container requests `cmss.cn/exclusive1` and
`cmss.cn/exclusive2`, the checkpoint records core 1 for the first and core 2 for the
second.  Scanned in this order the result is core 2 alone, scanned in the other order
it is core 1 alone: only the allocation of the key scanned last is kept. -/
theorem determineCorrectCpuset_two_exclusive_keeps_last :
    determineCorrectCpuset twoExclusivePools "pod" "ctr"
        ["cmss.cn/exclusive1", "cmss.cn/exclusive2"] = .ok {2} ∧
    determineCorrectCpuset twoExclusivePools "pod" "ctr"
        ["cmss.cn/exclusive2", "cmss.cn/exclusive1"] = .ok {1} ∧
    getListOfAllocatedExclusiveCpus goAtoi twoExclusivePools.checkpointFile
        "cmss.cn/exclusive1" "pod" "ctr" = .ok {1} ∧
    getListOfAllocatedExclusiveCpus goAtoi twoExclusivePools.checkpointFile
        "cmss.cn/exclusive2" "pod" "ctr" = .ok {2} :=
  ⟨rfl, rfl, rfl, rfl⟩

/-- C4, the code at the failing input: the container requests `cmss.cn/exclusive1`,
core 0 is allocated, pool `exclusive1` is `singleThreaded` and pool `exclusive10` is
`multiThreaded`.  When `SelectPoolConfig` visits `exclusive10` first, the allocation is
expanded with the sibling 8 of core 0; when it visits `exclusive1` first, it is not. -/
theorem determineCorrectCpuset_policy_of_prefixed_pool :
    determineCorrectCpuset
        (prefixedExclusivePools
          [("exclusive10", ⟨{4, 5}, "4,5", MultiThreadHTPolicy⟩),
           ("exclusive1", ⟨{0, 1}, "0,1", SingleThreadHTPolicy⟩)])
        "pod" "ctr" ["cmss.cn/exclusive1"] = .ok {0, 8} ∧
    determineCorrectCpuset
        (prefixedExclusivePools
          [("exclusive1", ⟨{0, 1}, "0,1", SingleThreadHTPolicy⟩),
           ("exclusive10", ⟨{4, 5}, "4,5", MultiThreadHTPolicy⟩)])
        "pod" "ctr" ["cmss.cn/exclusive1"] = .ok {0} := by
  constructor
  · have hc : exclusiveContribution
        (prefixedExclusivePools
          [("exclusive10", ⟨{4, 5}, "4,5", MultiThreadHTPolicy⟩),
           ("exclusive1", ⟨{0, 1}, "0,1", SingleThreadHTPolicy⟩)])
        "cmss.cn/exclusive1" "exclusive1" {0} = {0, 8} := by
      unfold exclusiveContribution
      rw [if_pos (by decide)]
      exact (AddHTSiblingsToCPUSet_of_parsable _ _ _ (by decide)).trans (by decide)
    have h := determineCorrectCpuset_single_exclusive
      (prefixedExclusivePools
        [("exclusive10", ⟨{4, 5}, "4,5", MultiThreadHTPolicy⟩),
         ("exclusive1", ⟨{0, 1}, "0,1", SingleThreadHTPolicy⟩)])
      "pod" "ctr" "cmss.cn/exclusive1" "exclusive1" {0}
      (by decide) (by decide) rfl (by decide) (by rw [hc]; decide)
    rw [hc] at h
    exact h
  · rfl

/-! ## Validation of the pools by the device plugin -/

/-- C8, the code where it accepts two shared pools: when the shared pool visited first
has an empty core set, which `CPUSet.String` writes as the empty string, `validatePools`
returns no error for the pools `shared1` and `shared2`, whatever the second pool is. -/
theorem validatePools_accepts_second_shared_pool (cpusetString : CPUSet → String)
    (first second : Pool) (hfirst : first.CPUset = ∅) (hempty : cpusetString ∅ = "") :
    validatePools cpusetString [("shared1", first), ("shared2", second)]
      = (cpusetString second.CPUset, none) := by
  have h1 : DeterminePoolType "shared1" = SharedPoolID := by decide
  have h2 : DeterminePoolType "shared2" = SharedPoolID := by decide
  simp [validatePools, validateLoop, h1, h2, hfirst, hempty]

/-- C8 at a concrete input: pool `shared1` without cores and pool `shared2` with the
cores 1 and 2, visited in this order, pass the validation. -/
theorem validatePools_accepts_second_shared_pool_witness :
    (validatePools cpusetString
      [("shared1", ⟨∅, "", SingleThreadHTPolicy⟩),
       ("shared2", ⟨{1, 2}, "1-2", SingleThreadHTPolicy⟩)]).2 = none :=
  congrArg Prod.snd (validatePools_accepts_second_shared_pool cpusetString
    ⟨∅, "", SingleThreadHTPolicy⟩ ⟨{1, 2}, "1-2", SingleThreadHTPolicy⟩ rfl
    (by simp [cpusetString, ToSlice]))

/-! ## Exclusive requests without an allocation -/

theorem AddHTSiblingsToCPUSet_empty (parse : String → Option CPUSet)
    (M : Int → Option String) : AddHTSiblingsToCPUSet parse ∅ M = ∅ := by
  simp [AddHTSiblingsToCPUSet, ToSlice, addSiblingsLoop]

theorem exclusiveContribution_empty (env : Env) (e poolName : String) :
    exclusiveContribution env e poolName ∅ = ∅ := by
  unfold exclusiveContribution
  split
  · exact AddHTSiblingsToCPUSet_empty _ _
  · rfl

theorem matchingDeviceIDs_of_no_match (cp : File) (pod ctr res : String)
    (h : ∀ entry ∈ cp.PodDeviceEntries,
      ¬(entry.PodUID = pod ∧ entry.ContainerName = ctr ∧ entry.ResourceName = res)) :
    matchingDeviceIDs cp pod ctr res = [] := by
  unfold matchingDeviceIDs
  rw [List.filter_eq_nil_iff.2 (fun entry hentry => by simpa using h entry hentry)]
  rfl

theorem scanRequests_only_exclusive (env : Env) (pod ctr e poolName : String)
    (allocated : CPUSet)
    (hes : isSharedRequest env.resourceBaseName e = false)
    (he : isExclusiveRequest env.resourceBaseName e = true)
    (halloc : getListOfAllocatedExclusiveCpus env.atoi env.checkpointFile e pod ctr
      = .ok allocated)
    (hseg : (Split e '/').get? 1 = some poolName) :
    ∀ (requests : List String) (sets : CPUSet × CPUSet),
      (∀ r ∈ requests, r ≠ e →
        isSharedRequest env.resourceBaseName r = false ∧
        isExclusiveRequest env.resourceBaseName r = false) →
      scanRequests env pod ctr requests sets
        = .ok (sets.1, if e ∈ requests then exclusiveContribution env e poolName allocated
                else sets.2) := by
  intro requests
  induction requests with
  | nil => intro sets _; simp [scanRequests]
  | cons r rest ih =>
    intro sets h
    have hrest : ∀ x ∈ rest, x ≠ e →
        isSharedRequest env.resourceBaseName x = false ∧
        isExclusiveRequest env.resourceBaseName x = false :=
      fun x hx => h x (List.mem_cons_of_mem _ hx)
    by_cases hre : r = e
    · subst hre
      rw [scanRequests_exclusive env pod ctr r rest sets allocated poolName hes he
        halloc hseg, ih _ hrest]
      simp
    · have hr := h r (List.mem_cons_self _ _) hre
      rw [scanRequests_skip env pod ctr r rest sets hr.1 hr.2, ih _ hrest]
      simp [Ne.symm hre]

/-- An exclusive request key without an allocation, when the key has a pool segment and
is not taken for a shared request: when no entry of the parsed checkpoint matches the
pod UID, the container name and the resource name `e`,
`getListOfAllocatedExclusiveCpus` returns the empty core set without error, and `determineCorrectCpuset` for a container whose only pool request is
the exclusive resource `e` (a name with a pool segment after the `/`) returns without
error the core set of the pool selected for the prefix "default". -/
theorem determineCorrectCpuset_exclusive_without_allocation (env : Env) (cp : File)
    (pod ctr e poolName : String) (requests : List String)
    (hcp : env.checkpointFile = .ok cp)
    (hnone : ∀ entry ∈ cp.PodDeviceEntries,
      ¬(entry.PodUID = pod ∧ entry.ContainerName = ctr ∧ entry.ResourceName = e))
    (hes : isSharedRequest env.resourceBaseName e = false)
    (he : isExclusiveRequest env.resourceBaseName e = true)
    (hseg : (Split e '/').get? 1 = some poolName)
    (hmem : e ∈ requests)
    (hothers : ∀ r ∈ requests, r ≠ e →
      isSharedRequest env.resourceBaseName r = false ∧
      isExclusiveRequest env.resourceBaseName r = false) :
    getListOfAllocatedExclusiveCpus env.atoi (.ok cp) e pod ctr = .ok ∅ ∧
    determineCorrectCpuset env pod ctr requests
      = .ok (SelectPoolConfig env.poolsAtDefault DefaultPoolID).CPUset := by
  have halloc : getListOfAllocatedExclusiveCpus env.atoi (.ok cp) e pod ctr = .ok ∅ := by
    rw [getListOfAllocatedExclusiveCpus_eq, matchingDeviceIDs_of_no_match cp pod ctr e hnone]
    rfl
  refine ⟨halloc, ?_⟩
  unfold determineCorrectCpuset
  rw [scanRequests_only_exclusive env pod ctr e poolName ∅ hes he (by rw [hcp]; exact halloc)
    hseg requests (∅, ∅) hothers]
  simp [hmem, exclusiveContribution_empty]

/-- An exclusive request key without an allocation at a concrete input: the checkpoint
holds no entry for container `other`, which requests `cmss.cn/exclusive1`; its cpuset is that of the pool `default`, cores 4 and
5. -/
theorem determineCorrectCpuset_exclusive_without_allocation_witness :
    getListOfAllocatedExclusiveCpus goAtoi
        (.ok ⟨[⟨"pod", "ctr", "cmss.cn/exclusive1", ["2"]⟩]⟩)
        "cmss.cn/exclusive1" "pod" "other" = .ok ∅ ∧
    determineCorrectCpuset sharedAndExclusivePools "pod" "other"
        ["cpu", "cmss.cn/exclusive1"] = .ok {4, 5} :=
  (determineCorrectCpuset_exclusive_without_allocation sharedAndExclusivePools
    ⟨[⟨"pod", "ctr", "cmss.cn/exclusive1", ["2"]⟩]⟩ "pod" "other" "cmss.cn/exclusive1"
    "exclusive1" ["cpu", "cmss.cn/exclusive1"] rfl (by decide) (by decide) (by decide)
    (by decide) (by decide) (by decide)).imp id
    fun h => h.trans (congrArg Except.ok (by decide))

/-- C11, the code at the failing inputs: the checkpoint holds no entry for container
`other`, so `getListOfAllocatedExclusiveCpus` returns the empty core set without error,
and the pool `default` holds the cores 4 and 5.  For the request key
`hugepages-cmss.cn-exclusive`, which `determineCorrectCpuset` takes for an exclusive
request and which has no `/`, the call ends in the panic "index out of range"; for the
request key `cmss.cn/exclusive-shared` of the pool `exclusive-shared`, which it takes
for a shared request, it returns the cores 0 and 1 of the shared pool.  In neither case
it returns the cores of the default pool. -/
theorem determineCorrectCpuset_unallocated_exclusive_not_default :
    getListOfAllocatedExclusiveCpus goAtoi sharedAndExclusivePools.checkpointFile
        "hugepages-cmss.cn-exclusive" "pod" "other" = .ok ∅ ∧
    getListOfAllocatedExclusiveCpus goAtoi sharedAndExclusivePools.checkpointFile
        "cmss.cn/exclusive-shared" "pod" "other" = .ok ∅ ∧
    (SelectPoolConfig sharedAndExclusivePools.poolsAtDefault DefaultPoolID).CPUset = {4, 5} ∧
    isExclusiveRequest "cmss.cn" "hugepages-cmss.cn-exclusive" = true ∧
    determineCorrectCpuset sharedAndExclusivePools "pod" "other"
        ["hugepages-cmss.cn-exclusive"] = .error .indexOutOfRange ∧
    DeterminePoolType "exclusive-shared" = ExclusivePoolID ∧
    isSharedRequest "cmss.cn" "cmss.cn/exclusive-shared" = true ∧
    determineCorrectCpuset sharedAndExclusivePools "pod" "other"
        ["cmss.cn/exclusive-shared"] = .ok {0, 1} :=
  ⟨rfl, rfl, by decide, by decide, rfl, by decide, by decide,
    (rfl : determineCorrectCpuset sharedAndExclusivePools "pod" "other"
        ["cmss.cn/exclusive-shared"] = .ok ({0, 1} ∪ ∅)).trans
      (congrArg Except.ok (by decide))⟩

/-! ## Applying a cpuset -/

/-- C12: called with the empty core set, `applyCpusetToContainer` returns the empty path
and no error and leaves the filesystem as it is, for every cgroup root, pod metadata,
container ID and state of the filesystem (also one in which a walk of the cgroup root
or a write would fail). -/
theorem applyCpusetToContainer_empty (cc : CpuSetController) (fs : FileSystem)
    (podMeta : v1.ObjectMeta) (containerID : String) :
    applyCpusetToContainer cc fs podMeta containerID ∅ = (fs, .ok "") := by
  simp [applyCpusetToContainer]

/-! ## Readiness of a pod -/

/-- C15: for a pod with a non-empty node name, `isPodReadyForProcessing` is true exactly
when the pod status holds as many container statuses as the pod spec declares
containers and every status has a non-empty container ID; one status with an empty
container ID, or a different number of statuses, makes it false. -/
theorem isPodReadyForProcessing_iff (pod : v1.Pod) (hnode : pod.Spec.NodeName ≠ "") :
    (isPodReadyForProcessing pod = true ↔
      pod.Status.ContainerStatuses.length = pod.Spec.Containers.length ∧
      ∀ cStatus ∈ pod.Status.ContainerStatuses, cStatus.ContainerID ≠ "") ∧
    ((∃ cStatus ∈ pod.Status.ContainerStatuses, cStatus.ContainerID = "") →
      isPodReadyForProcessing pod = false) ∧
    (pod.Status.ContainerStatuses.length ≠ pod.Spec.Containers.length →
      isPodReadyForProcessing pod = false) := by
  have hiff : isPodReadyForProcessing pod = true ↔
      pod.Status.ContainerStatuses.length = pod.Spec.Containers.length ∧
      ∀ cStatus ∈ pod.Status.ContainerStatuses, cStatus.ContainerID ≠ "" := by
    unfold isPodReadyForProcessing
    by_cases hlen : pod.Status.ContainerStatuses.length = pod.Spec.Containers.length
    · simp [hnode, hlen]
    · simp [hnode, hlen]
  refine ⟨hiff, ?_, ?_⟩
  · rintro ⟨cStatus, hmem, hid⟩
    rw [Bool.eq_false_iff]
    intro hready
    exact (hiff.1 hready).2 cStatus hmem hid
  · intro hlen
    rw [Bool.eq_false_iff]
    intro hready
    exact hlen (hiff.1 hready).1

/-- C15 at a concrete input: a scheduled pod with two containers of which one has no
container ID yet is not ready. -/
theorem isPodReadyForProcessing_iff_witness :
    isPodReadyForProcessing
      ⟨⟨"web", "default", "pod"⟩, ⟨"node1", [⟨"a", []⟩, ⟨"b", []⟩]⟩,
        ⟨"Pending", [⟨"a", "docker://1f"⟩, ⟨"b", ""⟩]⟩⟩ = false :=
  (isPodReadyForProcessing_iff
    ⟨⟨"web", "default", "pod"⟩, ⟨"node1", [⟨"a", []⟩, ⟨"b", []⟩]⟩,
      ⟨"Pending", [⟨"a", "docker://1f"⟩, ⟨"b", ""⟩]⟩⟩ (by decide)).2.1
    ⟨⟨"b", ""⟩, by decide, rfl⟩

/-! ## Selecting the pool configuration of a node -/

theorem selectorMatches_iff (labels : List (String × String)) (poolConf : PoolConfig) :
    selectorMatches labels poolConf = true ↔
      ∃ entry ∈ labels, poolConf.NodeSelector entry.1 = some entry.2 := by
  simp [selectorMatches]

theorem parsePoolConfigsLoop_append (labels : List (String × String))
    (before rest : List PoolConfig)
    (hbefore : ∀ conf ∈ before, selectorMatches labels conf = false) :
    parsePoolConfigsLoop (some labels) (before ++ rest)
      = parsePoolConfigsLoop (some labels) rest := by
  induction before with
  | nil => rfl
  | cons conf tail ih =>
    have hconf := hbefore conf (List.mem_cons_self _ _)
    simp only [List.cons_append, parsePoolConfigsLoop, hconf, Bool.false_eq_true, if_false]
    exact ih (fun c hc => hbefore c (List.mem_cons_of_mem _ hc))

/-- C17: for the parsed pool configurations in file order, `parsePoolConfigs` returns
the first configuration whose node selector has a key that the node labels carry with
the same value; with the nil label map (a node without labels) it returns the first
configuration of the list; when no configuration is selected (none matches, or the list
is empty) it returns `ErrNotMatchPoolConfig`; and the order in which the labels are
visited does not matter. -/
theorem parsePoolConfigs_first_matching (poolConfs : List PoolConfig) :
    (∀ (labels : List (String × String)) (before after : List PoolConfig)
        (poolConf : PoolConfig),
      poolConfs = before ++ poolConf :: after →
      (∀ conf ∈ before, ¬∃ entry ∈ labels, conf.NodeSelector entry.1 = some entry.2) →
      (∃ entry ∈ labels, poolConf.NodeSelector entry.1 = some entry.2) →
      parsePoolConfigs (some labels) (.ok poolConfs) = .ok poolConf) ∧
    (∀ labels : List (String × String),
      (∀ conf ∈ poolConfs, ¬∃ entry ∈ labels, conf.NodeSelector entry.1 = some entry.2) →
      parsePoolConfigs (some labels) (.ok poolConfs) = .error .ErrNotMatchPoolConfig) ∧
    (∀ (poolConf : PoolConfig) (after : List PoolConfig), poolConfs = poolConf :: after →
      parsePoolConfigs none (.ok poolConfs) = .ok poolConf) ∧
    (poolConfs = [] → ∀ labelMap : Option (List (String × String)),
      parsePoolConfigs labelMap (.ok poolConfs) = .error .ErrNotMatchPoolConfig) ∧
    (∀ labels visited : List (String × String), (∀ entry, entry ∈ visited ↔ entry ∈ labels) →
      parsePoolConfigs (some visited) (.ok poolConfs)
        = parsePoolConfigs (some labels) (.ok poolConfs)) := by
  refine ⟨?_, ?_, ?_, ?_, ?_⟩
  · intro labels before after poolConf hlist hbefore hmatch
    subst hlist
    have hb : ∀ conf ∈ before, selectorMatches labels conf = false := by
      intro conf hconf
      rw [Bool.eq_false_iff, Ne, selectorMatches_iff]
      exact hbefore conf hconf
    simp only [parsePoolConfigs]
    rw [parsePoolConfigsLoop_append labels before _ hb]
    simp [parsePoolConfigsLoop, (selectorMatches_iff labels poolConf).2 hmatch]
  · intro labels hnone
    have hb : ∀ conf ∈ poolConfs, selectorMatches labels conf = false := by
      intro conf hconf
      rw [Bool.eq_false_iff, Ne, selectorMatches_iff]
      exact hnone conf hconf
    have := parsePoolConfigsLoop_append labels poolConfs [] hb
    rw [List.append_nil] at this
    simp only [parsePoolConfigs, this]
    rfl
  · intro poolConf after hlist
    subst hlist
    rfl
  · intro hnil labelMap
    subst hnil
    rfl
  · intro labels visited hsame
    have hconf : ∀ conf : PoolConfig,
        selectorMatches visited conf = selectorMatches labels conf := by
      intro conf
      rw [Bool.eq_iff_iff, selectorMatches_iff, selectorMatches_iff]
      constructor
      · rintro ⟨entry, hmem, h⟩; exact ⟨entry, (hsame entry).1 hmem, h⟩
      · rintro ⟨entry, hmem, h⟩; exact ⟨entry, (hsame entry).2 hmem, h⟩
    simp only [parsePoolConfigs]
    induction poolConfs with
    | nil => rfl
    | cons conf rest ih => simp only [parsePoolConfigsLoop, hconf conf, ih]

/-- C17 at a concrete input: of two configurations the second is the first whose
selector matches a label of the node. -/
theorem parsePoolConfigs_first_matching_witness :
    parsePoolConfigs (some [("zone", "a"), ("nodeType", "worker")])
        (.ok [⟨[], fun k => if k = "nodeType" then some "master" else none⟩,
          ⟨[("default", Pool.zero)], fun k => if k = "nodeType" then some "worker" else none⟩])
      = .ok ⟨[("default", Pool.zero)],
          fun k => if k = "nodeType" then some "worker" else none⟩ :=
  (parsePoolConfigs_first_matching
    [⟨[], fun k => if k = "nodeType" then some "master" else none⟩,
      ⟨[("default", Pool.zero)], fun k => if k = "nodeType" then some "worker" else none⟩]).1
    [("zone", "a"), ("nodeType", "worker")]
    [⟨[], fun k => if k = "nodeType" then some "master" else none⟩] []
    ⟨[("default", Pool.zero)], fun k => if k = "nodeType" then some "worker" else none⟩
    rfl (by decide) (by decide)

/-! ## Selecting a pool by the beginning of its name -/

theorem eq_of_mem_of_nodup_keys (pools : List (String × Pool)) (name : String)
    (p q : Pool) (hnodup : (pools.map Prod.fst).Nodup)
    (hp : (name, p) ∈ pools) (hq : (name, q) ∈ pools) : p = q := by
  induction pools with
  | nil => simp at hp
  | cons a rest ih =>
    rw [List.map_cons, List.nodup_cons] at hnodup
    rcases List.mem_cons.1 hp with hpa | hpr
    · rcases List.mem_cons.1 hq with hqa | hqr
      · rw [← hpa] at hqa
        exact (Prod.mk.inj hqa).2.symm
      · exact absurd (List.mem_map_of_mem Prod.fst hqr) (by subst hpa; exact hnodup.1)
    · rcases List.mem_cons.1 hq with hqa | hqr
      · exact absurd (List.mem_map_of_mem Prod.fst hpr) (by subst hqa; exact hnodup.1)
      · exact ih hnodup.2 hpr hqr

/-- C18: `SelectPoolConfig` returns the zero `Pool` (empty core set, empty policy) when
no configured pool name begins with the prefix, otherwise a configured pool whose name
begins with the prefix, and the pool of that name when exactly one pool name begins with
the prefix; this holds for every order in which the pools are visited. -/
theorem SelectPoolConfig_selects (pools : List (String × Pool)) (pfx : String) :
    ((∀ entry ∈ pools, HasPrefix entry.1 pfx = false) →
      SelectPoolConfig pools pfx = Pool.zero ∧
      (SelectPoolConfig pools pfx).CPUset = ∅ ∧ (SelectPoolConfig pools pfx).HTPolicy = "") ∧
    ((∃ entry ∈ pools, HasPrefix entry.1 pfx = true) →
      ∃ entry ∈ pools, HasPrefix entry.1 pfx = true ∧ SelectPoolConfig pools pfx = entry.2) ∧
    (∀ (poolName : String) (pool : Pool), (pools.map Prod.fst).Nodup →
      (poolName, pool) ∈ pools → HasPrefix poolName pfx = true →
      (∀ entry ∈ pools, HasPrefix entry.1 pfx = true → entry.1 = poolName) →
      SelectPoolConfig pools pfx = pool) := by
  refine ⟨?_, ?_, ?_⟩
  · intro hnone
    rcases SelectPoolConfig_cases pools pfx with ⟨_, hz⟩ | ⟨entry, hmem, hp, _⟩
    · rw [hz]; exact ⟨rfl, rfl, rfl⟩
    · rw [hnone entry hmem] at hp; cases hp
  · rintro ⟨entry, hmem, hp⟩
    rcases SelectPoolConfig_cases pools pfx with ⟨hall, _⟩ | h
    · rw [hall entry hmem] at hp; cases hp
    · exact h
  · intro poolName pool hnodup hmem hp honly
    rcases SelectPoolConfig_cases pools pfx with ⟨hall, _⟩ | ⟨entry, hentry, hpe, hsel⟩
    · rw [hall _ hmem] at hp; cases hp
    · obtain ⟨name, selected⟩ := entry
      have hname : name = poolName := honly _ hentry hpe
      subst hname
      rw [hsel]
      exact eq_of_mem_of_nodup_keys pools name selected pool hnodup hentry hmem

/-- C18 at a concrete input: among the pools `shared1`, `exclusive1` and `default` the
prefix "exclusive" selects the pool `exclusive1` unchanged. -/
theorem SelectPoolConfig_selects_witness :
    SelectPoolConfig
        [("shared1", ⟨{0, 1}, "0,1", SingleThreadHTPolicy⟩),
         ("exclusive1", ⟨{2, 3}, "2,3", MultiThreadHTPolicy⟩),
         ("default", ⟨{4, 5}, "4,5", SingleThreadHTPolicy⟩)] ExclusivePoolID
      = ⟨{2, 3}, "2,3", MultiThreadHTPolicy⟩ :=
  (SelectPoolConfig_selects
    [("shared1", ⟨{0, 1}, "0,1", SingleThreadHTPolicy⟩),
     ("exclusive1", ⟨{2, 3}, "2,3", MultiThreadHTPolicy⟩),
     ("default", ⟨{4, 5}, "4,5", SingleThreadHTPolicy⟩)] ExclusivePoolID).2.2
    "exclusive1" ⟨{2, 3}, "2,3", MultiThreadHTPolicy⟩ (by decide) (by decide) (by decide)
    (by decide)

/-! ## Decoding the CPU annotation -/

theorem length_eq_zero_iff_empty (s : String) : s.length = 0 ↔ s = "" := by
  obtain ⟨data⟩ := s
  constructor
  · intro h
    have hdata : data = [] := List.length_eq_zero.1 h
    rw [hdata]
  · intro h
    rw [h]
    rfl

theorem checkProcesses_append (before rest : List Process)
    (hbefore : ∀ q ∈ before, q.ProcName ≠ "" ∧ q.CPUs ≠ 0) :
    checkProcesses (before ++ rest) = checkProcesses rest := by
  induction before with
  | nil => rfl
  | cons q tail ih =>
    have hq := hbefore q (List.mem_cons_self _ _)
    have hlen : ¬ q.ProcName.length = 0 := fun h => hq.1 ((length_eq_zero_iff_empty _).1 h)
    simp only [List.cons_append, checkProcesses, hlen, hq.2, if_false]
    exact ih (fun x hx => hbefore x (List.mem_cons_of_mem _ hx))

theorem checkProcesses_eq_none_iff (processes : List Process) :
    checkProcesses processes = none ↔ ∀ p ∈ processes, p.ProcName ≠ "" ∧ p.CPUs ≠ 0 := by
  induction processes with
  | nil => simp [checkProcesses]
  | cons p rest ih =>
    by_cases hname : p.ProcName = ""
    · have hlen : p.ProcName.length = 0 := (length_eq_zero_iff_empty _).2 hname
      simp [checkProcesses, hlen, hname]
    · have hlen : ¬ p.ProcName.length = 0 := fun h => hname ((length_eq_zero_iff_empty _).1 h)
      by_cases hcpus : p.CPUs = 0
      · simp [checkProcesses, hlen, hcpus]
      · simp [checkProcesses, hlen, hcpus, hname, ih]

theorem Decode_single (visit : CPUAnnotation → List (String × Container))
    (hvisit : ∀ entries, (visit entries).Perm entries) (c : Container) :
    CPUAnnotation.Decode visit [] ([c], none)
      = ([(c.Name, c)], checkContainers [(c.Name, c)]) := by
  have hv : visit [(c.Name, c)] = [(c.Name, c)] := List.perm_singleton.1 (hvisit _)
  simp [ CPUAnnotation.Decode, CPUAnnotation.set, hv]

/-- C19: decoding an annotation array that holds a single container into an empty
`CPUAnnotation` returns `ErrNoContainerName` when the container name is empty (absent
from the JSON text), whatever its processes are, and `ErrNoProcesses` when the name is
not empty and the process list is empty (absent). -/
theorem Decode_single_container_name_and_processes
    (visit : CPUAnnotation → List (String × Container))
    (hvisit : ∀ entries, (visit entries).Perm entries) (c : Container) :
    (c.Name = "" →
      ( CPUAnnotation.Decode visit [] ([c], none)).2 = some .ErrNoContainerName) ∧
    (c.Name ≠ "" → c.Processes = [] →
      ( CPUAnnotation.Decode visit [] ([c], none)).2 = some .ErrNoProcesses) := by
  rw [Decode_single visit hvisit c]
  constructor
  · intro hname
    have hlen : c.Name.length = 0 := (length_eq_zero_iff_empty _).2 hname
    simp [checkContainers, hlen]
  · intro hname hproc
    have hlen : ¬ c.Name.length = 0 := fun h => hname ((length_eq_zero_iff_empty _).1 h)
    simp [checkContainers, hlen, hproc]

/-- C19 at the inputs of the tests: a container without `container` gives
`ErrNoContainerName`, the container `cputestcontainer` without `processes` gives
`ErrNoProcesses`. -/
theorem Decode_single_container_name_and_processes_witness :
    ( CPUAnnotation.Decode id []
      ([⟨"", [⟨"/bin/sh", ["-c", "/thread_busyloop"], 1, "pool1"⟩,
        ⟨"/bin/sh", ["-c", "/thread_busyloop2"], 2, "pool2"⟩]⟩], none)).2
      = some .ErrNoContainerName ∧
    ( CPUAnnotation.Decode id [] ([⟨"cputestcontainer", []⟩], none)).2
      = some .ErrNoProcesses :=
  ⟨(Decode_single_container_name_and_processes id (fun _ => List.Perm.refl _)
      ⟨"", [⟨"/bin/sh", ["-c", "/thread_busyloop"], 1, "pool1"⟩,
        ⟨"/bin/sh", ["-c", "/thread_busyloop2"], 2, "pool2"⟩]⟩).1 rfl,
    (Decode_single_container_name_and_processes id (fun _ => List.Perm.refl _)
      ⟨"cputestcontainer", []⟩).2 (by decide) rfl⟩

/-- C20: decoding an annotation array that holds a single container with a non-empty
name and at least one process into an empty `CPUAnnotation` returns `ErrNoProcessName`
when the first process that breaks a rule has an empty process name, `ErrNoCpus` when
that process has a name and the cpus value zero, and no error exactly when every process
has a non-empty name and a non-zero cpus value. -/
theorem Decode_single_container_process_rules
    (visit : CPUAnnotation → List (String × Container))
    (hvisit : ∀ entries, (visit entries).Perm entries) (c : Container)
    (hname : c.Name ≠ "") (hprocesses : c.Processes ≠ []) :
    (∀ (before after : List Process) (p : Process), c.Processes = before ++ p :: after →
      (∀ q ∈ before, q.ProcName ≠ "" ∧ q.CPUs ≠ 0) →
      (p.ProcName = "" →
        ( CPUAnnotation.Decode visit [] ([c], none)).2 = some .ErrNoProcessName) ∧
      (p.ProcName ≠ "" → p.CPUs = 0 →
        ( CPUAnnotation.Decode visit [] ([c], none)).2 = some .ErrNoCpus)) ∧
    (( CPUAnnotation.Decode visit [] ([c], none)).2 = none ↔
      ∀ p ∈ c.Processes, p.ProcName ≠ "" ∧ p.CPUs ≠ 0) := by
  have hlen : ¬ c.Name.length = 0 := fun h => hname ((length_eq_zero_iff_empty _).1 h)
  have hplen : ¬ c.Processes.length = 0 := fun h => hprocesses (List.length_eq_zero.1 h)
  have hres : ( CPUAnnotation.Decode visit [] ([c], none)).2 = checkProcesses c.Processes := by
    rw [Decode_single visit hvisit c]
    simp only [checkContainers, hlen, hplen, if_false]
    cases checkProcesses c.Processes <;> rfl
  rw [hres]
  refine ⟨?_, checkProcesses_eq_none_iff _⟩
  intro before after p hsplit hbefore
  rw [hsplit, checkProcesses_append before _ hbefore]
  constructor
  · intro hp
    have : p.ProcName.length = 0 := (length_eq_zero_iff_empty _).2 hp
    simp [checkProcesses, this]
  · intro hp hcpus
    have : ¬ p.ProcName.length = 0 := fun h => hp ((length_eq_zero_iff_empty _).1 h)
    simp [checkProcesses, this, hcpus]

/-- C20 at the inputs of the tests: a first process without `process` gives
`ErrNoProcessName`, a first process without `cpus` gives `ErrNoCpus`. -/
theorem Decode_single_container_process_rules_witness :
    ( CPUAnnotation.Decode id []
      ([⟨"cputestcontainer", [⟨"", ["-c", "/thread_busyloop"], 1, "pool1"⟩,
        ⟨"/bin/sh", ["-c", "/thread_busyloop2"], 2, "pool2"⟩]⟩], none)).2
      = some .ErrNoProcessName ∧
    ( CPUAnnotation.Decode id []
      ([⟨"cputestcontainer", [⟨"/bin/sh", ["-c", "/thread_busyloop"], 0, "pool1"⟩,
        ⟨"/bin/sh", ["-c", "/thread_busyloop2"], 2, "pool2"⟩]⟩], none)).2
      = some .ErrNoCpus :=
  ⟨((Decode_single_container_process_rules id (fun _ => List.Perm.refl _)
      ⟨"cputestcontainer", [⟨"", ["-c", "/thread_busyloop"], 1, "pool1"⟩,
        ⟨"/bin/sh", ["-c", "/thread_busyloop2"], 2, "pool2"⟩]⟩ (by decide) (by decide)).1
      [] [⟨"/bin/sh", ["-c", "/thread_busyloop2"], 2, "pool2"⟩]
      ⟨"", ["-c", "/thread_busyloop"], 1, "pool1"⟩ rfl (by simp)).1 rfl,
    ((Decode_single_container_process_rules id (fun _ => List.Perm.refl _)
      ⟨"cputestcontainer", [⟨"/bin/sh", ["-c", "/thread_busyloop"], 0, "pool1"⟩,
        ⟨"/bin/sh", ["-c", "/thread_busyloop2"], 2, "pool2"⟩]⟩ (by decide) (by decide)).1
      [] [⟨"/bin/sh", ["-c", "/thread_busyloop2"], 2, "pool2"⟩]
      ⟨"/bin/sh", ["-c", "/thread_busyloop"], 0, "pool1"⟩ rfl (by simp)).2 (by decide) rfl⟩

/-! ## Reconciliation of a container -/

theorem reconcileLoop_append (cc : CpuSetController) (fs : FileSystem) (pod : v1.Pod)
    (container : v1.Container) (containerID : String) (before rest : List String)
    (hbefore : ∀ l ∈ before, Contains l containerID = false) :
    reconcileLoop cc fs pod container containerID (before ++ rest)
      = reconcileLoop cc fs pod container containerID rest := by
  induction before with
  | nil => rfl
  | cons l tail ih =>
    have hl := hbefore l (List.mem_cons_self _ _)
    simp only [List.cons_append, reconcileLoop, hl, Bool.false_eq_true, if_false]
    exact ih (fun x hx => hbefore x (List.mem_cons_of_mem _ hx))

theorem reconcileContainer_at_first_leaf (cc : CpuSetController) (fs : FileSystem)
    (pod : v1.Pod) (container : v1.Container) (before after : List String) (leaf : String)
    (hcid : determineCid cc.containerPrefixList pod.Status container.Name ≠ "")
    (hbefore : ∀ l ∈ before,
      Contains l (determineCid cc.containerPrefixList pod.Status container.Name) = false)
    (hleaf : Contains leaf (determineCid cc.containerPrefixList pod.Status container.Name)
      = true) :
    reconcileContainer cc fs (before ++ leaf :: after) pod container
      = if badCpuset cc = currentCpuset cc fs leaf then
          match determineCorrectCpuset cc.env pod.ObjectMeta.UID container.Name
              container.Requests with
          | .error _ => (fs, some "could not determine correct cpuset")
          | .ok correctSet =>
            match WriteFile fs (leaf ++ "/cpuset.cpus") (cc.cpusetString correctSet) with
            | none => (fs, some ("could not overwrite cpuset file:" ++ leaf ++ "/cpuset.cpus"))
            | some written => (written, none)
        else (fs, none) := by
  unfold reconcileContainer
  rw [if_neg hcid, reconcileLoop_append cc fs pod container _ before _ hbefore]
  simp only [reconcileLoop, hleaf, if_true]

theorem mem_fullCoreRange (n c : Int) : c ∈ fullCoreRange n ↔ 0 ≤ c ∧ c < n := by
  simp only [fullCoreRange, List.mem_toFinset, List.mem_map, List.mem_range]
  constructor
  · rintro ⟨i, hi, rfl⟩
    omega
  · rintro ⟨h0, hlt⟩
    exact ⟨c.toNat, by omega, by omega⟩

theorem zero_mem_fullCoreRange (n : Int) (hn : 1 ≤ n) : (0 : Int) ∈ fullCoreRange n :=
  (mem_fullCoreRange n 0).2 ⟨le_refl _, by omega⟩

/-- C13: for a container with a runtime ID and the first leaf whose path contains that
ID, `reconcileContainer` writes the text of the recomputed cpuset into the leaf's
`cpuset.cpus` when the current content of that file parses to the full core range of
the node, returns without writing when it is any other set, and in every case leaves
the content of every other file as it is.  `currentCpuset` is the parse of the trimmed
content, so with one CPU or more it is the full range exactly when the file can be read
and its content parses to the full range. -/
theorem reconcileContainer_overwrites_full_range (cc : CpuSetController) (fs : FileSystem)
    (pod : v1.Pod) (container : v1.Container) (before after : List String) (leaf : String)
    (correctSet : CPUSet)
    (hcid : determineCid cc.containerPrefixList pod.Status container.Name ≠ "")
    (hbefore : ∀ l ∈ before,
      Contains l (determineCid cc.containerPrefixList pod.Status container.Name) = false)
    (hleaf : Contains leaf (determineCid cc.containerPrefixList pod.Status container.Name)
      = true)
    (hbad : badCpuset cc = fullCoreRange cc.numOfCpus)
    (hcorrect : determineCorrectCpuset cc.env pod.ObjectMeta.UID container.Name
      container.Requests = .ok correctSet) :
    (currentCpuset cc fs leaf = fullCoreRange cc.numOfCpus →
      (fs.readOnly (leaf ++ "/cpuset.cpus") = false →
        (reconcileContainer cc fs (before ++ leaf :: after) pod container).2 = none ∧
        (reconcileContainer cc fs (before ++ leaf :: after) pod container).1.content
            (leaf ++ "/cpuset.cpus") = some (cc.cpusetString correctSet)) ∧
      (fs.readOnly (leaf ++ "/cpuset.cpus") = true →
        (reconcileContainer cc fs (before ++ leaf :: after) pod container).2 ≠ none ∧
        (reconcileContainer cc fs (before ++ leaf :: after) pod container).1.content
            = fs.content)) ∧
    (currentCpuset cc fs leaf ≠ fullCoreRange cc.numOfCpus →
      (reconcileContainer cc fs (before ++ leaf :: after) pod container).2 = none ∧
      (reconcileContainer cc fs (before ++ leaf :: after) pod container).1.content
          = fs.content) ∧
    (∀ path : String, path ≠ leaf ++ "/cpuset.cpus" →
      (reconcileContainer cc fs (before ++ leaf :: after) pod container).1.content path
        = fs.content path) ∧
    (cc.env.parse (cc.trimSpace "") = some ∅ → 1 ≤ cc.numOfCpus →
      (currentCpuset cc fs leaf = fullCoreRange cc.numOfCpus ↔
        ∃ text, fs.content (leaf ++ "/cpuset.cpus") = some text ∧
          cc.env.parse (cc.trimSpace text) = some (fullCoreRange cc.numOfCpus))) := by
  rw [reconcileContainer_at_first_leaf cc fs pod container before after leaf hcid hbefore
    hleaf, hbad, hcorrect]
  refine ⟨?_, ?_, ?_, ?_⟩
  · intro hcur
    rw [if_pos hcur.symm]
    constructor
    · intro hrw
      simp [WriteFile, hrw]
    · intro hro
      simp [WriteFile, hro]
  · intro hcur
    rw [if_neg (fun h => hcur h.symm)]
    exact ⟨rfl, rfl⟩
  · intro path hpath
    split
    · by_cases hro : fs.readOnly (leaf ++ "/cpuset.cpus") = true
      · simp [WriteFile, hro]
      · simp [WriteFile, hro, Function.update, hpath]
    · rfl
  · intro hempty hn
    have hne : fullCoreRange cc.numOfCpus ≠ ∅ :=
      Finset.ne_empty_of_mem (zero_mem_fullCoreRange _ hn)
    unfold currentCpuset
    cases hc : fs.content (leaf ++ "/cpuset.cpus") with
    | none =>
      simp only [Option.getD_none, hempty, Option.getD_some]
      constructor
      · intro h; exact absurd h.symm hne
      · rintro ⟨text, htext, _⟩; cases htext
    | some text =>
      simp only [Option.getD_some]
      constructor
      · intro h
        refine ⟨text, rfl, ?_⟩
        cases hp : cc.env.parse (cc.trimSpace text) with
        | none => rw [hp] at h; exact absurd h.symm hne
        | some set => rw [hp] at h; simpa using h
      · rintro ⟨text', htext, hp⟩
        cases htext
        rw [hp]
        rfl

/-- C13 at the input of the specification: on a node with eight CPUs the leaf of the
container holds "0-7" and is overwritten with the text of the recomputed cpuset (the
cores 4 and 5 of the pool `default`); the other leaf keeps its content. -/
theorem reconcileContainer_overwrites_full_range_witness :
    (reconcileContainer (eightCpuNode sharedAndExclusivePools) (cgroupWith "0-7\n")
        ["/cg/pod1/fff000", "/cg/pod1/abc123"] runningPod ⟨"ctr", ["cpu", "memory"]⟩).1.content
      "/cg/pod1/abc123/cpuset.cpus" = some (cpusetString {4, 5}) ∧
    (reconcileContainer (eightCpuNode sharedAndExclusivePools) (cgroupWith "0-7\n")
        ["/cg/pod1/fff000", "/cg/pod1/abc123"] runningPod ⟨"ctr", ["cpu", "memory"]⟩).1.content
      "/cg/pod1/fff000/cpuset.cpus" = some "2-3\n" :=
  ⟨(((reconcileContainer_overwrites_full_range (eightCpuNode sharedAndExclusivePools)
      (cgroupWith "0-7\n") runningPod ⟨"ctr", ["cpu", "memory"]⟩ ["/cg/pod1/fff000"] []
      "/cg/pod1/abc123" {4, 5} (by decide) (by decide) (by decide) (by decide) rfl).1
      (by decide)).1 rfl).2,
    ((reconcileContainer_overwrites_full_range (eightCpuNode sharedAndExclusivePools)
      (cgroupWith "0-7\n") runningPod ⟨"ctr", ["cpu", "memory"]⟩ ["/cg/pod1/fff000"] []
      "/cg/pod1/abc123" {4, 5} (by decide) (by decide) (by decide) (by decide) rfl).2.2.1
      "/cg/pod1/fff000/cpuset.cpus" (by decide)).trans rfl⟩

/-- C14, the code at the failing input: the node has no pool whose name begins with
"default", the container requests no pool resource, so its recomputed cpuset is empty;
its leaf holds the full range "0-7" of the eight CPUs.  `reconcileContainer` overwrites
the file with the text of the empty set, the empty string. -/
theorem reconcileContainer_writes_empty_cpuset :
    determineCorrectCpuset (eightCpuNode twoExclusivePools).env "pod" "ctr" ["cpu", "memory"]
      = .ok ∅ ∧
    (cgroupWith "0-7\n").content "/cg/pod1/abc123/cpuset.cpus" = some "0-7\n" ∧
    (reconcileContainer (eightCpuNode twoExclusivePools) (cgroupWith "0-7\n")
        ["/cg/pod1/fff000", "/cg/pod1/abc123"] runningPod ⟨"ctr", ["cpu", "memory"]⟩).1.content
      "/cg/pod1/abc123/cpuset.cpus" = some "" ∧
    (applyCpusetToContainer (eightCpuNode twoExclusivePools) (cgroupWith "0-7\n")
        runningPod.ObjectMeta "abc123" ∅).1.content
      "/cg/pod1/abc123/cpuset.cpus" = some "0-7\n" := by
  have hcorrect : determineCorrectCpuset (eightCpuNode twoExclusivePools).env "pod" "ctr"
      ["cpu", "memory"] = .ok ∅ := rfl
  have hempty : cpusetString ∅ = "" := by simp [cpusetString, ToSlice]
  refine ⟨hcorrect, rfl, ?_, rfl⟩
  have hfirst := reconcileContainer_at_first_leaf (eightCpuNode twoExclusivePools)
    (cgroupWith "0-7\n") runningPod ⟨"ctr", ["cpu", "memory"]⟩ ["/cg/pod1/fff000"] []
    "/cg/pod1/abc123" (by decide) (by decide) (by decide)
  rw [show ["/cg/pod1/fff000", "/cg/pod1/abc123"]
    = ["/cg/pod1/fff000"] ++ "/cg/pod1/abc123" :: [] from rfl, hfirst]
  rw [if_pos (by decide)]
  have hc : determineCorrectCpuset (eightCpuNode twoExclusivePools).env
      runningPod.ObjectMeta.UID (⟨"ctr", ["cpu", "memory"]⟩ : v1.Container).Name
      (⟨"ctr", ["cpu", "memory"]⟩ : v1.Container).Requests = .ok ∅ := hcorrect
  rw [hc]
  have hs : (eightCpuNode twoExclusivePools).cpusetString ∅ = "" := hempty
  simp only [hs]
  rfl

/-! ## Pods that never become ready -/

theorem refreshLoop_never_ready (nodeName : String) (refresh : Nat → Except String v1.Pod)
    (pod : v1.Pod) :
    ∀ (remaining i : Nat),
      (∀ j, i ≤ j → j < i + remaining →
        ∃ newPod, refresh j = .ok newPod ∧ isPodReadyForProcessing newPod = false) →
      refreshLoop nodeName refresh pod remaining i = handledOnThisNode nodeName pod := by
  intro remaining
  induction remaining with
  | zero => intro i _; rfl
  | succ n ih =>
    intro i h
    obtain ⟨newPod, hok, hnot⟩ := h i (Nat.le_refl _) (by omega)
    simp only [refreshLoop, hok, hnot, Bool.false_eq_true, if_false]
    exact ih (i + 1) (fun j hj hlt => h j (by omega) (by omega))

/-- C16, the code at the failing input: every re-fetch succeeds and yields a pod that is
not ready.  For a pod whose copy in the event already names this node,
`shouldPodBeHandled` returns true with that copy (here a pod whose container has no
runtime ID yet); and when the copy holds a container status with a runtime ID (here one
status for two containers), `gatherAllContainers` hands that container to
`adjustContainerSets`. -/
theorem shouldPodBeHandled_true_for_unready_pod :
    isPodReadyForProcessing creatingPod = false ∧
    shouldPodBeHandled 5 "node1" (fun _ => .ok creatingPod) creatingPod
      = (true, creatingPod) ∧
    isPodReadyForProcessing halfReportedPod = false ∧
    shouldPodBeHandled 5 "node1" (fun _ => .ok halfReportedPod) halfReportedPod
      = (true, halfReportedPod) ∧
    gatherAllContainers halfReportedPod = ["a"] := by
  decide

/-! ## The type of a pool -/

theorem isPrefixOf_take (p l : List Char) (k : Nat) (h : p.length ≤ k) :
    p.isPrefixOf (l.take k) = p.isPrefixOf l := by
  induction p generalizing l k with
  | nil => simp
  | cons a p ih =>
    cases l with
    | nil => simp
    | cons b l =>
      cases k with
      | zero => simp at h
      | succ k =>
        simp only [List.take_succ_cons, List.isPrefixOf]
        rw [ih l k (by simpa using h)]

theorem not_shared_of_exclusive (poolName : String)
    (h : HasPrefix poolName ExclusivePoolID = true) :
    HasPrefix poolName SharedPoolID = false := by
  unfold HasPrefix at *
  have he : ExclusivePoolID.data = ['e', 'x', 'c', 'l', 'u', 's', 'i', 'v', 'e'] := rfl
  have hs : SharedPoolID.data = ['s', 'h', 'a', 'r', 'e', 'd'] := rfl
  rw [he] at h
  rw [hs]
  cases hd : poolName.data with
  | nil => rfl
  | cons c cs =>
    rw [hd] at h
    simp only [List.isPrefixOf, Bool.and_eq_true, beq_iff_eq] at h
    have hc : c = 'e' := h.1.symm
    subst hc
    rfl

/-- C24: `DeterminePoolType` returns "shared" for a name that begins with "shared",
"exclusive" for a name that begins with "exclusive" and "default" for every other name;
the result is one of these three values and is determined by the first nine characters
of the name. -/
theorem DeterminePoolType_by_beginning (poolName : String) :
    (HasPrefix poolName "shared" = true → DeterminePoolType poolName = "shared") ∧
    (HasPrefix poolName "exclusive" = true → DeterminePoolType poolName = "exclusive") ∧
    (HasPrefix poolName "shared" = false → HasPrefix poolName "exclusive" = false →
      DeterminePoolType poolName = "default") ∧
    (DeterminePoolType poolName = "shared" ∨ DeterminePoolType poolName = "exclusive" ∨
      DeterminePoolType poolName = "default") ∧
    (∀ other : String, other.data.take 9 = poolName.data.take 9 →
      DeterminePoolType other = DeterminePoolType poolName) := by
  have hshared : HasPrefix poolName "shared" = true → DeterminePoolType poolName = "shared" := by
    intro h
    have h' : HasPrefix poolName SharedPoolID = true := h
    simp [DeterminePoolType, h']
    rfl
  have hexclusive : HasPrefix poolName "exclusive" = true →
      DeterminePoolType poolName = "exclusive" := by
    intro h
    have h' : HasPrefix poolName ExclusivePoolID = true := h
    simp [DeterminePoolType, h', not_shared_of_exclusive poolName h']
    rfl
  have hdefault : HasPrefix poolName "shared" = false →
      HasPrefix poolName "exclusive" = false → DeterminePoolType poolName = "default" := by
    intro h1 h2
    have h1' : HasPrefix poolName SharedPoolID = false := h1
    have h2' : HasPrefix poolName ExclusivePoolID = false := h2
    simp [DeterminePoolType, h1', h2']
    rfl
  refine ⟨hshared, hexclusive, hdefault, ?_, ?_⟩
  · cases h1 : HasPrefix poolName "shared" with
    | true => exact Or.inl (hshared h1)
    | false =>
      cases h2 : HasPrefix poolName "exclusive" with
      | true => exact Or.inr (Or.inl (hexclusive h2))
      | false => exact Or.inr (Or.inr (hdefault h1 h2))
  · intro other hsame
    have hpre : ∀ pfx : String, pfx.data.length ≤ 9 →
        HasPrefix other pfx = HasPrefix poolName pfx := by
      intro pfx hlen
      unfold HasPrefix
      rw [← isPrefixOf_take pfx.data other.data 9 hlen,
        ← isPrefixOf_take pfx.data poolName.data 9 hlen, hsame]
    unfold DeterminePoolType
    rw [hpre SharedPoolID (by decide), hpre ExclusivePoolID (by decide)]

/-! ## Readiness of a node -/

/-- C25, the code at the failing input: a node whose status holds no condition, and a
node whose status holds other conditions but none of type Ready, are reported as
ready. -/
theorem IsReady_without_ready_condition :
    IsReady ⟨[]⟩ = true ∧
    IsReady ⟨[⟨"MemoryPressure", "False"⟩, ⟨"DiskPressure", "False"⟩]⟩ = true ∧
    IsReady ⟨[⟨"Ready", "True"⟩]⟩ = true ∧
    IsReady ⟨[⟨"Ready", "False"⟩]⟩ = false := by
  decide

/-! ## Exclusive requests without a pool segment -/

/-- C28, the code at the failing input: the request key `hugepages-cmss.cn-exclusive`
contains the resource base name and "exclusive", the checkpoint lookup for it succeeds
(with no cores), and the key has no `/`, so it has no second segment: the call ends in
the panic "index out of range". -/
theorem determineCorrectCpuset_index_out_of_range :
    isSharedRequest "cmss.cn" "hugepages-cmss.cn-exclusive" = false ∧
    isExclusiveRequest "cmss.cn" "hugepages-cmss.cn-exclusive" = true ∧
    getListOfAllocatedExclusiveCpus goAtoi sharedAndExclusivePools.checkpointFile
        "hugepages-cmss.cn-exclusive" "pod" "ctr" = .ok ∅ ∧
    Split "hugepages-cmss.cn-exclusive" '/' = ["hugepages-cmss.cn-exclusive"] ∧
    determineCorrectCpuset sharedAndExclusivePools "pod" "ctr"
        ["cpu", "hugepages-cmss.cn-exclusive"] = .error .indexOutOfRange :=
  ⟨by decide, by decide, rfl, by decide, rfl⟩

/-! ## A container whose runtime ID cannot be determined -/

/-- C29, the code at the failing input: the container ID recorded for `ctr` is the
runtime prefix `docker://` alone, so `gatherAllContainers` keeps the container and
`determineCid` returns the empty string; `adjustContainerSets` then evaluates
`err.Error()` with `err` nil and panics instead of returning an error. -/
theorem adjustContainerSets_panics_on_empty_container_id :
    gatherAllContainers prefixOnlyPod = ["ctr"] ∧
    determineCid (eightCpuNode sharedAndExclusivePools).containerPrefixList
        prefixOnlyPod.Status "ctr" = "" ∧
    (adjustContainerSets (eightCpuNode sharedAndExclusivePools)
        sharedAndExclusivePools.poolsAtDefault none (cgroupWith "0-7\n") prefixOnlyPod
        (gatherAllContainers prefixOnlyPod)).2.2
      = .panicked "nil pointer dereference: err.Error() with err == nil" := by
  decide

/-! ## CPU requests of the annotation -/

theorem wrapInt_wrapInt_add (a b : Int) : wrapInt (wrapInt a + b) = wrapInt (a + b) := by
  unfold wrapInt
  norm_num
  omega

theorem wrapInt_wrapInt (a : Int) : wrapInt (wrapInt a) = wrapInt a := by
  have := wrapInt_wrapInt_add a 0
  simpa using this

theorem wrapInt_of_fits (a : Int) (hlo : -2 ^ 63 ≤ a) (hhi : a < 2 ^ 63) : wrapInt a = a := by
  unfold wrapInt
  norm_num at *
  omega

theorem wrapInt_zero : wrapInt 0 = 0 := by
  unfold wrapInt
  norm_num

theorem foldl_intAdd (q : Process → Prop) [DecidablePred q] (processes : List Process)
    (a : Int) (ha : wrapInt a = a) :
    wrapInt (processes.foldl (fun t p => if q p then intAdd t p.CPUs else t) a)
      = processes.foldl (fun t p => if q p then intAdd t p.CPUs else t) a ∧
    processes.foldl (fun t p => if q p then intAdd t p.CPUs else t) a
      = wrapInt (a + ((processes.filter fun p => decide (q p)).map fun p => p.CPUs).sum) := by
  induction processes generalizing a with
  | nil => simp [ha]
  | cons p rest ih =>
    rw [List.foldl_cons]
    by_cases hp : q p
    · rw [if_pos hp]
      have h1 := ih (intAdd a p.CPUs) (wrapInt_wrapInt _)
      refine ⟨h1.1, ?_⟩
      rw [h1.2]
      simp only [List.filter_cons, hp, decide_True, if_true, List.map_cons, List.sum_cons]
      rw [intAdd, wrapInt_wrapInt_add, add_assoc]
    · rw [if_neg hp]
      have h1 := ih a ha
      refine ⟨h1.1, ?_⟩
      rw [h1.2]
      simp only [List.filter_cons, hp, decide_False, Bool.false_eq_true, if_false]

theorem foldl_containers (counts : String → Bool) (cName : String)
    (g : List Process → Int → Int)
    (hg : ∀ processes t, wrapInt t = t →
      wrapInt (g processes t) = g processes t ∧
      g processes t = wrapInt (t + ((processes.filter fun p => counts p.PoolName).map
        fun p => p.CPUs).sum))
    (visited : List (String × Container)) (a : Int) (ha : wrapInt a = a) :
    visited.foldl (fun t entry => if entry.2.Name = cName then g entry.2.Processes t else t) a
      = wrapInt (a + cpusOf visited cName counts) := by
  induction visited generalizing a with
  | nil => simp [cpusOf, ha]
  | cons entry rest ih =>
    rw [List.foldl_cons]
    by_cases hn : entry.2.Name = cName
    · rw [if_pos hn, ih _ (hg _ _ ha).1, (hg _ _ ha).2, wrapInt_wrapInt_add]
      congr 1
      simp [cpusOf, hn, List.filter_cons, add_assoc]
    · rw [if_neg hn, ih _ ha]
      congr 1
      simp [cpusOf, hn, List.filter_cons]

theorem cpusOf_perm (visited other : List (String × Container)) (cName : String)
    (counts : String → Bool) (h : other.Perm visited) :
    cpusOf other cName counts = cpusOf visited cName counts := by
  unfold cpusOf
  exact List.Perm.sum_eq (((h.filter _).flatMap_right _).filter _ |>.map _)

theorem addCPURequest_eq (pool : String) (processes : List Process) (t : Int)
    (ht : wrapInt t = t) :
    wrapInt (addCPURequest pool processes t) = addCPURequest pool processes t ∧
    addCPURequest pool processes t
      = wrapInt (t + ((processes.filter fun p => decide (p.PoolName = pool)).map
          fun p => p.CPUs).sum) := by
  unfold addCPURequest
  exact foldl_intAdd (fun p => p.PoolName = pool) processes t ht

theorem addCPUTime_eq (pfx : String) (processes : List Process) (t : Int)
    (ht : wrapInt t = t) :
    wrapInt (addCPUTime pfx processes t) = addCPUTime pfx processes t ∧
    addCPUTime pfx processes t
      = wrapInt (t + ((processes.filter fun p => HasPrefix p.PoolName pfx).map
          fun p => p.CPUs).sum) := by
  unfold addCPUTime
  have h := foldl_intAdd (fun p => HasPrefix p.PoolName pfx = true) processes t ht
  simpa using h

theorem ContainerTotalCPURequest_eq (visited : List (String × Container))
    (pool cName : String) :
    CPUAnnotation.ContainerTotalCPURequest visited pool cName
      = wrapInt (cpusOf visited cName fun poolName => poolName = pool) := by
  have h := foldl_containers (fun poolName => decide (poolName = pool)) cName
    (addCPURequest pool) (addCPURequest_eq pool) visited 0 wrapInt_zero
  rw [zero_add] at h
  exact h

theorem ContainerSharedCPUTime_eq (visited : List (String × Container)) (cName : String) :
    CPUAnnotation.ContainerSharedCPUTime visited cName
      = wrapInt (cpusOf visited cName fun poolName => HasPrefix poolName "shared") := by
  have h := foldl_containers (fun poolName => HasPrefix poolName "shared") cName
    (addCPUTime "shared") (addCPUTime_eq "shared") visited 0 wrapInt_zero
  rw [zero_add] at h
  exact h

/-- C22: `ContainerTotalCPURequest(pool, cName)` is the sum, as a Go `int`, of the cpus
values of exactly the processes of the containers named `cName` whose pool name equals
`pool`: the exact sum whenever that fits into an `int`, and 0 when the container or the
pool does not occur; the order in which the map is visited does not matter. -/
theorem ContainerTotalCPURequest_sum (visited : List (String × Container))
    (pool cName : String) :
    CPUAnnotation.ContainerTotalCPURequest visited pool cName
      = wrapInt (cpusOf visited cName fun poolName => poolName = pool) ∧
    (-2 ^ 63 ≤ cpusOf visited cName (fun poolName => poolName = pool) →
      cpusOf visited cName (fun poolName => poolName = pool) < 2 ^ 63 →
      CPUAnnotation.ContainerTotalCPURequest visited pool cName
        = cpusOf visited cName fun poolName => poolName = pool) ∧
    ((∀ entry ∈ visited, entry.2.Name ≠ cName) →
      CPUAnnotation.ContainerTotalCPURequest visited pool cName = 0) ∧
    ((∀ entry ∈ visited, entry.2.Name = cName →
        ∀ process ∈ entry.2.Processes, process.PoolName ≠ pool) →
      CPUAnnotation.ContainerTotalCPURequest visited pool cName = 0) ∧
    (∀ other : List (String × Container), other.Perm visited →
      CPUAnnotation.ContainerTotalCPURequest other pool cName
        = CPUAnnotation.ContainerTotalCPURequest visited pool cName) := by
  refine ⟨ContainerTotalCPURequest_eq visited pool cName, ?_, ?_, ?_, ?_⟩
  · intro hlo hhi
    rw [ContainerTotalCPURequest_eq, wrapInt_of_fits _ hlo hhi]
  · intro hnone
    rw [ContainerTotalCPURequest_eq]
    have : (visited.filter fun entry => entry.2.Name = cName) = [] :=
      List.filter_eq_nil_iff.2 (fun entry hentry => by simpa using hnone entry hentry)
    simp [cpusOf, this, wrapInt_zero]
  · intro hnone
    rw [ContainerTotalCPURequest_eq]
    have : (((visited.filter fun entry => entry.2.Name = cName).flatMap fun entry =>
        entry.2.Processes).filter fun process => decide (process.PoolName = pool)) = [] := by
      apply List.filter_eq_nil_iff.2
      intro process hprocess
      obtain ⟨entry, hentry, hmem⟩ := List.mem_flatMap.1 hprocess
      have hname : entry.2.Name = cName := by simpa using (List.mem_filter.1 hentry).2
      simpa using hnone entry (List.mem_filter.1 hentry).1 hname process hmem
    simp [cpusOf, this, wrapInt_zero]
  · intro other hperm
    rw [ContainerTotalCPURequest_eq, ContainerTotalCPURequest_eq, cpusOf_perm _ _ _ _ hperm]

/-- C22 at the input of the tests: the requests 120 and 130 of `Container2` in
`shared-pool1` give 250; the 300 in `shared-pool3` are not counted. -/
theorem ContainerTotalCPURequest_sum_witness :
    CPUAnnotation.ContainerTotalCPURequest testAnnotation "shared-pool1" "Container2" = 250 :=
  ((ContainerTotalCPURequest_sum testAnnotation "shared-pool1" "Container2").2.1
    (by decide) (by decide)).trans (by decide)

/-- C23: `ContainerSharedCPUTime(cName)` is the sum, as a Go `int`, of the cpus values of
exactly the processes of the containers named `cName` whose pool name begins with
"shared", over all such pools: the exact sum whenever that fits into an `int`;
processes of other pools and of other containers are not counted, and the order in
which the map is visited does not matter. -/
theorem ContainerSharedCPUTime_sum (visited : List (String × Container)) (cName : String) :
    CPUAnnotation.ContainerSharedCPUTime visited cName
      = wrapInt (cpusOf visited cName fun poolName => HasPrefix poolName "shared") ∧
    (-2 ^ 63 ≤ cpusOf visited cName (fun poolName => HasPrefix poolName "shared") →
      cpusOf visited cName (fun poolName => HasPrefix poolName "shared") < 2 ^ 63 →
      CPUAnnotation.ContainerSharedCPUTime visited cName
        = cpusOf visited cName fun poolName => HasPrefix poolName "shared") ∧
    (∀ (before after : List (String × Container)) (entry : String × Container),
      visited = before ++ entry :: after → entry.2.Name ≠ cName →
      CPUAnnotation.ContainerSharedCPUTime visited cName
        = CPUAnnotation.ContainerSharedCPUTime (before ++ after) cName) ∧
    (∀ (before after : List (String × Container)) (key : String) (c : Container)
        (first last : List Process) (process : Process),
      visited = before ++ (key, c) :: after → c.Processes = first ++ process :: last →
      HasPrefix process.PoolName "shared" = false →
      CPUAnnotation.ContainerSharedCPUTime visited cName
        = CPUAnnotation.ContainerSharedCPUTime
            (before ++ (key, { c with Processes := first ++ last }) :: after) cName) ∧
    (∀ other : List (String × Container), other.Perm visited →
      CPUAnnotation.ContainerSharedCPUTime other cName
        = CPUAnnotation.ContainerSharedCPUTime visited cName) := by
  refine ⟨ContainerSharedCPUTime_eq visited cName, ?_, ?_, ?_, ?_⟩
  · intro hlo hhi
    rw [ContainerSharedCPUTime_eq, wrapInt_of_fits _ hlo hhi]
  · intro before after entry hsplit hname
    rw [ContainerSharedCPUTime_eq, ContainerSharedCPUTime_eq, hsplit]
    congr 1
    simp [cpusOf, List.filter_cons, hname]
  · intro before after key c first last process hsplit hproc hpool
    rw [ContainerSharedCPUTime_eq, ContainerSharedCPUTime_eq, hsplit]
    congr 1
    by_cases hname : c.Name = cName
    · simp [cpusOf, List.filter_cons, hname, hproc, hpool]
    · simp [cpusOf, List.filter_cons, hname]
  · intro other hperm
    rw [ContainerSharedCPUTime_eq, ContainerSharedCPUTime_eq, cpusOf_perm _ _ _ _ hperm]

/-- C23 at the input of the tests: 120 and 130 in `shared-pool1` and 300 in
`shared-pool3` give 550 for `Container2`; its process in `exclusive-pool2` and the
processes of `Container1` are not counted. -/
theorem ContainerSharedCPUTime_sum_witness :
    CPUAnnotation.ContainerSharedCPUTime testAnnotation "Container2" = 550 :=
  ((ContainerSharedCPUTime_sum testAnnotation "Container2").2.1
    (by decide) (by decide)).trans (by decide)

/-! ## The annotation map and its accessors -/

theorem ContainerNames_eq_map (visited : List (String × Container)) :
    CPUAnnotation.ContainerNames visited = visited.map fun entry => entry.2.Name := by
  have h : ∀ (l : List (String × Container)) (acc : List String),
      l.foldl (fun names entry => names ++ [entry.2.Name]) acc
        = acc ++ l.map fun entry => entry.2.Name := by
    intro l
    induction l with
    | nil => intro acc; simp
    | cons e rest ih => intro acc; simp [ih, List.append_assoc]
  simpa [ CPUAnnotation.ContainerNames] using h visited []

theorem IsContainerExists_iff (m : CPUAnnotation) (name : String) :
    CPUAnnotation.IsContainerExists m name = true ↔ name ∈ m.map Prod.fst := by
  unfold CPUAnnotation.IsContainerExists
  induction m with
  | nil => simp [ CPUAnnotation.lookup]
  | cons e rest ih =>
    obtain ⟨key, container⟩ := e
    by_cases hk : key = name
    · simp [ CPUAnnotation.lookup, hk]
    · simp only [ CPUAnnotation.lookup, hk, if_false, List.map_cons, List.mem_cons]
      rw [ih]
      constructor
      · intro h; exact Or.inr h
      · rintro (h | h)
        · exact absurd h.symm hk
        · exact h

theorem lookup_eq_some_iff (m : CPUAnnotation) (hnodup : (m.map Prod.fst).Nodup)
    (name : String) (c : Container) :
    CPUAnnotation.lookup m name = some c ↔ (name, c) ∈ m := by
  induction m with
  | nil => simp [ CPUAnnotation.lookup]
  | cons e rest ih =>
    obtain ⟨key, container⟩ := e
    rw [List.map_cons, List.nodup_cons] at hnodup
    by_cases hk : key = name
    · subst hk
      simp only [ CPUAnnotation.lookup, if_true, Option.some.injEq, List.mem_cons, Prod.mk.injEq,
        true_and]
      constructor
      · intro h; exact Or.inl h.symm
      · rintro (h | h)
        · exact h.symm
        · exact absurd (List.mem_map_of_mem Prod.fst h) hnodup.1
    · simp only [ CPUAnnotation.lookup, hk, if_false, List.mem_cons, Prod.mk.injEq]
      rw [ih hnodup.2]
      constructor
      · intro h; exact Or.inr h
      · rintro (h | h)
        · exact absurd h.1.symm hk
        · exact h

theorem set_keys (m : CPUAnnotation) (name : String) (c : Container) :
    ( CPUAnnotation.set m name c).map Prod.fst
      = if name ∈ m.map Prod.fst then m.map Prod.fst else m.map Prod.fst ++ [name] := by
  induction m with
  | nil => simp [ CPUAnnotation.set]
  | cons e rest ih =>
    obtain ⟨key, old⟩ := e
    by_cases hk : key = name
    · simp [ CPUAnnotation.set, hk]
    · have hk' : ¬ name = key := fun h => hk h.symm
      simp only [ CPUAnnotation.set, hk, if_false, List.map_cons, ih, List.mem_cons, hk',
        false_or]
      split <;> simp

theorem mem_set (m : CPUAnnotation) (name : String) (c : Container)
    (entry : String × Container) (h : entry ∈ CPUAnnotation.set m name c) :
    entry = (name, c) ∨ entry ∈ m := by
  induction m with
  | nil => simpa [ CPUAnnotation.set] using h
  | cons e rest ih =>
    obtain ⟨key, old⟩ := e
    by_cases hk : key = name
    · simp only [ CPUAnnotation.set, hk, if_true, List.mem_cons] at h
      rcases h with h | h
      · exact Or.inl h
      · exact Or.inr (List.mem_cons_of_mem _ h)
    · simp only [ CPUAnnotation.set, hk, if_false, List.mem_cons] at h
      rcases h with h | h
      · exact Or.inr (by rw [h]; exact List.mem_cons_self _ _)
      · rcases ih h with h' | h'
        · exact Or.inl h'
        · exact Or.inr (List.mem_cons_of_mem _ h')

/-- Every key is the name of the container stored under it, and no key occurs twice. -/
theorem keyed_by_name_set (m : CPUAnnotation) (c : Container)
    (hkeys : ∀ entry ∈ m, entry.1 = entry.2.Name) (hnodup : (m.map Prod.fst).Nodup) :
    (∀ entry ∈ CPUAnnotation.set m c.Name c, entry.1 = entry.2.Name) ∧
    (( CPUAnnotation.set m c.Name c).map Prod.fst).Nodup := by
  constructor
  · intro entry hentry
    rcases mem_set m c.Name c entry hentry with h | h
    · rw [h]
    · exact hkeys entry h
  · rw [set_keys]
    split
    · exact hnodup
    · next hnot =>
      exact List.Nodup.append hnodup (List.nodup_singleton _)
        (by simpa [List.disjoint_singleton] using hnot)

theorem keyed_by_name_fill (containers : List Container) (m : CPUAnnotation)
    (hkeys : ∀ entry ∈ m, entry.1 = entry.2.Name) (hnodup : (m.map Prod.fst).Nodup) :
    (∀ entry ∈ containers.foldl
        (fun decoded container => CPUAnnotation.set decoded container.Name container) m,
      entry.1 = entry.2.Name) ∧
    ((containers.foldl
      (fun decoded container => CPUAnnotation.set decoded container.Name container) m).map
        Prod.fst).Nodup := by
  induction containers generalizing m with
  | nil => exact ⟨hkeys, hnodup⟩
  | cons c rest ih =>
    rw [List.foldl_cons]
    exact ih _ (keyed_by_name_set m c hkeys hnodup).1 (keyed_by_name_set m c hkeys hnodup).2

theorem Decode_map (visit : CPUAnnotation → List (String × Container)) (m : CPUAnnotation)
    (unmarshalled : List Container × Option String) :
    ( CPUAnnotation.Decode visit m unmarshalled).1
      = unmarshalled.1.foldl
          (fun decoded container => CPUAnnotation.set decoded container.Name container) m := by
  unfold CPUAnnotation.Decode
  cases unmarshalled.2 <;> rfl

theorem keyed_by_name_decodeAll (visit : CPUAnnotation → List (String × Container))
    (calls : List (List Container × Option String)) :
    (∀ entry ∈ decodeAll visit calls, entry.1 = entry.2.Name) ∧
    ((decodeAll visit calls).map Prod.fst).Nodup := by
  unfold decodeAll
  have h : ∀ (l : List (List Container × Option String)) (m : CPUAnnotation),
      (∀ entry ∈ m, entry.1 = entry.2.Name) → (m.map Prod.fst).Nodup →
      (∀ entry ∈ l.foldl (fun decoded unmarshalled =>
          ( CPUAnnotation.Decode visit decoded unmarshalled).1) m, entry.1 = entry.2.Name) ∧
      ((l.foldl (fun decoded unmarshalled =>
          ( CPUAnnotation.Decode visit decoded unmarshalled).1) m).map Prod.fst).Nodup := by
    intro l
    induction l with
    | nil => intro m hk hn; exact ⟨hk, hn⟩
    | cons u rest ih =>
      intro m hk hn
      rw [List.foldl_cons, Decode_map]
      exact ih _ (keyed_by_name_fill u.1 m hk hn).1 (keyed_by_name_fill u.1 m hk hn).2
  exact h calls [] (by simp) (by simp)

/-- C30: after any sequence of `Decode` calls on an initially empty `CPUAnnotation`,
successful or not, every key of the map is the `Name` of the container stored under it
and no key occurs twice; so `IsContainerExists(n)` holds exactly when `n` occurs in
`ContainerNames()`, in whatever order the map is visited, and the container found under
the key `n` is the one container whose `Name` is `n`. -/
theorem Decode_keeps_keys_equal_to_names (visit : CPUAnnotation → List (String × Container))
    (calls : List (List Container × Option String)) :
    (∀ entry ∈ decodeAll visit calls, entry.1 = entry.2.Name) ∧
    ((decodeAll visit calls).map Prod.fst).Nodup ∧
    (∀ visited : List (String × Container), visited.Perm (decodeAll visit calls) →
      ∀ n : String, CPUAnnotation.IsContainerExists (decodeAll visit calls) n = true ↔
        n ∈ CPUAnnotation.ContainerNames visited) ∧
    (∀ (n : String) (c : Container),
      CPUAnnotation.lookup (decodeAll visit calls) n = some c ↔
        ∃ entry ∈ decodeAll visit calls, entry.2 = c ∧ c.Name = n) := by
  obtain ⟨hkeys, hnodup⟩ := keyed_by_name_decodeAll visit calls
  refine ⟨hkeys, hnodup, ?_, ?_⟩
  · intro visited hperm n
    rw [IsContainerExists_iff, ContainerNames_eq_map]
    simp only [List.mem_map]
    constructor
    · rintro ⟨entry, hentry, rfl⟩
      exact ⟨entry, hperm.symm.subset hentry, (hkeys entry hentry).symm⟩
    · rintro ⟨entry, hentry, rfl⟩
      exact ⟨entry, hperm.subset hentry, hkeys entry (hperm.subset hentry)⟩
  · intro n c
    rw [lookup_eq_some_iff _ hnodup]
    constructor
    · intro h
      exact ⟨(n, c), h, rfl, (hkeys _ h).symm⟩
    · rintro ⟨entry, hentry, rfl, hname⟩
      have := hkeys entry hentry
      have he : entry = (n, entry.2) := by
        rw [← hname, ← this]
      rw [← he]
      exact hentry

/-- C30 at a concrete input: a successful call and a failing one (a container without
a name); both containers are stored under their names. -/
theorem Decode_keeps_keys_equal_to_names_witness :
    decodeAll id [([⟨"a", [⟨"sh", [], 1, "shared1"⟩]⟩], none), ([⟨"", []⟩], none)]
      = [("a", ⟨"a", [⟨"sh", [], 1, "shared1"⟩]⟩), ("", ⟨"", []⟩)] ∧
    ∀ entry ∈ decodeAll id
        [([⟨"a", [⟨"sh", [], 1, "shared1"⟩]⟩], none), ([⟨"", []⟩], none)],
      entry.1 = entry.2.Name :=
  ⟨by decide, (Decode_keeps_keys_equal_to_names id _).1⟩

/-! ## Decoding a well-formed annotation -/

theorem fill_of_new_names (containers : List Container) (m : CPUAnnotation)
    (hnodup : (containers.map fun c => c.Name).Nodup)
    (hnew : ∀ c ∈ containers, c.Name ∉ m.map Prod.fst) :
    containers.foldl
        (fun decoded container => CPUAnnotation.set decoded container.Name container) m
      = m ++ containers.map fun c => (c.Name, c) := by
  induction containers generalizing m with
  | nil => simp
  | cons c rest ih =>
    rw [List.map_cons, List.nodup_cons] at hnodup
    have hset : CPUAnnotation.set m c.Name c = m ++ [(c.Name, c)] := by
      have hc := hnew c (List.mem_cons_self _ _)
      clear ih hnew
      induction m with
      | nil => rfl
      | cons e tail ihm =>
        obtain ⟨key, old⟩ := e
        have hk : ¬ key = c.Name := fun h => hc (by simp [h])
        have htail : c.Name ∉ tail.map Prod.fst := fun h => hc (by simp [h])
        simp only [ CPUAnnotation.set, hk, if_false, List.cons_append, ihm htail]
    rw [List.foldl_cons, hset, ih _ hnodup.2]
    · simp
    · intro x hx
      simp only [List.map_append, List.map_cons, List.map_nil, List.mem_append,
        List.mem_singleton, not_or]
      refine ⟨hnew x (List.mem_cons_of_mem _ hx), ?_⟩
      intro hxc
      exact hnodup.1 (by rw [← hxc]; exact List.mem_map_of_mem (fun c => c.Name) hx)

theorem checkContainers_of_well_formed (entries : List (String × Container))
    (h : ∀ entry ∈ entries, entry.2.Name ≠ "" ∧ entry.2.Processes ≠ [] ∧
      ∀ p ∈ entry.2.Processes, p.ProcName ≠ "" ∧ p.CPUs ≠ 0) :
    checkContainers entries = none := by
  induction entries with
  | nil => rfl
  | cons e rest ih =>
    obtain ⟨key, c⟩ := e
    obtain ⟨hname, hproc, hps⟩ := h (key, c) (List.mem_cons_self _ _)
    have hlen : ¬ c.Name.length = 0 := fun h => hname ((length_eq_zero_iff_empty _).1 h)
    have hplen : ¬ c.Processes.length = 0 := fun h => hproc (List.length_eq_zero.1 h)
    simp only [checkContainers, hlen, hplen, if_false,
      (checkProcesses_eq_none_iff c.Processes).2 hps]
    exact ih (fun entry hentry => h entry (List.mem_cons_of_mem _ hentry))

theorem collectPools_eq (processes : List Process) (pools : List String)
    (poolMap : String → Option Bool)
    (hmap : ∀ x, (poolMap x).isSome = true ↔ x ∈ pools) :
    (collectPools processes (pools, poolMap)).1
      = pools ++ (firstOccurrences (processes.map fun p => p.PoolName)).filter
          fun x => decide (x ∉ pools) := by
  unfold collectPools
  induction processes generalizing pools poolMap with
  | nil => simp [firstOccurrences]
  | cons p rest ih =>
    rw [List.foldl_cons]
    by_cases hp : p.PoolName ∈ pools
    · have hsome : (poolMap p.PoolName).isSome = true := (hmap _).2 hp
      simp only [hsome, if_true]
      rw [ih pools poolMap hmap]
      congr 1
      simp only [List.map_cons, firstOccurrences, List.filter_cons, hp, not_true_eq_false,
        decide_False, Bool.false_eq_true, if_false, List.filter_filter]
      apply List.filter_congr
      intro x _
      by_cases hx : x ∈ pools
      · simp [hx]
      · have : x ≠ p.PoolName := fun h => hx (h ▸ hp)
        simp [hx, this]
    · have hnone : ¬ (poolMap p.PoolName).isSome = true := fun h => hp ((hmap _).1 h)
      simp only [hnone, if_false, Bool.false_eq_true]
      rw [ih (pools ++ [p.PoolName]) (Function.update poolMap p.PoolName (some true))]
      · simp only [List.map_cons, firstOccurrences, List.filter_cons, hp, not_false_eq_true,
          decide_True, if_true, List.filter_filter, List.append_assoc, List.singleton_append]
        congr 2
        apply List.filter_congr
        intro x _
        by_cases hx : x = p.PoolName
        · simp [hx]
        · simp [hx]
      · intro x
        by_cases hx : x = p.PoolName
        · subst hx
          simp [Function.update]
        · simp [Function.update, hx, hmap]

theorem firstOccurrences_mem (l : List String) (x : String) :
    x ∈ firstOccurrences l ↔ x ∈ l := by
  induction l with
  | nil => simp [firstOccurrences]
  | cons a rest ih =>
    by_cases hx : x = a
    · simp [firstOccurrences, hx]
    · simp [firstOccurrences, hx, ih]

theorem firstOccurrences_nodup (l : List String) : (firstOccurrences l).Nodup := by
  induction l with
  | nil => simp [firstOccurrences]
  | cons a rest ih =>
    simp only [firstOccurrences, List.nodup_cons, List.mem_filter, ne_eq, decide_not,
      Bool.not_eq_true', decide_eq_false_iff_not, not_true_eq_false, and_false,
      not_false_eq_true, true_and]
    exact ih.filter _

theorem ContainerPools_of_unique (visited : List (String × Container)) (c : Container)
    (key : String) (hmem : (key, c) ∈ visited)
    (honly : ∀ entry ∈ visited, entry.2.Name = c.Name → entry = (key, c))
    (hnodup : visited.Nodup) :
    CPUAnnotation.ContainerPools visited c.Name
      = firstOccurrences (c.Processes.map fun p => p.PoolName) := by
  obtain ⟨before, after, hsplit⟩ := List.append_of_mem hmem
  subst hsplit
  have hb : ∀ entry ∈ before, ¬ entry.2.Name = c.Name := by
    intro entry hentry hname
    have he := honly entry (List.mem_append_left _ hentry) hname
    rw [he] at hentry
    have := (List.nodup_append.1 hnodup).2.2
    exact this hentry (List.mem_cons_self _ _)
  have ha : ∀ entry ∈ after, ¬ entry.2.Name = c.Name := by
    intro entry hentry hname
    have he := honly entry (List.mem_append_right _ (List.mem_cons_of_mem _ hentry)) hname
    rw [he] at hentry
    have := (List.nodup_cons.1 (List.nodup_append.1 hnodup).2.1).1
    exact this hentry
  have hskip : ∀ (l : List (String × Container)) (st : List String × (String → Option Bool)),
      (∀ entry ∈ l, ¬ entry.2.Name = c.Name) →
      l.foldl (fun st entry =>
        if entry.2.Name = c.Name then collectPools entry.2.Processes st else st) st = st := by
    intro l
    induction l with
    | nil => intro st _; rfl
    | cons e rest ih =>
      intro st h
      rw [List.foldl_cons, if_neg (h e (List.mem_cons_self _ _))]
      exact ih st (fun x hx => h x (List.mem_cons_of_mem _ hx))
  unfold CPUAnnotation.ContainerPools
  rw [List.foldl_append, hskip before _ hb, List.foldl_cons, if_pos rfl, hskip after _ ha]
  have := collectPools_eq c.Processes [] (fun _ => none) (by simp)
  simpa using this

/-- C21: decoding a well-formed annotation array (every container with a non-empty name
and at least one process, every process with a non-empty name and non-zero cpus, the
container names pairwise distinct) into an empty `CPUAnnotation` returns no error; then,
in whatever order the map is visited, `ContainerNames` is a permutation of the container
names of the input, `IsContainerExists` holds for exactly those names, and
`ContainerPools` of a container is the list of the pool names of its processes without
repetition, in the order of first occurrence. -/
theorem Decode_well_formed_accessors (visit : CPUAnnotation → List (String × Container))
    (hvisit : ∀ entries, (visit entries).Perm entries) (containers : List Container)
    (hwf : ∀ c ∈ containers, c.Name ≠ "" ∧ c.Processes ≠ [] ∧
      ∀ p ∈ c.Processes, p.ProcName ≠ "" ∧ p.CPUs ≠ 0)
    (hnames : (containers.map fun c => c.Name).Nodup) :
    ( CPUAnnotation.Decode visit [] (containers, none)).2 = none ∧
    (∀ visited : List (String × Container),
      visited.Perm ( CPUAnnotation.Decode visit [] (containers, none)).1 →
      ( CPUAnnotation.ContainerNames visited).Perm (containers.map fun c => c.Name) ∧
      (∀ n : String,
        CPUAnnotation.IsContainerExists ( CPUAnnotation.Decode visit [] (containers, none)).1 n
          = true ↔ n ∈ containers.map fun c => c.Name) ∧
      (∀ c ∈ containers, CPUAnnotation.ContainerPools visited c.Name
        = firstOccurrences (c.Processes.map fun p => p.PoolName))) ∧
    (∀ l : List String, (firstOccurrences l).Nodup ∧ ∀ x, x ∈ firstOccurrences l ↔ x ∈ l) := by
  have hmap : ( CPUAnnotation.Decode visit [] (containers, none)).1
      = containers.map fun c => (c.Name, c) := by
    rw [Decode_map]
    have := fill_of_new_names containers [] hnames (by simp)
    simpa using this
  have hwf' : ∀ entry ∈ containers.map (fun c => (c.Name, c)),
      entry.2.Name ≠ "" ∧ entry.2.Processes ≠ [] ∧
      ∀ p ∈ entry.2.Processes, p.ProcName ≠ "" ∧ p.CPUs ≠ 0 := by
    intro entry hentry
    obtain ⟨c, hc, rfl⟩ := List.mem_map.1 hentry
    exact hwf c hc
  refine ⟨?_, ?_, fun l => ⟨firstOccurrences_nodup l, firstOccurrences_mem l⟩⟩
  · have hres : ( CPUAnnotation.Decode visit [] (containers, none)).2
        = checkContainers (visit ( CPUAnnotation.Decode visit [] (containers, none)).1) := rfl
    rw [hres, hmap]
    exact checkContainers_of_well_formed _
      (fun entry hentry => hwf' entry ((hvisit _).subset hentry))
  · intro visited hperm
    rw [hmap] at hperm ⊢
    refine ⟨?_, ?_, ?_⟩
    · rw [ContainerNames_eq_map]
      have := hperm.map fun entry : String × Container => entry.2.Name
      simpa [List.map_map, Function.comp] using this
    · intro n
      rw [IsContainerExists_iff]
      simp [List.map_map, Function.comp]
    · intro c hc
      have hpairs : (containers.map fun c => (c.Name, c)).Nodup := by
        have : ((containers.map fun c => (c.Name, c)).map Prod.fst).Nodup := by
          simpa [List.map_map, Function.comp] using hnames
        exact List.Nodup.of_map _ this
      apply ContainerPools_of_unique visited c c.Name
      · exact hperm.symm.subset (List.mem_map_of_mem (fun c => (c.Name, c)) hc)
      · intro entry hentry hname
        obtain ⟨d, hd, rfl⟩ := List.mem_map.1 (hperm.subset hentry)
        have hdc : d = c := by
          have hinj := List.inj_on_of_nodup_map hnames
          exact hinj hd hc hname
        rw [hdc]
      · exact hperm.symm.nodup_iff.1 hpairs

/-- C21 at the input of the test: the container `cputestcontainer` with a process in
`shared-pool1` and one in `exclusive-pool2` decodes without error and has these two
pools. -/
theorem Decode_well_formed_accessors_witness :
    ( CPUAnnotation.Decode id []
      ([⟨"cputestcontainer",
          [⟨"/bin/sh", ["-c", "/thread_busyloop"], 1, "shared-pool1"⟩,
           ⟨"/bin/sh", ["-c", "/thread_busyloop2"], 2, "exclusive-pool2"⟩]⟩], none)).2 = none ∧
    CPUAnnotation.ContainerPools
        ( CPUAnnotation.Decode id []
          ([⟨"cputestcontainer",
              [⟨"/bin/sh", ["-c", "/thread_busyloop"], 1, "shared-pool1"⟩,
               ⟨"/bin/sh", ["-c", "/thread_busyloop2"], 2, "exclusive-pool2"⟩]⟩], none)).1
        "cputestcontainer"
      = ["shared-pool1", "exclusive-pool2"] :=
  ⟨(Decode_well_formed_accessors id (fun _ => List.Perm.refl _)
      [⟨"cputestcontainer",
        [⟨"/bin/sh", ["-c", "/thread_busyloop"], 1, "shared-pool1"⟩,
         ⟨"/bin/sh", ["-c", "/thread_busyloop2"], 2, "exclusive-pool2"⟩]⟩]
      (by decide) (by decide)).1,
    by decide⟩

/-! ## Validation of the annotation against the resource requests -/

theorem collectPools_mem (processes : List Process)
    (st : List String × (String → Option Bool))
    (hst : ∀ x, (st.2 x).isSome = true ↔ x ∈ st.1) :
    (∀ x, ((collectPools processes st).2 x).isSome = true ↔ x ∈ (collectPools processes st).1) ∧
    ∀ x, x ∈ (collectPools processes st).1 ↔ x ∈ st.1 ∨ ∃ p ∈ processes, p.PoolName = x := by
  unfold collectPools
  induction processes generalizing st with
  | nil => exact ⟨hst, by simp⟩
  | cons p rest ih =>
    rw [List.foldl_cons]
    by_cases hp : (st.2 p.PoolName).isSome = true
    · rw [if_pos hp]
      refine ⟨(ih st hst).1, ?_⟩
      intro x
      rw [(ih st hst).2 x]
      constructor
      · rintro (h | ⟨q, hq, hx⟩)
        · exact Or.inl h
        · exact Or.inr ⟨q, List.mem_cons_of_mem _ hq, hx⟩
      · rintro (h | ⟨q, hq, hx⟩)
        · exact Or.inl h
        · rcases List.mem_cons.1 hq with hqp | hqr
          · left
            rw [← hx, hqp]
            exact (hst _).1 hp
          · exact Or.inr ⟨q, hqr, hx⟩
    · rw [if_neg hp]
      have hnew : ∀ x, ((Function.update st.2 p.PoolName (some true)) x).isSome = true ↔
          x ∈ st.1 ++ [p.PoolName] := by
        intro x
        by_cases hx : x = p.PoolName
        · subst hx
          simp [Function.update]
        · simp [Function.update, hx, hst]
      have h := ih (st.1 ++ [p.PoolName], Function.update st.2 p.PoolName (some true)) hnew
      refine ⟨h.1, ?_⟩
      intro x
      rw [h.2 x]
      constructor
      · rintro (h1 | ⟨q, hq, hx⟩)
        · rcases List.mem_append.1 h1 with h2 | h2
          · exact Or.inl h2
          · exact Or.inr ⟨p, List.mem_cons_self _ _, (List.mem_singleton.1 h2).symm⟩
        · exact Or.inr ⟨q, List.mem_cons_of_mem _ hq, hx⟩
      · rintro (h1 | ⟨q, hq, hx⟩)
        · exact Or.inl (List.mem_append.2 (Or.inl h1))
        · rcases List.mem_cons.1 hq with hqp | hqr
          · refine Or.inl (List.mem_append.2 (Or.inr (List.mem_singleton.2 ?_)))
            rw [← hx, hqp]
          · exact Or.inr ⟨q, hqr, hx⟩

theorem mem_ContainerPools (visited : List (String × Container)) (cName pool : String) :
    pool ∈ CPUAnnotation.ContainerPools visited cName ↔
      ∃ entry ∈ visited, entry.2.Name = cName ∧ ∃ p ∈ entry.2.Processes, p.PoolName = pool := by
  have h : ∀ (l : List (String × Container)) (st : List String × (String → Option Bool)),
      (∀ x, (st.2 x).isSome = true ↔ x ∈ st.1) →
      ∀ x, x ∈ (l.foldl (fun st entry =>
          if entry.2.Name = cName then collectPools entry.2.Processes st else st) st).1 ↔
        x ∈ st.1 ∨ ∃ entry ∈ l, entry.2.Name = cName ∧ ∃ p ∈ entry.2.Processes,
          p.PoolName = x := by
    intro l
    induction l with
    | nil => intro st _ x; simp
    | cons e rest ih =>
      intro st hst x
      rw [List.foldl_cons]
      by_cases hn : e.2.Name = cName
      · rw [if_pos hn, ih _ (collectPools_mem e.2.Processes st hst).1 x,
          (collectPools_mem e.2.Processes st hst).2 x]
        constructor
        · rintro ((h1 | ⟨q, hq, hx⟩) | ⟨entry, hentry, h2⟩)
          · exact Or.inl h1
          · exact Or.inr ⟨e, List.mem_cons_self _ _, hn, q, hq, hx⟩
          · exact Or.inr ⟨entry, List.mem_cons_of_mem _ hentry, h2⟩
        · rintro (h1 | ⟨entry, hentry, h2⟩)
          · exact Or.inl (Or.inl h1)
          · rcases List.mem_cons.1 hentry with he | he
            · subst he
              exact Or.inl (Or.inr h2.2)
            · exact Or.inr ⟨entry, he, h2⟩
      · rw [if_neg hn, ih st hst x]
        simp only [List.mem_cons, exists_eq_or_imp, hn, false_and, false_or]
  have := h visited ([], fun _ => none) (by simp) pool
  simpa [ CPUAnnotation.ContainerPools] using this

theorem validatePool_eq_none_iff (poolRequests : poolRequestMap)
    (visited : List (String × Container)) (cName pool : String) :
    validatePool poolRequests visited cName pool = none ↔
      ∃ cPoolRequests, poolRequests cName = some cPoolRequests ∧
        CPUAnnotation.ContainerSharedCPUTime visited cName = cPoolRequests.sharedCPURequests ∧
        ∃ value, cPoolRequests.pools pool = some value ∧
          CPUAnnotation.ContainerTotalCPURequest visited pool cName ≤ intMul 2 value := by
  unfold validatePool
  cases hreq : poolRequests cName with
  | none => simp
  | some r =>
    simp only [Option.some.injEq, exists_eq_left']
    by_cases hshared : CPUAnnotation.ContainerSharedCPUTime visited cName = r.sharedCPURequests
    · simp only [hshared, ne_eq, not_true_eq_false, if_false, true_and]
      cases hpool : r.pools pool with
      | none => simp
      | some value =>
        simp only [Option.some.injEq, exists_eq_left', gt_iff_lt]
        split
        · next hgt => simp [not_le.2 hgt]
        · next hle => simp [not_lt.1 hle]
    · simp [hshared]

theorem validatePoolsOf_eq_none_iff (poolRequests : poolRequestMap)
    (visited : List (String × Container)) (cName : String) (pools : List String) :
    validatePoolsOf poolRequests visited cName pools = none ↔
      ∀ pool ∈ pools, validatePool poolRequests visited cName pool = none := by
  induction pools with
  | nil => simp [validatePoolsOf]
  | cons pool rest ih =>
    cases h : validatePool poolRequests visited cName pool with
    | none => simp [validatePoolsOf, h, ih]
    | some err => simp [validatePoolsOf, h]

theorem validateNames_eq_none_iff (poolRequests : poolRequestMap)
    (visited : List (String × Container)) (names : List String) :
    validateNames poolRequests visited names = none ↔
      ∀ cName ∈ names, ∀ pool ∈ CPUAnnotation.ContainerPools visited cName,
        validatePool poolRequests visited cName pool = none := by
  induction names with
  | nil => simp [validateNames]
  | cons cName rest ih =>
    cases h : validatePoolsOf poolRequests visited cName
        ( CPUAnnotation.ContainerPools visited cName) with
    | none =>
      have := (validatePoolsOf_eq_none_iff poolRequests visited cName _).1 h
      simp only [validateNames, h, ih, List.mem_cons, forall_eq_or_imp]
      exact ⟨fun hrest => ⟨this, hrest⟩, fun hall => hall.2⟩
    | some err =>
      have hne : ¬ ∀ pool ∈ CPUAnnotation.ContainerPools visited cName,
          validatePool poolRequests visited cName pool = none := by
        intro hall
        rw [(validatePoolsOf_eq_none_iff poolRequests visited cName _).2 hall] at h
        cases h
      simp only [validateNames, h, List.mem_cons, forall_eq_or_imp]
      exact ⟨fun hsome => Option.noConfusion hsome, fun hall => absurd hall.1 hne⟩

/-- C26: `validateAnnotation` returns no error exactly when, for every container name of
the annotation and every pool that container names, the container has pool requests,
the shared CPU time of the annotation equals the shared CPU requests of the container,
the pool is among the requested pools, and the total of the annotation for that pool is
at most twice the requested value (in Go `int` arithmetic); in every other case it
returns an error, with which `mutatePods` denies the admission of the pod. -/
theorem validateAnnotation_accepts_iff (visit : CPUAnnotation → List (String × Container))
    (hvisit : ∀ entries, (visit entries).Perm entries) (poolRequests : poolRequestMap)
    (decoded : CPUAnnotation) :
    ( validateAnnotation visit poolRequests decoded = none ↔
      ∀ cName ∈ CPUAnnotation.ContainerNames (visit decoded),
        ∀ pool ∈ CPUAnnotation.ContainerPools (visit decoded) cName,
          ∃ cPoolRequests, poolRequests cName = some cPoolRequests ∧
            CPUAnnotation.ContainerSharedCPUTime (visit decoded) cName
              = cPoolRequests.sharedCPURequests ∧
            ∃ value, cPoolRequests.pools pool = some value ∧
              CPUAnnotation.ContainerTotalCPURequest (visit decoded) pool cName
                ≤ intMul 2 value) ∧
    (∀ cName : String, cName ∈ CPUAnnotation.ContainerNames (visit decoded) ↔
      ∃ entry ∈ decoded, entry.2.Name = cName) ∧
    (∀ cName pool : String, pool ∈ CPUAnnotation.ContainerPools (visit decoded) cName ↔
      ∃ entry ∈ decoded, entry.2.Name = cName ∧
        ∃ p ∈ entry.2.Processes, p.PoolName = pool) ∧
    (∀ value : Int, -2 ^ 62 ≤ value → value < 2 ^ 62 → intMul 2 value = 2 * value) ∧
    (∀ unmarshalled : List Container × Option String,
      ( CPUAnnotation.Decode visit [] unmarshalled).2 = none →
      ( CPUAnnotation.Decode visit [] unmarshalled).1 = decoded →
      ( validateAnnotation visit poolRequests decoded ≠ none ↔
        ∃ response, mutatePodsAnnotationCheck visit poolRequests (some unmarshalled)
          = some response ∧ response.Allowed = false)) := by
  refine ⟨?_, ?_, ?_, ?_, ?_⟩
  · unfold validateAnnotation
    rw [validateNames_eq_none_iff]
    constructor
    · intro h cName hc pool hp
      exact (validatePool_eq_none_iff _ _ _ _).1 (h cName hc pool hp)
    · intro h cName hc pool hp
      exact (validatePool_eq_none_iff _ _ _ _).2 (h cName hc pool hp)
  · intro cName
    rw [ContainerNames_eq_map, List.mem_map]
    constructor
    · rintro ⟨entry, hentry, h⟩; exact ⟨entry, (hvisit _).subset hentry, h⟩
    · rintro ⟨entry, hentry, h⟩; exact ⟨entry, (hvisit _).symm.subset hentry, h⟩
  · intro cName pool
    rw [mem_ContainerPools]
    constructor
    · rintro ⟨entry, hentry, h⟩; exact ⟨entry, (hvisit _).subset hentry, h⟩
    · rintro ⟨entry, hentry, h⟩; exact ⟨entry, (hvisit _).symm.subset hentry, h⟩
  · intro value hlo hhi
    unfold intMul
    apply wrapInt_of_fits
    · norm_num at *; omega
    · norm_num at *; omega
  · intro unmarshalled hok hmap
    simp only [mutatePodsAnnotationCheck, hok, hmap]
    cases validateAnnotation visit poolRequests decoded with
    | none => simp
    | some err => simp [toAdmissionResponse]

/-- C26 at a concrete input: the annotation of `Container1` (250 in `shared-pool1`, 1 in
`exclusive-pool2`) is accepted for the requests shared 250, `shared-pool1` 250 and
`exclusive-pool2` 1, and rejected when the pod spec requests nothing for the
container. -/
theorem validateAnnotation_accepts_iff_witness :
    validateAnnotation id
        (fun cName => if cName = "Container1" then
          some ⟨250, 1, fun pool => if pool = "shared-pool1" then some 250
            else if pool = "exclusive-pool2" then some 1 else none⟩ else none)
        ( testAnnotation.take 1) = none ∧
    validateAnnotation id (fun _ => none) ( testAnnotation.take 1) ≠ none :=
  ⟨((validateAnnotation_accepts_iff id (fun _ => List.Perm.refl _) _
      ( testAnnotation.take 1)).1).2 (by decide),
    by decide⟩

/-! ## The default pool of a skipped container and of the infra container -/

theorem SelectPoolConfig_perm (first second : List (String × Pool)) (pfx : String)
    (hperm : first.Perm second)
    (hone : ∀ a ∈ second, ∀ b ∈ second, HasPrefix a.1 pfx = true →
      HasPrefix b.1 pfx = true → a = b) :
    SelectPoolConfig first pfx = SelectPoolConfig second pfx := by
  rcases SelectPoolConfig_cases first pfx with ⟨hnone, hzero⟩ | ⟨a, ha, hpa, hsela⟩
  · rcases SelectPoolConfig_cases second pfx with ⟨_, hzero2⟩ | ⟨b, hb, hpb, _⟩
    · rw [hzero, hzero2]
    · rw [hnone b (hperm.symm.subset hb)] at hpb
      cases hpb
  · rcases SelectPoolConfig_cases second pfx with ⟨hnone, _⟩ | ⟨b, hb, hpb, hselb⟩
    · rw [hnone a (hperm.subset ha)] at hpa
      cases hpa
    · rw [hsela, hselb, hone a (hperm.subset ha) b hb hpa hpb]

theorem cpusetString_zero_one : cpusetString {0, 1} = "0-1" := by
  have h : ToSlice (([0, 1] : List Int).toFinset) = [0, 1] :=
    (List.toFinset_sort (· ≤ ·) (by decide)).2 (by decide)
  have hset : ({0, 1} : CPUSet) = ([0, 1] : List Int).toFinset := by decide
  rw [hset]
  unfold cpusetString
  rw [h]
  decide

/-- C27, refuted as stated: the pool configuration holds the pools `default-a` without
cores and `default-b` with the cores 0 and 1.  The `SelectPoolConfig` of
`determineCorrectCpuset` visits `default-a` first, so the container gets the empty set
and `applyCpusetToContainer` leaves it alone; the `SelectPoolConfig` of
`applyCpusetToInfraContainer` visits `default-b` first and the cpuset file of the infra
container `/cg/pod1/fff000` is overwritten with `0-1`. -/
theorem applyCpusetToInfraContainer_writes_after_skip :
    determineCorrectCpuset
        (eightCpuNode (twoDefaultPools [("default-a", ⟨∅, "", SingleThreadHTPolicy⟩),
          ("default-b", ⟨{0, 1}, "0-1", SingleThreadHTPolicy⟩)])).env
        "pod" "ctr" ["cpu", "memory"] = .ok ∅ ∧
    List.Perm [("default-b", (⟨{0, 1}, "0-1", SingleThreadHTPolicy⟩ : Pool)),
        ("default-a", ⟨∅, "", SingleThreadHTPolicy⟩)]
      (eightCpuNode (twoDefaultPools [("default-a", ⟨∅, "", SingleThreadHTPolicy⟩),
          ("default-b", ⟨{0, 1}, "0-1", SingleThreadHTPolicy⟩)])).env.poolsAtDefault ∧
    (cgroupWith "0-7\n").content "/cg/pod1/fff000/cpuset.cpus" = some "2-3\n" ∧
    (applyCpusetToInfraContainer
        (eightCpuNode (twoDefaultPools [("default-a", ⟨∅, "", SingleThreadHTPolicy⟩),
          ("default-b", ⟨{0, 1}, "0-1", SingleThreadHTPolicy⟩)]))
        [("default-b", ⟨{0, 1}, "0-1", SingleThreadHTPolicy⟩),
          ("default-a", ⟨∅, "", SingleThreadHTPolicy⟩)]
        (cgroupWith "0-7\n") runningPod.ObjectMeta runningPod.Status
        "/cg/pod1/abc123").1.content "/cg/pod1/fff000/cpuset.cpus" = some "0-1" ∧
    (applyCpusetToInfraContainer
        (eightCpuNode (twoDefaultPools [("default-a", ⟨∅, "", SingleThreadHTPolicy⟩),
          ("default-b", ⟨{0, 1}, "0-1", SingleThreadHTPolicy⟩)]))
        [("default-b", ⟨{0, 1}, "0-1", SingleThreadHTPolicy⟩),
          ("default-a", ⟨∅, "", SingleThreadHTPolicy⟩)]
        (cgroupWith "0-7\n") runningPod.ObjectMeta runningPod.Status "").2
      = some "container directory does not exists under the provided cgroupfs hierarchy: /cg" := by
  have hsel : (SelectPoolConfig [("default-b", (⟨{0, 1}, "0-1", SingleThreadHTPolicy⟩ : Pool)),
      ("default-a", ⟨∅, "", SingleThreadHTPolicy⟩)] DefaultPoolID).CPUset = {0, 1} := rfl
  have hne : ¬ (({0, 1} : CPUSet) = ∅) := by decide
  refine ⟨rfl, List.Perm.swap _ _ _, rfl, ?_, ?_⟩
  · unfold applyCpusetToInfraContainer
    rw [hsel, if_neg hne, if_neg (by decide)]
    have hpath : getInfraContainerPath
        (eightCpuNode (twoDefaultPools [("default-a", ⟨∅, "", SingleThreadHTPolicy⟩),
          ("default-b", ⟨{0, 1}, "0-1", SingleThreadHTPolicy⟩)])).containerPrefixList
        (cgroupWith "0-7\n") runningPod.Status "/cg/pod1/abc123" = "/cg/pod1/fff000" := by
      decide
    rw [hpath, if_neg (by decide)]
    have htext : (eightCpuNode (twoDefaultPools [("default-a", ⟨∅, "", SingleThreadHTPolicy⟩),
        ("default-b", ⟨{0, 1}, "0-1", SingleThreadHTPolicy⟩)])).cpusetString {0, 1} = "0-1" :=
      cpusetString_zero_one
    rw [htext]
    rfl
  · unfold applyCpusetToInfraContainer
    rw [hsel, if_neg hne, if_pos rfl]
    rfl

/-- C27, amended: whenever `determineCorrectCpuset` returns the empty core set without
error, the pool that its own selection of the default pool returns has no cores and
`applyCpusetToContainer` leaves the container alone; `applyCpusetToInfraContainer`,
which selects the default pool on its own, is then a no-op provided that at most one
pool of the configuration has a name beginning with `default`. -/
theorem determineCorrectCpuset_empty_default_empty (cc : CpuSetController)
    (poolsAtInfra : List (String × Pool)) (fs : FileSystem) (podMeta : v1.ObjectMeta)
    (podStatus : v1.PodStatus) (pathToSearchContainer containerID containerName : String)
    (requests : List String)
    (hempty : determineCorrectCpuset cc.env podMeta.UID containerName requests = .ok ∅) :
    (SelectPoolConfig cc.env.poolsAtDefault DefaultPoolID).CPUset = ∅ ∧
    applyCpusetToContainer cc fs podMeta containerID ∅ = (fs, .ok "") ∧
    (poolsAtInfra.Perm cc.env.poolsAtDefault →
      (∀ a ∈ cc.env.poolsAtDefault, ∀ b ∈ cc.env.poolsAtDefault,
        HasPrefix a.1 DefaultPoolID = true → HasPrefix b.1 DefaultPoolID = true → a = b) →
      applyCpusetToInfraContainer cc poolsAtInfra fs podMeta podStatus pathToSearchContainer
        = (fs, none)) := by
  have hdefault : (SelectPoolConfig cc.env.poolsAtDefault DefaultPoolID).CPUset = ∅ := by
    unfold determineCorrectCpuset at hempty
    cases hscan : scanRequests cc.env podMeta.UID containerName requests (∅, ∅) with
    | error e => rw [hscan] at hempty; cases hempty
    | ok sets =>
      obtain ⟨sharedCPUSet, exclusiveCPUSet⟩ := sets
      rw [hscan] at hempty
      simp only at hempty
      split at hempty
      · next hsome =>
        have hunion : sharedCPUSet ∪ exclusiveCPUSet = ∅ := by
          injection hempty
        rw [Finset.union_eq_empty] at hunion
        rcases hsome with h | h
        · exact absurd hunion.1 h
        · exact absurd hunion.2 h
      · injection hempty
  refine ⟨hdefault, by simp [applyCpusetToContainer], ?_⟩
  intro hperm hone
  unfold applyCpusetToInfraContainer
  rw [SelectPoolConfig_perm poolsAtInfra cc.env.poolsAtDefault DefaultPoolID hperm hone,
    if_pos hdefault]

/-- C27, amended, at a concrete input: with the single default pool `default` without
cores, the container that requests no pool resource gets the empty set and the infra
container is left alone. -/
theorem determineCorrectCpuset_empty_default_empty_witness :
    determineCorrectCpuset
        (eightCpuNode (twoDefaultPools [("default", ⟨∅, "", SingleThreadHTPolicy⟩)])).env
        "pod" "ctr" ["cpu", "memory"] = .ok ∅ ∧
    (applyCpusetToInfraContainer
        (eightCpuNode (twoDefaultPools [("default", ⟨∅, "", SingleThreadHTPolicy⟩)]))
        [("default", ⟨∅, "", SingleThreadHTPolicy⟩)]
        (cgroupWith "0-7\n") runningPod.ObjectMeta runningPod.Status "/cg/pod1/abc123")
      = (cgroupWith "0-7\n", none) :=
  ⟨rfl, (determineCorrectCpuset_empty_default_empty
      (eightCpuNode (twoDefaultPools [("default", ⟨∅, "", SingleThreadHTPolicy⟩)]))
      [("default", ⟨∅, "", SingleThreadHTPolicy⟩)] (cgroupWith "0-7\n")
      runningPod.ObjectMeta runningPod.Status "/cg/pod1/abc123" "abc123" "ctr"
      ["cpu", "memory"] rfl).2.2 (List.Perm.refl _)
      (by
        intro a ha b hb _ _
        rw [List.mem_singleton.1 ha, List.mem_singleton.1 hb])⟩

end CpusetsController
